import Mathlib

/-!
# Jupii content server: a verification development

Shallow embedding of parts of `src/core/contentserver.cpp` (the identifier
codec, the static file streamer, the SHOUTcast de-interleaver, the request
dispatcher, the DLNA content-features header, the playlist parsers, the
metadata cache with its resolution strategies, the handlers of the proxy
events and the stream titles) together with theorems about them.

Conventions:
* a `QByteArray` is a list of bytes, a byte is a `Fin 256`;
* C++ `int`/`qint64` values are `Int`; buffer sizes stay far below `2^31`, the
  one place where the width matters (`QString::toInt`) is modelled explicitly;
* calls into Qt (base64, `QByteArray::mid/remove/at`, `QRegExp`) are modelled
  after the documented behaviour of the library functions.
-/

namespace Jupii

/-! ## Byte arrays -/

/-- A byte (`char` seen as `uchar`). -/
abbrev Byte := Fin 256

/-- The `QByteArray` of Qt: a finite sequence of bytes. -/
abbrev QByteArray := List Byte

/-! ## Identifier codec (`ContentServer::encrypt`, `ContentServer::decrypt`) -/

/-- The alphabet `alphabet_base64url` used by `QByteArray::toBase64` under
`Base64UrlEncoding`. -/
def alphabet_base64url : List Char :=
  "ABCDEFGHIJKLMNOPQRSTUVWXYZabcdefghijklmnopqrstuvwxyz0123456789-_".toList

/-- The character `alphabet[j]` as a byte. -/
def b64Char (j : Nat) : Byte := Fin.ofNat ((alphabet_base64url.getD j 'A').toNat)

/-- The digit value `d` that `QByteArray::fromBase64` assigns to a character
under `Base64UrlEncoding`; `none` stands for `d = -1` (character skipped). -/
def b64Val (c : Byte) : Option Nat :=
  let ch := c.val
  if 65 ≤ ch ∧ ch ≤ 90 then some (ch - 65)
  else if 97 ≤ ch ∧ ch ≤ 122 then some (ch - 97 + 26)
  else if 48 ≤ ch ∧ ch ≤ 57 then some (ch - 48 + 52)
  else if ch = 45 then some 62
  else if ch = 95 then some 63
  else none

/-- Modelled from the spec: `QByteArray::toBase64(Base64UrlEncoding |
OmitTrailingEquals)` of the Qt library ("a URL-safe, padding-free base64
encoding"); three bytes at a time form a 24-bit chunk that is cut into four
6-bit digits, a trailing group of one or two bytes gives two or three digits
and no `=`. -/
def toBase64 : QByteArray → QByteArray
  | [] => []
  | [a] =>
    let chunk := a.val * 65536
    [b64Char (chunk / 262144 % 64), b64Char (chunk / 4096 % 64)]
  | [a, b] =>
    let chunk := a.val * 65536 + b.val * 256
    [b64Char (chunk / 262144 % 64), b64Char (chunk / 4096 % 64), b64Char (chunk / 64 % 64)]
  | a :: b :: c :: rest =>
    let chunk := a.val * 65536 + b.val * 256 + c.val
    b64Char (chunk / 262144 % 64) :: b64Char (chunk / 4096 % 64) ::
      b64Char (chunk / 64 % 64) :: b64Char (chunk % 64) :: toBase64 rest

/-- The loop of `QByteArray::fromBase64`: `buf` collects 6 bits per alphabet
character, a byte is emitted as soon as 8 bits are there, characters outside
the alphabet are skipped. -/
def fromBase64Loop : QByteArray → Nat → Nat → QByteArray
  | [], _, _ => []
  | ch :: rest, buf, nbits =>
    match b64Val ch with
    | none => fromBase64Loop rest buf nbits
    | some d =>
      let buf1 := buf * 64 + d
      let nbits1 := nbits + 6
      if 8 ≤ nbits1 then
        Fin.ofNat (buf1 / 2 ^ (nbits1 - 8)) ::
          fromBase64Loop rest (buf1 % 2 ^ (nbits1 - 8)) (nbits1 - 8)
      else fromBase64Loop rest buf1 nbits1

/-- Modelled from the spec: `QByteArray::fromBase64(data, Base64UrlEncoding |
OmitTrailingEquals)` of the Qt library, the inverse of `toBase64`. -/
def fromBase64 (data : QByteArray) : QByteArray := fromBase64Loop data 0 0

/-- The loop `while (key.size() < _data.size()) key += tmp;`. It does not end
when `tmp` is empty and the data are not; `none` is returned when the fuel is
used up. -/
def growKey (tmp : QByteArray) (size : Nat) : Nat → QByteArray → Option QByteArray
  | 0, _ => none
  | fuel + 1, key =>
    if key.length < size then growKey tmp size fuel (key ++ tmp) else some key

/-- The loop `for (i = 0; i < _data.size(); ++i) _data[i] = _data.at(i) ^ key.at(i)`
for a key that is at least as long as the data. -/
def xorWith (data key : QByteArray) : QByteArray :=
  List.zipWith (fun d k => d ^^^ k) data key

/-- `ContentServer::encrypt`, the key of `Settings::getKey()` passed
explicitly. The fuel `data.length + 1` is enough for every non-empty key;
`none` means that the key loop does not end. -/
def encrypt (settingsKey data : QByteArray) : Option QByteArray :=
  match growKey settingsKey data.length (data.length + 1) settingsKey with
  | none => none
  | some key => some (toBase64 (xorWith data key))

/-- `ContentServer::decrypt`, the key of `Settings::getKey()` passed
explicitly. -/
def decrypt (settingsKey data : QByteArray) : Option QByteArray :=
  let _data := fromBase64 data
  match growKey settingsKey _data.length (_data.length + 1) settingsKey with
  | none => none
  | some key => some (xorWith _data key)

/-- The path that `ContentServer::makeUrl` gives the URL: `"/" + hash`, where
`hash` is the encrypted identifier (`47` is the character `/`). -/
def makeUrlPath (settingsKey id : QByteArray) : Option QByteArray :=
  match encrypt settingsKey id with
  | none => none
  | some hash => some ((47 : Byte) :: hash)

/-- The first two statements of `ContentServer::idUrlFromUrl`:
`hash = url.path(); hash = hash.right(hash.length()-1)`. -/
def hashOfPath (path : QByteArray) : QByteArray :=
  path.drop (path.length - (path.length - 1))

/-- The decode step of `ContentServer::idUrlFromUrl`: the bytes handed to
`QUrl(QString::fromUtf8(...))`. -/
def decodePath (settingsKey path : QByteArray) : Option QByteArray :=
  decrypt settingsKey (hashOfPath path)

/-! ## `ContentServer::idUrlFromUrl` -/

/-- What `idUrlFromUrl` asks Qt and the file system about the decoded text.
Every field takes the decoded bytes, from which the code builds
`id = QUrl(QString::fromUtf8(...))`. A `QUrl` value is held as a text in
normal form, so that two values are the same text exactly when the two
`QUrl`s compare equal; `QUrl` normalises what it parses (the scheme is put in
lower case, for one), so different decoded texts can give the same value. -/
structure UrlEnv where
  /-- The value of `id`, as `return id` hands it to the caller. -/
  qurl : QByteArray → QByteArray
  /-- The value of `QUrl(id.toString())`, which `return id.toString()` builds
  by the converting constructor of `QUrl`. -/
  qurlToString : QByteArray → QByteArray
  /-- The result of `id.isValid()`. -/
  isValid : QByteArray → Bool
  /-- The result of `q.hasQueryItem(Utils::cookieKey)`. -/
  hasQueryItem : QByteArray → Bool
  /-- The result of `q.queryItemValue(Utils::cookieKey)`. -/
  queryItemValue : QByteArray → QByteArray
  /-- The result of `id.isLocalFile()`. -/
  isLocalFile : QByteArray → Bool
  /-- The result of `file.exists()` for `QFileInfo file(id.toLocalFile())`. -/
  exists_ : QByteArray → Bool
  /-- The result of `file.isFile()` for the same `QFileInfo`. -/
  isFile : QByteArray → Bool

/-- The constant `ContentServer::artCookie = "jupii_art"`. -/
def artCookie : QByteArray := [106, 117, 112, 105, 105, 95, 97, 114, 116]

/-- What a call `idUrlFromUrl(url, &ok, &isFile, &isArt)` leaves behind: the
returned `QUrl` value (`none` is the empty `QUrl()`), and the three flags,
where `none` says that the function did not write the flag. -/
structure IdUrl where
  url : Option QByteArray
  ok : Option Bool
  isFile : Option Bool
  isArt : Option Bool
deriving DecidableEq, Repr

/-- The statements of `ContentServer::idUrlFromUrl` that follow the decode
step, for the decoded text `id` and all three flag pointers given, as
`requestHandler` gives them. -/
def idUrlChecks (env : UrlEnv) (id : QByteArray) : IdUrl :=
  if !env.isValid id then
    { url := none, ok := some false, isFile := none, isArt := none }
  else if !env.hasQueryItem id || (env.queryItemValue id).isEmpty then
    { url := none, ok := some false, isFile := none, isArt := none }
  else
    let isArt := some (decide (env.queryItemValue id = artCookie))
    if env.isLocalFile id then
      if !env.exists_ id || !env.isFile id then
        { url := none, ok := some false, isFile := some true, isArt := isArt }
      else
        { url := some (env.qurlToString id), ok := some true, isFile := some true, isArt := isArt }
    else
      { url := some (env.qurl id), ok := some true, isFile := some false, isArt := isArt }

/-- `ContentServer::idUrlFromUrl`: the decode step followed by the checks.
`none` means that the key loop of `decrypt` does not end. -/
def idUrlFromUrl (env : UrlEnv) (settingsKey path : QByteArray) : Option IdUrl :=
  match decrypt settingsKey (hashOfPath path) with
  | none => none
  | some id => some (idUrlChecks env id)

/-! ## HTTP responses (`QHttpResponse`) -/

/-- The state of a `QHttpResponse`: the header map, the status line once it is
written, the body bytes written so far and the finished flag. -/
structure QHttpResponse where
  headers : List (String × String)
  status : Option Int
  body : QByteArray
  finished : Bool
deriving DecidableEq, Repr

/-- A fresh response: nothing set, nothing written. -/
def QHttpResponse.fresh : QHttpResponse :=
  { headers := [], status := none, body := [], finished := false }

/-- `QHttpResponse::setHeader`: the header map gets `field ↦ value`, an older
value of the field is replaced. -/
def QHttpResponse.setHeader (resp : QHttpResponse) (field value : String) : QHttpResponse :=
  if resp.finished then resp
  else { resp with headers := resp.headers.filter (fun h => h.1 ≠ field) ++ [(field, value)] }

/-- The value of a header in the map. -/
def QHttpResponse.header (resp : QHttpResponse) (field : String) : Option String :=
  (resp.headers.find? (fun h => h.1 = field)).map (fun h => h.2)

/-- `QHttpResponse::writeHead`: writes the status line once. -/
def QHttpResponse.writeHead (resp : QHttpResponse) (code : Int) : QHttpResponse :=
  if resp.finished then resp
  else if resp.status.isSome then resp
  else { resp with status := some code }

/-- `QHttpResponse::isHeaderWritten`. -/
def QHttpResponse.isHeaderWritten (resp : QHttpResponse) : Bool := resp.status.isSome

/-- `QHttpResponse::write`: appends body bytes once the head is written. -/
def QHttpResponse.write (resp : QHttpResponse) (data : QByteArray) : QHttpResponse :=
  if resp.finished then resp
  else if !resp.isHeaderWritten then resp
  else { resp with body := resp.body ++ data }

/-- `QHttpResponse::end`: writes the last bytes, if any, and finishes. -/
def QHttpResponse.end_ (resp : QHttpResponse) (data : QByteArray) : QHttpResponse :=
  if resp.finished then resp
  else { (if data.length > 0 then resp.write data else resp) with finished := true }

/-- `ContentServerWorker::sendEmptyResponse`. -/
def sendEmptyResponse (resp : QHttpResponse) (code : Int) : QHttpResponse :=
  ((resp.setHeader "Content-Length" "0").writeHead code).end_ []

/-- `ContentServerWorker::sendResponse`. -/
def sendResponse (resp : QHttpResponse) (code : Int) (data : QByteArray) : QHttpResponse :=
  (resp.writeHead code).end_ data

/-! ## Request dispatcher (`ContentServerWorker::requestHandler`) -/

/-- The methods of `QHttpRequest::HttpMethod` that matter here; every other
method of the enumeration is `HTTP_OTHER` with its number. -/
inductive HttpMethod where
  | HTTP_DELETE
  | HTTP_GET
  | HTTP_HEAD
  | HTTP_POST
  | HTTP_PUT
  | HTTP_OTHER (n : Nat)
deriving DecidableEq, Repr

/-- The calls that `requestHandler` makes besides writing to the response, in
the order in which it makes them. `M` is the type of `ItemMeta`. -/
inductive Call (M : Type) where
  | idUrlFromUrl (path : QByteArray)
  | makeMetaUsingExtension (id : QByteArray)
  | getMetaForId (id : QByteArray)
  | requestForFileHandler (id : QByteArray) (itemMeta : M)
  | requestForMicHandler (id : QByteArray) (itemMeta : M)
  | requestForPulseHandler (id : QByteArray) (itemMeta : M)
  | requestForUrlHandler (id : QByteArray) (itemMeta : M)
deriving DecidableEq, Repr

/-- The collaborators of `requestHandler`: `ContentServer::makeMetaUsingExtension`,
`ContentServer::getMetaForId` (`none` is the null pointer), `Utils::isUrlMic`
and `Utils::isUrlPulse`. -/
structure Collab (M : Type) where
  makeMetaUsingExtension : QByteArray → M
  getMetaForId : QByteArray → Option M
  isUrlMic : QByteArray → Bool
  isUrlPulse : QByteArray → Bool

/-- `ContentServerWorker::requestHandler`: the response as the function itself
leaves it and the calls it made. The identifier of an invalid result is the
empty `QUrl()`, written `[]`. `none` means that `decrypt` does not end. -/
def requestHandler {M : Type} (env : UrlEnv) (cs : Collab M) (settingsKey : QByteArray)
    (method : HttpMethod) (path : QByteArray) (resp : QHttpResponse) :
    Option (QHttpResponse × List (Call M)) :=
  if method ≠ HttpMethod.HTTP_GET ∧ method ≠ HttpMethod.HTTP_HEAD then
    some (sendEmptyResponse (resp.setHeader "Allow" "HEAD, GET") 405, [])
  else
    match idUrlFromUrl env settingsKey path with
    | none => none
    | some r =>
      let calls := [Call.idUrlFromUrl path]
      let id := r.url.getD []
      if r.ok ≠ some true then
        some (sendEmptyResponse resp 404, calls)
      else if r.isArt = some true then
        let itemMeta := cs.makeMetaUsingExtension id
        some (resp, calls ++ [Call.makeMetaUsingExtension id,
          Call.requestForFileHandler id itemMeta])
      else
        match cs.getMetaForId id with
        | none => some (sendEmptyResponse resp 404, calls ++ [Call.getMetaForId id])
        | some itemMeta =>
          let calls := calls ++ [Call.getMetaForId id]
          if r.isFile = some true then
            some (resp, calls ++ [Call.requestForFileHandler id itemMeta])
          else if cs.isUrlMic id then
            some (resp, calls ++ [Call.requestForMicHandler id itemMeta])
          else if cs.isUrlPulse id then
            some (resp, calls ++ [Call.requestForPulseHandler id itemMeta])
          else
            some (resp, calls ++ [Call.requestForUrlHandler id itemMeta])

/-- The outcomes of a GET or HEAD request that the specification lists. -/
inductive Outcome (M : Type) where
  | notFound
  | fileHandler (id : QByteArray) (itemMeta : M)
  | micHandler (id : QByteArray) (itemMeta : M)
  | loopbackHandler (id : QByteArray) (itemMeta : M)
  | proxyHandler (id : QByteArray) (itemMeta : M)
deriving DecidableEq, Repr

/-- The dispatch rule in the words of the specification (section 4.4, steps 2
to 5), for a decoded path `r`: 404 if the path does not decode to a valid
identifier; the file handler with extension-guessed metadata if the cookie is
the art cookie; 404 if full metadata resolution is absent; otherwise the
handler chosen by the shape of the identifier. -/
def dispatchSpec {M : Type} (cs : Collab M) (r : IdUrl) : Outcome M :=
  match r.url, r.ok with
  | some id, some true =>
    if r.isArt = some true then Outcome.fileHandler id (cs.makeMetaUsingExtension id)
    else
      match cs.getMetaForId id with
      | none => Outcome.notFound
      | some itemMeta =>
        if r.isFile = some true then Outcome.fileHandler id itemMeta
        else if cs.isUrlMic id then Outcome.micHandler id itemMeta
        else if cs.isUrlPulse id then Outcome.loopbackHandler id itemMeta
        else Outcome.proxyHandler id itemMeta
  | _, _ => Outcome.notFound

/-- The handlers that a list of calls invokes. -/
def handlerCalls {M : Type} : List (Call M) → List (Call M)
  | [] => []
  | Call.requestForFileHandler id m :: cs => Call.requestForFileHandler id m :: handlerCalls cs
  | Call.requestForMicHandler id m :: cs => Call.requestForMicHandler id m :: handlerCalls cs
  | Call.requestForPulseHandler id m :: cs => Call.requestForPulseHandler id m :: handlerCalls cs
  | Call.requestForUrlHandler id m :: cs => Call.requestForUrlHandler id m :: handlerCalls cs
  | _ :: cs => handlerCalls cs

/-- What an observer sees of a handled request: a 404 sent by the dispatcher
itself with no handler invoked, or the single handler that was invoked on an
untouched response. Everything else is `none`. -/
def observe {M : Type} (resp : QHttpResponse) (out : QHttpResponse × List (Call M)) :
    Option (Outcome M) :=
  match handlerCalls out.2 with
  | [] => if out.1 = sendEmptyResponse resp 404 then some Outcome.notFound else none
  | [Call.requestForFileHandler id m] =>
    if out.1 = resp then some (Outcome.fileHandler id m) else none
  | [Call.requestForMicHandler id m] =>
    if out.1 = resp then some (Outcome.micHandler id m) else none
  | [Call.requestForPulseHandler id m] =>
    if out.1 = resp then some (Outcome.loopbackHandler id m) else none
  | [Call.requestForUrlHandler id m] =>
    if out.1 = resp then some (Outcome.proxyHandler id m) else none
  | _ => none

/-! ## Static file streamer (`ContentServerWorker::streamFile`) -/

/-- The class `\s` of `QRegExp` on ASCII text. -/
def isSpace (c : Char) : Bool :=
  c = ' ' || c = '\t' || c = '\n' || c = '\r' || c.toNat = 11 || c.toNat = 12

/-- The class `\d` of `QRegExp` on ASCII text. -/
def isDigit (c : Char) : Bool := 48 ≤ c.toNat && c.toNat ≤ 57

/-- A match of `bytes[\s]*=[\s]*([\d]+)-([\d]*)` that starts at the head of the
text: the texts of its two capture groups. All three quantifiers are followed
by a character outside their class, so the greedy match is the only one. -/
def rxMatchHere : List Char → Option (List Char × List Char)
  | 'b' :: 'y' :: 't' :: 'e' :: 's' :: rest =>
    match rest.dropWhile isSpace with
    | '=' :: rest1 =>
      let rest2 := rest1.dropWhile isSpace
      match rest2.takeWhile isDigit, rest2.dropWhile isDigit with
      | d :: ds, '-' :: rest3 => some (d :: ds, rest3.takeWhile isDigit)
      | _, _ => none
    | _ => none
  | _ => none

/-- `rx.indexIn(text) >= 0` for `QRegExp rx("bytes[\\s]*=[\\s]*([\\d]+)-([\\d]*)")`:
the leftmost match, `none` when there is none. -/
def rxIndexIn : List Char → Option (List Char × List Char)
  | [] => none
  | c :: cs =>
    match rxMatchHere (c :: cs) with
    | some m => some m
    | none => rxIndexIn cs

/-- `rx.cap(nth)` for `nth ≥ 1` after a match: the expression has two capture
groups, and `QRegExp::cap` gives the empty string for every group that does
not exist. -/
def rxCap (m : List Char × List Char) (nth : Nat) : List Char :=
  match nth with
  | 1 => m.1
  | 2 => m.2
  | _ => []

/-- The number that a string of decimal digits writes. -/
def digitsValue (ds : List Char) : Nat :=
  ds.foldl (fun acc c => acc * 10 + (c.toNat - 48)) 0

/-- `QString::toInt()` on an optional sign followed by decimal digits: the
number if it is a 32-bit `int`, and `0` ("conversion fails") otherwise. -/
def toInt (s : List Char) : Int :=
  let body (ds : List Char) (sign : Int) : Int :=
    if ds ≠ [] ∧ ds.all isDigit = true ∧
        -2147483648 ≤ sign * (digitsValue ds : Int) ∧ sign * (digitsValue ds : Int) ≤ 2147483647
    then sign * (digitsValue ds : Int) else 0
  match s with
  | '-' :: ds => body ds (-1)
  | '+' :: ds => body ds 1
  | ds => body ds 1

/-- An incoming `QHttpRequest`: the method and the header map (names in lower
case, as `QHttpRequest::headers()` gives them). -/
structure QHttpRequest where
  method : HttpMethod
  headers : List (String × String)

/-- The result of `headers.contains(name)`. -/
def QHttpRequest.contains (req : QHttpRequest) (name : String) : Bool :=
  req.headers.any (fun h => h.1 = name)

/-- The result of `headers.value(name)`. -/
def QHttpRequest.value (req : QHttpRequest) (name : String) : String :=
  ((req.headers.find? (fun h => h.1 = name)).map (fun h => h.2)).getD ""

/-- The loop of `ContentServerWorker::seqWriteData` on a file with the given
content, read from position `pos`; `qlen` is `ContentServer::qlen`. The buffer
`data` has `len` bytes of which `file.read` fills the first `count`. -/
def seqWriteDataLoop (qlen : Int) (content : QByteArray) :
    Nat → Int → Nat → QHttpResponse → Option (Bool × QHttpResponse)
  | 0, _, _, _ => none
  | fuel + 1, rlen, pos, resp =>
    if resp.finished then some (false, resp)
    else
      let len := if rlen < qlen then rlen else qlen
      let chunk := (content.drop pos).take len.toNat
      let count : Int := if len < 0 then -1 else chunk.length
      let data := chunk ++ List.replicate (len.toNat - chunk.length) (0 : Byte)
      let rlen1 := rlen - len
      if count > 0 then
        if rlen1 > 0 then seqWriteDataLoop qlen content fuel rlen1 (pos + chunk.length) (resp.write data)
        else some (true, resp.write data)
      else some (true, resp)

/-- `ContentServerWorker::seqWriteData`; every pass of the loop with `rlen > 0`
left takes at least one byte off `rlen`, so `size + 1` passes are enough. -/
def seqWriteData (qlen : Int) (content : QByteArray) (pos : Nat) (size : Int)
    (resp : QHttpResponse) : Option (Bool × QHttpResponse) :=
  seqWriteDataLoop qlen content (size.toNat + 1) size pos resp

/-- `ContentServerWorker::streamFile`. `file` is the content of the file at
`path`, `none` when it cannot be opened; `features` is the value of
`ContentServer::dlnaContentFeaturesHeader(mime)`; `qlen` is
`ContentServer::qlen`. -/
def streamFile (qlen : Int) (file : Option QByteArray) (mime features : String)
    (req : QHttpRequest) (resp : QHttpResponse) : Option QHttpResponse :=
  match file with
  | none => some (sendEmptyResponse resp 500)
  | some content =>
    let length : Int := content.length
    let isRange := req.contains "range"
    let isHead := decide (req.method = HttpMethod.HTTP_HEAD)
    let resp := resp.setHeader "Content-Type" mime
    let resp := resp.setHeader "Accept-Ranges" "bytes"
    let resp := resp.setHeader "Connection" "close"
    let resp := resp.setHeader "transferMode.dlna.org" "Streaming"
    let resp := resp.setHeader "contentFeatures.dlna.org" features
    if isRange then
      match rxIndexIn (req.value "range").toList with
      | some m =>
        let startByte : Int := toInt (rxCap m 1)
        let endByte : Int := if rxCap m 3 = [] then length - 1 else toInt (rxCap m 3)
        let rangeLength : Int := endByte - startByte + 1
        if endByte > length - 1 then some (sendEmptyResponse resp 416)
        else
          let resp := resp.setHeader "Content-Length" (toString rangeLength)
          let resp := resp.setHeader "Content-Range"
            ("bytes " ++ toString startByte ++ "-" ++ toString endByte ++ "/" ++
              toString (length - 1))
          if isHead then some (sendResponse resp 206 [])
          else
            let resp := resp.writeHead 206
            match seqWriteData qlen content startByte.toNat rangeLength resp with
            | none => none
            | some (false, resp) => some resp
            | some (true, resp) => some (resp.end_ [])
      | none => some (sendEmptyResponse resp 416)
    else
      let resp := resp.setHeader "Content-Length" (toString length)
      if isHead then some (sendResponse resp 200 [])
      else
        let resp := resp.writeHead 200
        match seqWriteData qlen content 0 length resp with
        | none => none
        | some (false, resp) => some resp
        | some (true, resp) => some (resp.end_ [])

/-! ## SHOUTcast de-interleaving (`ContentServerWorker::processShoutcastMetadata`) -/

/-- `QByteArray::at(i)`; the index must be in range (`Q_ASSERT` in Qt, a read
outside the buffer otherwise), `none` when it is not. -/
def QByteArray_at (d : QByteArray) (i : Int) : Option Byte :=
  if 0 ≤ i ∧ i < d.length then d.get? i.toNat else none

/-- `QByteArray::mid(pos, len)` with the clipping of Qt 5
(`QContainerImplHelper::mid`): nothing for a position behind the end, the
rest of the array for a length that is negative or too large. -/
def QByteArray_mid (d : QByteArray) (pos len : Int) : QByteArray :=
  if pos > d.length then []
  else if pos < 0 then
    if len < 0 ∨ len + pos ≥ d.length then d
    else if len + pos ≤ 0 then []
    else d.take (len + pos).toNat
  else if len < 0 ∨ len > d.length - pos then d.drop pos.toNat
  else (d.drop pos.toNat).take len.toNat

/-- `QByteArray::remove(pos, len)`: no change for `len <= 0` or a position
outside the array, and the removal is clipped at the end of the array. -/
def QByteArray_remove (d : QByteArray) (pos len : Int) : QByteArray :=
  if len ≤ 0 ∨ pos < 0 ∨ pos ≥ d.length then d
  else if len ≥ d.length - pos then d.take pos.toNat
  else d.take pos.toNat ++ d.drop (pos + len).toNat

/-- The fields of `ContentServerWorker::ProxyItem` that the read path uses.
`meta` says that the client sent `icy-metadata`; `data` is the carry-over
buffer. -/
structure ProxyItem where
  id : QByteArray
  meta : Bool
  seek : Bool
  state : Int
  metaint : Int
  metacounter : Int
  data : QByteArray
deriving DecidableEq, Repr

/-- A signal `shoutcastMetadataUpdated(id, metadata)`. -/
abbrev MetadataSignal := QByteArray × QByteArray

/-- How the `for` loop of `processShoutcastMetadata` ends: by the early
`return` of the branch "partial metadata received", with the buffer and the
item as they are then, or after `nmeta` passes, with `totalsize` and
`rpoints`. -/
inductive MetaLoop where
  | earlyReturn (data : QByteArray) (item : ProxyItem) (emitted : List MetadataSignal)
  | finished (totalsize : Int) (rpoints : List (Int × Int)) (emitted : List MetadataSignal)
deriving DecidableEq, Repr

/-- The loop `for (int i = 0; i < nmeta; ++i)` of `processShoutcastMetadata`;
the first argument counts the passes left. `none` stands for a failed range
check of `data.at`. -/
def metaLoop (data : QByteArray) (item : ProxyItem) (count bytes : Int) :
    Nat → Int → Int → List (Int × Int) → List MetadataSignal → Option MetaLoop
  | 0, _, totalsize, rpoints, emitted => some (MetaLoop.finished totalsize rpoints emitted)
  | n + 1, i, totalsize, rpoints, emitted =>
    let offset := i * item.metaint + totalsize + i
    let start := item.metaint - item.metacounter
    match QByteArray_at data (start + offset) with
    | none => none
    | some b =>
      let size : Int := 16 * (b.val : Int)
      let maxsize := count - (start + offset)
      if size > maxsize then
        let metadata := QByteArray_mid data (start + offset) maxsize
        let data1 := QByteArray_remove data (start + offset) maxsize
        some (MetaLoop.earlyReturn data1
          { item with data := metadata, metacounter := bytes - metadata.length } emitted)
      else
        let emitted1 :=
          if size > 0 then emitted ++ [(item.id, QByteArray_mid data (start + offset + 1) size)]
          else emitted
        let totalsize1 := if size > 0 then totalsize + size else totalsize
        let rpoints1 := if !item.meta then rpoints ++ [(start + offset, size + 1)] else rpoints
        metaLoop data item count bytes n (i + 1) totalsize1 rpoints1 emitted1

/-- The loop "Removing metadata from stream" of `processShoutcastMetadata`:
`for (auto& p : rpoints) { data.remove(offset + p.first, p.second); offset = p.second; }`. -/
def removeLoop : List (Int × Int) → Int → QByteArray → QByteArray
  | [], _, data => data
  | p :: ps, offset, data => removeLoop ps p.2 (QByteArray_remove data (offset + p.1) p.2)

/-- What `processShoutcastMetadata(data, item)` leaves behind: the buffer, the
item and the signals emitted. -/
structure Processed where
  data : QByteArray
  item : ProxyItem
  emitted : List MetadataSignal
deriving DecidableEq, Repr

/-- `ContentServerWorker::processShoutcastMetadata`. `none` stands for a failed
`Q_ASSERT(item.metaint >= item.metacounter)`, a failed range check of
`data.at` or a division by `metaint = 0`. -/
def processShoutcastMetadata (data : QByteArray) (item : ProxyItem) : Option Processed :=
  let count : Int := data.length
  let bytes : Int := item.metacounter + count
  if bytes > item.metaint then
    if ¬ (item.metaint ≥ item.metacounter) then none
    else if item.metaint = 0 then none
    else
      let nmeta : Int := Int.tdiv bytes item.metaint
      match metaLoop data item count bytes nmeta.toNat 0 0 [] [] with
      | none => none
      | some (MetaLoop.earlyReturn data1 item1 emitted) =>
        some { data := data1, item := item1, emitted := emitted }
      | some (MetaLoop.finished totalsize rpoints emitted) =>
        let item1 := { item with
          metacounter := bytes - nmeta * (item.metaint + 1) - totalsize }
        let data1 := if !item.meta && !rpoints.isEmpty then removeLoop rpoints 0 data else data
        some { data := data1, item := item1, emitted := emitted }
  else some { data := data, item := { item with metacounter := bytes }, emitted := [] }

/-- What a call of `proxyReadyRead` leaves behind: the item (`none` when it was
removed from `proxyItems`), the client response and the signals
`shoutcastMetadataUpdated` emitted. -/
structure ReadOut where
  item : Option ProxyItem
  resp : QHttpResponse
  emitted : List MetadataSignal
deriving DecidableEq, Repr

/-- `ContentServerWorker::proxyReadyRead` for a reply that has a proxy item;
`readAll` is the result of `reply->readAll()`. `none` stands for a failed
assertion inside `processShoutcastMetadata`. -/
def proxyReadyRead (item : ProxyItem) (resp : QHttpResponse) (readAll : QByteArray) :
    Option ReadOut :=
  if resp.finished then some { item := none, resp := resp, emitted := [] }
  else if item.state = 1 then
    if !resp.isHeaderWritten then some { item := none, resp := resp.end_ [], emitted := [] }
    else
      let data := if !item.data.isEmpty then item.data ++ readAll else readAll
      let item := if !item.data.isEmpty then { item with data := [] } else item
      if data.length > 0 then
        if item.metaint > 0 then
          match processShoutcastMetadata data item with
          | none => none
          | some r => some { item := some r.item, resp := resp.write r.data, emitted := r.emitted }
        else some { item := some item, resp := resp.write data, emitted := [] }
      else some { item := some item, resp := resp, emitted := [] }
  else some { item := some item, resp := resp, emitted := [] }

/-- A run of `proxyReadyRead` over consecutive reads of one reply: the last
state, all bytes written to the client and all signals emitted. The run stops
when the item is removed. -/
def proxyReads : ProxyItem → QHttpResponse → List QByteArray → Option ReadOut
  | item, resp, [] => some { item := some item, resp := resp, emitted := [] }
  | item, resp, r :: rs =>
    match proxyReadyRead item resp r with
    | none => none
    | some out =>
      match out.item with
      | none => some out
      | some item1 =>
        match proxyReads item1 out.resp rs with
        | none => none
        | some out1 => some { out1 with emitted := out.emitted ++ out1.emitted }

/-- A request that carries the header `Range: bytes=<ds>-<es>`. -/
def rangeRequest (method : HttpMethod) (ds es : List Char) : QHttpRequest :=
  { method := method
    headers := [("range", String.mk ('b' :: 'y' :: 't' :: 'e' :: 's' :: '=' :: (ds ++ '-' :: es)))] }

/-- The response of `streamFile` to a Range request on a file of `length`
bytes when the range starts at `startByte` and ends at the last byte of the
file: status 206, the headers below, and `body`. -/
def rangeResponse (mime features : String) (length startByte : Int) (body : QByteArray) :
    QHttpResponse :=
  { headers :=
      [("Content-Type", mime), ("Accept-Ranges", "bytes"), ("Connection", "close"),
        ("transferMode.dlna.org", "Streaming"), ("contentFeatures.dlna.org", features),
        ("Content-Length", toString (length - 1 - startByte + 1)),
        ("Content-Range", "bytes " ++ toString startByte ++ "-" ++ toString (length - 1) ++ "/" ++
          toString (length - 1))]
    status := some 206
    body := body
    finished := true }

/-! ## Sample inputs -/

/-- A key of three bytes, the text `key`. -/
def sampleKey : QByteArray := [107, 101, 121]

/-- The identifier `http://h/a.mp3?jupii_cookie=c` as bytes. -/
def sampleId : QByteArray :=
  [104, 116, 116, 112, 58, 47, 47, 104, 47, 97, 46, 109, 112, 51, 63, 106, 117, 112, 105,
    105, 95, 99, 111, 111, 107, 105, 101, 61, 99]

/-- The token `AxENG19WRA1WCksUG1ZGARAJAgwmCAoWAAwcVgY` that `encrypt` gives
`sampleId` under `sampleKey`. -/
def sampleToken : QByteArray :=
  [65, 120, 69, 78, 71, 49, 57, 87, 82, 65, 49, 87, 67, 107, 115, 85, 71, 49, 90, 71, 65,
    82, 65, 74, 65, 103, 119, 109, 67, 65, 111, 87, 65, 65, 119, 99, 86, 103, 89]

/-- The token `sampleToken` with its last character `Y` replaced by `Z`: the
two characters differ only in the two low bits, which carry no payload. -/
def tamperedToken : QByteArray :=
  [65, 120, 69, 78, 71, 49, 57, 87, 82, 65, 49, 87, 67, 107, 115, 85, 71, 49, 90, 71, 65,
    82, 65, 74, 65, 103, 119, 109, 67, 65, 111, 87, 65, 65, 119, 99, 86, 103, 90]

/-- An environment in which exactly `sampleId` is a valid remote URL whose
query carries the cookie `c`; the text `sampleId` is in normal form. -/
def sampleEnv : UrlEnv :=
  { qurl := fun id => id
    qurlToString := fun id => id
    isValid := fun id => decide (id = sampleId)
    hasQueryItem := fun id => decide (id = sampleId)
    queryItemValue := fun id => if id = sampleId then [99] else []
    isLocalFile := fun _ => false
    exists_ := fun _ => false
    isFile := fun _ => false }

/-- A sample of the normal form of `QUrl`: the scheme (the bytes before the
first `:`) in lower case, the rest of the text as it is. -/
def lowerScheme : QByteArray → QByteArray
  | [] => []
  | c :: r =>
    if c = 58 then c :: r
    else (if 65 ≤ c.val ∧ c.val ≤ 90 then c + 32 else c) :: lowerScheme r

/-- The text `Http://h/a.mp3?jupii_cookie=c` as bytes: `sampleId` with an
upper-case letter in its scheme. -/
def upperSchemeId : QByteArray :=
  [72, 116, 116, 112, 58, 47, 47, 104, 47, 97, 46, 109, 112, 51, 63, 106, 117, 112, 105,
    105, 95, 99, 111, 111, 107, 105, 101, 61, 99]

/-- The token `IxENG19WRA1WCksUG1ZGARAJAgwmCAoWAAwcVgY` that `encrypt` gives
`upperSchemeId` under `sampleKey`. -/
def upperSchemeToken : QByteArray :=
  [73, 120, 69, 78, 71, 49, 57, 87, 82, 65, 49, 87, 67, 107, 115, 85, 71, 49, 90, 71, 65,
    82, 65, 74, 65, 103, 119, 109, 67, 65, 111, 87, 65, 65, 119, 99, 86, 103, 89]

/-- An environment that reads a text through `lowerScheme`: the texts whose
normal form is `sampleId` are valid remote URLs whose query carries the cookie
`c`. -/
def lowerSchemeEnv : UrlEnv :=
  { qurl := lowerScheme
    qurlToString := lowerScheme
    isValid := fun id => decide (lowerScheme id = sampleId)
    hasQueryItem := fun id => decide (lowerScheme id = sampleId)
    queryItemValue := fun id => if lowerScheme id = sampleId then [99] else []
    isLocalFile := fun _ => false
    exists_ := fun _ => false
    isFile := fun _ => false }

/-- Collaborators for `sampleId`: metadata is a number, `7` from the extension
guess and `9` from the resolver; the identifier is neither the microphone nor
the loopback pseudo-URL. -/
def sampleCollab : Collab Nat :=
  { makeMetaUsingExtension := fun _ => 7
    getMetaForId := fun id => if id = sampleId then some 9 else none
    isUrlMic := fun _ => false
    isUrlPulse := fun _ => false }

/-- The text `http://h:x/?jupii_cookie=jupii_art` as bytes: no valid URL (the
port is no number), but its query carries the art cookie. -/
def badPortId : QByteArray :=
  [104, 116, 116, 112, 58, 47, 47, 104, 58, 120, 47, 63, 106, 117, 112, 105, 105, 95, 99, 111,
    111, 107, 105, 101, 61, 106, 117, 112, 105, 105, 95, 97, 114, 116]

/-- The path `/` followed by the token that `encrypt` gives `badPortId` under
`sampleKey`. -/
def badPortPath : QByteArray :=
  [47, 65, 120, 69, 78, 71, 49, 57, 87, 82, 65, 49, 68, 69, 48, 112, 71, 65, 82, 65, 74, 65,
    103, 119, 109, 67, 65, 111, 87, 65, 65, 119, 99, 86, 103, 56, 77, 71, 119, 119, 81, 78, 65,
    81, 76, 72, 119]

/-- An environment in which `badPortId` is an invalid URL whose query carries
the art cookie, as `QUrl` and `QUrlQuery` report it. -/
def badPortEnv : UrlEnv :=
  { qurl := fun id => id
    qurlToString := fun id => id
    isValid := fun _ => false
    hasQueryItem := fun id => decide (id = badPortId)
    queryItemValue := fun id => if id = badPortId then artCookie else []
    isLocalFile := fun _ => false
    exists_ := fun _ => false
    isFile := fun _ => false }

/-! ## DLNA content features (`ContentServer::dlnaContentFeaturesHeader`) -/

/-- A `QString`: a sequence of characters. -/
abbrev QString := List Char

/-- The result of `s.contains(pat, Qt::CaseInsensitive)` on ASCII text. -/
def containsCI (s pat : QString) : Bool :=
  decide ((pat.map Char.toLower) <:+: (s.map Char.toLower))

/-- The constant `ContentServer::dlnaOrgOpFlagsSeekBytes`. -/
def dlnaOrgOpFlagsSeekBytes : QString := "DLNA.ORG_OP=01".toList

/-- The constant `ContentServer::dlnaOrgOpFlagsNoSeek`. -/
def dlnaOrgOpFlagsNoSeek : QString := "DLNA.ORG_OP=00".toList

/-- The constant `ContentServer::dlnaOrgCiFlags`. -/
def dlnaOrgCiFlags : QString := "DLNA.ORG_CI=0".toList

/-- One hexadecimal digit as `printf` writes it for `%x`. -/
def hexDigit (n : Nat) : Char :=
  if n < 10 then Char.ofNat (48 + n) else Char.ofNat (87 + n)

/-- The conversion `%.<k>x` of `printf` for a number below `16 ^ k`: exactly
`k` hexadecimal digits, the most significant first. -/
def hexFixed : Nat → Nat → QString
  | 0, _ => []
  | k + 1, n => hexDigit (n / 16 ^ k % 16) :: hexFixed k n

/-- The two bit masks that the code builds from the macros `DLNA_ORG_FLAG_*`:
`forFile` is `BYTE_BASED_SEEK | INTERACTIVE_TRANSFERT_MODE |
BACKGROUND_TRANSFER_MODE`, `forStreaming` is `S0_INCREASE | SN_INCREASE |
CONNECTION_STALL | STREAMING_TRANSFER_MODE`, both 32-bit values. -/
structure DlnaOrgFlags where
  forFile : Nat
  forStreaming : Nat

/-- `ContentServer::dlnaOrgFlagsForFile`:
`sprintf(flags, "%s=%.8x%.24x", "DLNA.ORG_FLAGS", mask, 0)`. -/
def dlnaOrgFlagsForFile (fl : DlnaOrgFlags) : QString :=
  "DLNA.ORG_FLAGS=".toList ++ hexFixed 8 (fl.forFile % 2 ^ 32) ++ hexFixed 24 0

/-- `ContentServer::dlnaOrgFlagsForStreaming`. -/
def dlnaOrgFlagsForStreaming (fl : DlnaOrgFlags) : QString :=
  "DLNA.ORG_FLAGS=".toList ++ hexFixed 8 (fl.forStreaming % 2 ^ 32) ++ hexFixed 24 0

/-- `ContentServer::dlnaOrgPnFlags`; the empty string is `QString()`. -/
def dlnaOrgPnFlags (mime : QString) : QString :=
  if containsCI mime "video/x-msvideo".toList then "DLNA.ORG_PN=AVI".toList
  else if containsCI mime "audio/aac".toList || containsCI mime "audio/aacp".toList then
    "DLNA.ORG_PN=AAC".toList
  else if containsCI mime "audio/mpeg".toList then "DLNA.ORG_PN=MP3".toList
  else if containsCI mime "audio/vnd.wav".toList then "DLNA.ORG_PN=LPCM".toList
  else if containsCI mime "audio/L16".toList then "DLNA.ORG_PN=LPCM".toList
  else if containsCI mime "video/x-matroska".toList then "DLNA.ORG_PN=MKV".toList
  else []

/-- `ContentServer::dlnaContentFeaturesHeader`; `QString("%1;%2;%3").arg(a, b, c)`
puts the arguments in the places of the markers in one pass. -/
def dlnaContentFeaturesHeader (fl : DlnaOrgFlags) (mime : QString) (seek flags : Bool) :
    QString :=
  let pnFlags := dlnaOrgPnFlags mime
  if pnFlags.isEmpty then
    if flags then
      (if seek then dlnaOrgOpFlagsSeekBytes else dlnaOrgOpFlagsNoSeek) ++ ';' ::
        dlnaOrgCiFlags ++ ';' ::
        (if seek then dlnaOrgFlagsForFile fl else dlnaOrgFlagsForStreaming fl)
    else
      (if seek then dlnaOrgOpFlagsSeekBytes else dlnaOrgOpFlagsNoSeek) ++ ';' :: dlnaOrgCiFlags
  else
    if flags then
      pnFlags ++ ';' :: (if seek then dlnaOrgOpFlagsSeekBytes else dlnaOrgOpFlagsNoSeek) ++ ';' ::
        dlnaOrgCiFlags ++ ';' ::
        (if seek then dlnaOrgFlagsForFile fl else dlnaOrgFlagsForStreaming fl)
    else
      pnFlags ++ ';' :: (if seek then dlnaOrgOpFlagsSeekBytes else dlnaOrgOpFlagsNoSeek) ++ ';' ::
        dlnaOrgCiFlags

/-- The tokens of the content-features header as the specification lists
them, in its order: profile (if there is one), op-flags, ci-flags and, in the
verbose form, the capability flags. -/
def dlnaTokens (fl : DlnaOrgFlags) (mime : QString) (seek flags : Bool) : List QString :=
  (if dlnaOrgPnFlags mime = [] then [] else [dlnaOrgPnFlags mime]) ++
    [if seek then "DLNA.ORG_OP=01".toList else "DLNA.ORG_OP=00".toList, "DLNA.ORG_CI=0".toList] ++
    (if flags then [if seek then dlnaOrgFlagsForFile fl else dlnaOrgFlagsForStreaming fl] else [])

/-- The flag masks of the DLNA guidelines, used as sample values. -/
def sampleDlnaOrgFlags : DlnaOrgFlags := { forFile := 549453824, forStreaming := 421527552 }

/-! ## Playlist parsers (`parsePls`, `parseM3u`, `parseXspf`) -/

/-- The struct `ContentServer::PlaylistItemMeta`. A default-constructed item
has an empty URL, an empty title and length 0. -/
structure PlaylistItemMeta where
  url : QString
  title : QString
  length : Int
deriving DecidableEq, Repr

/-- A default-constructed `PlaylistItemMeta`. -/
def PlaylistItemMeta.empty : PlaylistItemMeta := { url := [], title := [], length := 0 }

/-- The text without the white space at its two ends. -/
def trimSpace (s : QString) : QString :=
  ((s.dropWhile isSpace).reverse.dropWhile isSpace).reverse

/-- `QString::toInt(&ok)` in base 10: white space at both ends is ignored, a
sign may come first, then decimal digits; `none` stands for `ok = false` (no
number, or a number that is no 32-bit `int`). -/
def toIntOk (s : QString) : Option Int :=
  let body (ds : List Char) (sign : Int) : Option Int :=
    if ds ≠ [] ∧ ds.all isDigit = true ∧
        -2147483648 ≤ sign * (digitsValue ds : Int) ∧ sign * (digitsValue ds : Int) ≤ 2147483647
    then some (sign * (digitsValue ds : Int)) else none
  match trimSpace s with
  | '-' :: ds => body ds (-1)
  | '+' :: ds => body ds 1
  | ds => body ds 1

/-- The text behind a keyword at the head of `s`, letters compared without
regard to case (`Qt::CaseInsensitive`); `none` when `s` does not start with
the keyword. -/
def stripKeyword : QString → QString → Option QString
  | [], s => some s
  | _ :: _, [] => none
  | k :: ks, c :: s => if k.toLower = c.toLower then stripKeyword ks s else none

/-- The part `(\d\d?)=` of the three expressions of `parsePls`: the digits
captured and the text behind the `=`. Two digits are tried first. -/
def plsIndex : QString → Option (QString × QString)
  | d1 :: d2 :: c3 :: r =>
    if isDigit d1 && isDigit d2 && c3 = '=' then some ([d1, d2], r)
    else if isDigit d1 && d2 = '=' then some ([d1], c3 :: r)
    else none
  | [d1, d2] => if isDigit d1 && d2 = '=' then some ([d1], []) else none
  | _ => none

/-- A match of `\n<keyword>(\d\d?)=([^\n]*)` that starts at the head of the
text: the two captures and the length of the match. -/
def plsMatchHere (keyword : QString) : QString → Option (QString × QString × Nat)
  | '\n' :: r =>
    match stripKeyword keyword r with
    | none => none
    | some r1 =>
      match plsIndex r1 with
      | none => none
      | some (cap1, r2) =>
        let cap2 := r2.takeWhile (fun c => c ≠ '\n')
        some (cap1, cap2, 1 + keyword.length + cap1.length + 1 + cap2.length)
  | _ => none

/-- The loop `while ((pos = rx.indexIn(data, pos)) != -1) { ...; pos +=
rx.matchedLength(); }`: the captures of the matches found, in order. The
number counts the characters that the last match still covers. -/
def plsScan (keyword : QString) : QString → Nat → List (QString × QString)
  | [], _ => []
  | _ :: rest, skip + 1 => plsScan keyword rest skip
  | c :: rest, 0 =>
    match plsMatchHere keyword (c :: rest) with
    | some (cap1, cap2, len) => (cap1, cap2) :: plsScan keyword rest (len - 1)
    | none => plsScan keyword rest 0

/-- A `QMap<int, PlaylistItemMeta>`: the entries in ascending order of their
keys. -/
abbrev PlsMap := List (Int × PlaylistItemMeta)

/-- The statement `auto &item = map[n]; item.<field> = ...`: the entry of `n`,
made from a default item when there is none, is changed by `f`. -/
def PlsMap.update (f : PlaylistItemMeta → PlaylistItemMeta) (n : Int) : PlsMap → PlsMap
  | [] => [(n, f PlaylistItemMeta.empty)]
  | (k, v) :: rest =>
    if n < k then (n, f PlaylistItemMeta.empty) :: (k, v) :: rest
    else if n = k then (k, f v) :: rest
    else (k, v) :: PlsMap.update f n rest

/-- The keys of a map are in strictly ascending order. -/
abbrev PlsMap.Sorted (m : PlsMap) : Prop := m.Pairwise (fun a b => a.1 < b.1)

/-- The result of `map.contains(n)`. -/
def PlsMap.contains (m : PlsMap) (n : Int) : Bool := m.any (fun e => e.1 = n)

/-- The entry of `n` in the map, if there is one. -/
def PlsMap.lookup (m : PlsMap) (n : Int) : Option PlaylistItemMeta :=
  (m.find? (fun e => e.1 = n)).map (fun e => e.2)

/-- The body of the first loop of `parsePls` ("urls") for one match. -/
def plsFileStep (urlFromText : QString → QString) (m : PlsMap) (cap : QString × QString) :
    PlsMap :=
  match toIntOk cap.1 with
  | some n =>
    let url := urlFromText cap.2
    if !url.isEmpty then PlsMap.update (fun item => { item with url := url }) n m else m
  | none => m

/-- The body of the second loop of `parsePls` ("titles") for one match. -/
def plsTitleStep (m : PlsMap) (cap : QString × QString) : PlsMap :=
  match toIntOk cap.1 with
  | some n =>
    if m.contains n then PlsMap.update (fun item => { item with title := cap.2 }) n m else m
  | none => m

/-- The body of the third loop of `parsePls` ("length") for one match. -/
def plsLengthStep (m : PlsMap) (cap : QString × QString) : PlsMap :=
  match toIntOk cap.1 with
  | some n =>
    if m.contains n then
      match toIntOk cap.2 with
      | some length =>
        PlsMap.update (fun item => { item with length := if length < 0 then 0 else length }) n m
      | none => m
    else m
  | none => m

/-- The map that `ContentServer::parsePls` has built when it returns;
`urlFromText` is `Utils::urlFromText(text, context)`, an empty text is the
empty `QUrl`. -/
def parsePlsMap (urlFromText : QString → QString) (data : QString) : PlsMap :=
  let m := (plsScan "File".toList data 0).foldl (plsFileStep urlFromText) []
  if !m.isEmpty then
    let m1 := (plsScan "Title".toList data 0).foldl plsTitleStep m
    (plsScan "Length".toList data 0).foldl plsLengthStep m1
  else m

/-- `ContentServer::parsePls`: `map.values()`, the items in ascending order of
their keys. -/
def parsePls (urlFromText : QString → QString) (data : QString) : List PlaylistItemMeta :=
  (parsePlsMap urlFromText data).map (fun e => e.2)

/-- A sample `Utils::urlFromText`: a text that starts with `http://` is its
own URL, every other text gives the empty URL. -/
def sampleUrlFromText (text : QString) : QString :=
  match text with
  | 'h' :: 't' :: 't' :: 'p' :: ':' :: '/' :: '/' :: _ => text
  | _ => []

/-- The lines of a text, cut at the line feeds. -/
def splitLF : QString → List QString
  | [] => [[]]
  | c :: r =>
    if c = '\n' then [] :: splitLF r
    else
      match splitLF r with
      | l :: ls => (c :: l) :: ls
      | [] => [[c]]

/-- What a line `<keyword><index>=<value>` gives: the index text and the
value. The expressions of `parsePls` begin with a line feed, so they see the
lines that follow one. -/
def plsLine (keyword line : QString) : Option (QString × QString) :=
  match stripKeyword keyword line with
  | none => none
  | some r => plsIndex r

/-- The lines `<keyword><index>=<value>` of a PLS text with an index of one or
two digits, in the order of the text: the first line of the text does not
count, it follows no line feed. -/
def plsLines (keyword data : QString) : List (QString × QString) :=
  (splitLF data).tail.filterMap (plsLine keyword)

/-- The value of the last pair with the key `n`. -/
def lastFor {α : Type} (n : Int) (xs : List (Int × α)) : Option α :=
  xs.foldl (fun acc e => if e.1 = n then some e.2 else acc) none

/-- The `File` lines that count, in the words of the specification: index and
URL of every line whose index is a number and whose text gives a non-empty
URL ("malformed or missing URLs are skipped"). -/
def plsFiles (urlFromText : QString → QString) (caps : List (QString × QString)) :
    List (Int × QString) :=
  caps.filterMap (fun cap =>
    match toIntOk cap.1 with
    | some n => if urlFromText cap.2 = [] then none else some (n, urlFromText cap.2)
    | none => none)

/-- The `Title` lines that count: index and title text. -/
def plsTitles (caps : List (QString × QString)) : List (Int × QString) :=
  caps.filterMap (fun cap => (toIntOk cap.1).map (fun n => (n, cap.2)))

/-- The `Length` lines that count: index and length, where the value is an
`int`; "negative length clamps to 0". -/
def plsLengths (caps : List (QString × QString)) : List (Int × Int) :=
  caps.filterMap (fun cap =>
    match toIntOk cap.1, toIntOk cap.2 with
    | some n, some v => some (n, if v < 0 then 0 else v)
    | _, _ => none)

/-- The entry of index `n` in the words of the specification: "entries are
assembled by matching index; an entry with no `FileN` is discarded even if
`Title`/`Length` exist". Of several lines with one index the last counts. -/
def plsEntry (files titles : List (Int × QString)) (lengths : List (Int × Int)) (n : Int) :
    Option PlaylistItemMeta :=
  (lastFor n files).map (fun url =>
    { url := url, title := (lastFor n titles).getD [], length := (lastFor n lengths).getD 0 })

/-- The text without a carriage return at its end. -/
def stripCR (line : QString) : QString :=
  if line.getLast? = some '\r' then line.dropLast else line

/-- The lines that `QTextStream::readLine()` gives one after the other until
`atEnd()` holds: a line ends at a line feed, a carriage return right before
the line feed or at the end of the data does not belong to the line, and what
follows the last line feed is a line if it is not empty. The second argument
holds the characters of the line read so far. -/
def textStreamLines : QString → QString → List QString
  | [], cur => if cur.isEmpty then [] else [stripCR cur]
  | c :: r, cur =>
    if c = '\n' then stripCR cur :: textStreamLines r []
    else textStreamLines r (cur ++ [c])

/-- The body of the loop of `ContentServer::parseM3u` for one line. -/
def m3uStep (urlFromText : QString → QString) (list : List PlaylistItemMeta) (line : QString) :
    List PlaylistItemMeta :=
  if line.head? = some '#' then list
  else
    let url := urlFromText line
    if !url.isEmpty then list ++ [{ PlaylistItemMeta.empty with url := url }] else list

/-- `ContentServer::parseM3u` on the text of the data; `urlFromText` is
`Utils::urlFromText(line, context)`. -/
def parseM3u (urlFromText : QString → QString) (data : QString) : List PlaylistItemMeta :=
  (textStreamLines data []).foldl (m3uStep urlFromText) []

/-- The entries of an M3U text in the words of the specification: "lines
starting with `#` are comments (titles remain absent); all other non-blank
lines are resolved as URLs", lines that give no URL are skipped. -/
def m3uEntries (urlFromText : QString → QString) (data : QString) : List PlaylistItemMeta :=
  ((textStreamLines data []).filter
      (fun line => decide (line.head? ≠ some '#') && decide (urlFromText line ≠ []))).map
    (fun line => { url := urlFromText line, title := [], length := 0 })

/-- A node of a `QDomDocument`: an element with its tag name and its child
nodes, a text node (or CDATA section), or a node of another kind (comment,
processing instruction). -/
inductive DomNode where
  | element (tagName : QString) (children : List DomNode)
  | text (data : QString)
  | other
deriving Repr

/-- All nodes below a node in the order of a preorder traversal, the node
itself left out. -/
def DomNode.descendants : DomNode → List DomNode
  | .element _ cs => descendantsOfList cs
  | .text _ => []
  | .other => []
where
  /-- The nodes of a list and all nodes below them, in preorder. -/
  descendantsOfList : List DomNode → List DomNode
    | [] => []
    | c :: cs => c :: c.descendants ++ descendantsOfList cs

/-- The result of `QDomElement::text()`: the text of all text nodes below the
element, in the order of the document. -/
def DomNode.text_ : DomNode → QString
  | .element _ cs => textOfList cs
  | .text data => data
  | .other => []
where
  /-- The text of a list of nodes. -/
  textOfList : List DomNode → QString
    | [] => []
    | c :: cs => c.text_ ++ textOfList cs

/-- The node is an element with the given tag name. -/
def DomNode.isNamed (name : QString) : DomNode → Bool
  | .element tagName _ => decide (tagName = name)
  | _ => false

/-- The result of `QDomElement::elementsByTagName(name)`: "all descendants of
this element named tagname encountered during a preorder traversal". -/
def DomNode.elementsByTagName (node : DomNode) (name : QString) : List DomNode :=
  node.descendants.filter (DomNode.isNamed name)

/-- The result of `QDomDocument::elementsByTagName(name)` for a document with
the given top-level nodes. -/
def docElementsByTagName (doc : List DomNode) (name : QString) : List DomNode :=
  (DomNode.descendants.descendantsOfList doc).filter (DomNode.isNamed name)

/-- The body of the loop of `ContentServer::parseXspf` for one track. -/
def xspfStep (urlFromText : QString → QString) (list : List PlaylistItemMeta)
    (track : DomNode) : List PlaylistItemMeta :=
  match track.elementsByTagName "location".toList with
  | [] => list
  | l :: _ =>
    let url := urlFromText l.text_
    if !url.isEmpty then
      let item := { PlaylistItemMeta.empty with url := url }
      let item1 :=
        match track.elementsByTagName "title".toList with
        | [] => item
        | t :: _ => { item with title := t.text_ }
      let item2 :=
        match track.elementsByTagName "duration".toList with
        | [] => item1
        | d :: _ => { item1 with length := (toIntOk d.text_).getD 0 }
      list ++ [item2]
    else list

/-- `ContentServer::parseXspf`; `setContent` is `QDomDocument::setContent`,
which gives the top-level nodes of the document or `none` for a text that is
no well-formed XML. -/
def parseXspf (urlFromText : QString → QString) (setContent : QString → Option (List DomNode))
    (data : QString) : List PlaylistItemMeta :=
  match setContent data with
  | some doc => (docElementsByTagName doc "track".toList).foldl (xspfStep urlFromText) []
  | none => []

/-- A `QUrl`, held as its text. -/
abbrev QUrl := QString

/-- The enum `ContentServer::Type`, with the values that the code uses. -/
inductive ContentType where
  | TypeUnknown
  | TypeImage
  | TypeMusic
  | TypeVideo
  | TypePlaylist
deriving DecidableEq, Repr

/-- The enum `ContentServer::PlaylistType`. -/
inductive PlaylistType where
  | PlaylistUnknown
  | PlaylistPLS
  | PlaylistM3U
  | PlaylistXSPF
deriving DecidableEq, Repr

/-- The table `ContentServer::m_imgExtMap`. -/
def m_imgExtMap : List (QString × QString) :=
  [("jpg".toList, "image/jpeg".toList), ("jpeg".toList, "image/jpeg".toList),
   ("png".toList, "image/png".toList),
   ("gif".toList, "image/gif".toList)]

/-- The table `ContentServer::m_musicExtMap`. -/
def m_musicExtMap : List (QString × QString) :=
  [("mp3".toList, "audio/mpeg".toList),
   ("m4a".toList, "audio/mp4".toList), ("m4b".toList, "audio/mp4".toList),
   ("aac".toList, "audio/aac".toList),
   ("mpc".toList, "audio/x-musepack".toList),
   ("flac".toList, "audio/flac".toList),
   ("wav".toList, "audio/vnd.wav".toList),
   ("ape".toList, "audio/x-monkeys-audio".toList),
   ("ogg".toList, "audio/ogg".toList), ("oga".toList, "audio/ogg".toList),
   ("wma".toList, "audio/x-ms-wma".toList)]

/-- The table `ContentServer::m_videoExtMap`. -/
def m_videoExtMap : List (QString × QString) :=
  [("mkv".toList, "video/x-matroska".toList),
   ("webm".toList, "video/webm".toList),
   ("flv".toList, "video/x-flv".toList),
   ("ogv".toList, "video/ogg".toList),
   ("avi".toList, "video/x-msvideo".toList),
   ("mov".toList, "video/quicktime".toList), ("qt".toList, "video/quicktime".toList),
   ("wmv".toList, "video/x-ms-wmv".toList),
   ("mp4".toList, "video/mp4".toList), ("m4v".toList, "video/mp4".toList),
   ("mpg".toList, "video/mpeg".toList), ("mpeg".toList, "video/mpeg".toList),
   ("m2v".toList, "video/mpeg".toList)]

/-- The table `ContentServer::m_playlistExtMap`. -/
def m_playlistExtMap : List (QString × QString) :=
  [("m3u".toList, "audio/x-mpegurl".toList),
   ("pls".toList, "audio/x-scpls".toList),
   ("xspf".toList, "application/xspf+xml".toList)]

/-- The list `ContentServer::m_m3u_mimes`. -/
def m_m3u_mimes : List QString :=
  ["application/vnd.apple.mpegurl".toList,
   "application/mpegurl".toList,
   "application/x-mpegurl".toList,
   "audio/mpegurl".toList,
   "audio/x-mpegurl".toList]

/-- The list `ContentServer::m_pls_mimes`. -/
def m_pls_mimes : List QString := ["audio/x-scpls".toList]

/-- The list `ContentServer::m_xspf_mimes`. -/
def m_xspf_mimes : List QString := ["application/xspf+xml".toList]

/-- The result of `QHash::contains(key)` on a table. -/
def extContains (table : List (QString × QString)) (key : QString) : Bool :=
  table.any (fun e => decide (e.1 = key))

/-- The result of `QHash::value(key)` on a table: the empty text for a key
that the table does not hold. -/
def extValue : List (QString × QString) → QString → QString
  | [], _ => []
  | (k, v) :: r, key => if k = key then v else extValue r key

/-- The result of `QString::toLower()` on ASCII text. -/
def toLower (s : QString) : QString := s.map Char.toLower

/-- The result of `path.split(".").last()`: the text behind the last dot, the
whole text when it holds no dot. -/
def lastOfSplit (sep : Char) (s : QString) : QString :=
  (s.reverse.takeWhile (fun c => decide (c ≠ sep))).reverse

/-- The result of `mime.split("/").first()`: the text before the first
slash. -/
def firstOfSplit (sep : Char) (s : QString) : QString :=
  s.takeWhile (fun c => decide (c ≠ sep))

/-- `ContentServer::getContentTypeByExtension(const QString &path)`. -/
def getContentTypeByExtension (path : QString) : ContentType :=
  let ext := toLower (lastOfSplit '.' path)
  if extContains m_imgExtMap ext then .TypeImage
  else if extContains m_musicExtMap ext then .TypeMusic
  else if extContains m_videoExtMap ext then .TypeVideo
  else if extContains m_playlistExtMap ext then .TypePlaylist
  else .TypeUnknown

/-- `ContentServer::getContentMimeByExtension(const QString &path)`. -/
def getContentMimeByExtension (path : QString) : QString :=
  let ext := toLower (lastOfSplit '.' path)
  if extContains m_imgExtMap ext then extValue m_imgExtMap ext
  else if extContains m_musicExtMap ext then extValue m_musicExtMap ext
  else if extContains m_videoExtMap ext then extValue m_videoExtMap ext
  else if extContains m_playlistExtMap ext then extValue m_playlistExtMap ext
  else "application/octet-stream".toList

/-- `ContentServer::playlistTypeFromMime`. -/
def playlistTypeFromMime (mime : QString) : PlaylistType :=
  if m_pls_mimes.contains mime then .PlaylistPLS
  else if m_m3u_mimes.contains mime then .PlaylistM3U
  else if m_xspf_mimes.contains mime then .PlaylistXSPF
  else .PlaylistUnknown

/-- `ContentServer::typeFromMime`. -/
def typeFromMime (mime : QString) : ContentType :=
  if m_pls_mimes.contains mime || m_xspf_mimes.contains mime || m_m3u_mimes.contains mime then
    .TypePlaylist
  else if containsCI mime "/ogg".toList then .TypeMusic
  else if containsCI mime "/ogv".toList then .TypeVideo
  else
    let name := toLower (firstOfSplit '/' mime)
    if name = "audio".toList then .TypeMusic
    else if name = "video".toList then .TypeVideo
    else if name = "image".toList then .TypeImage
    else .TypeUnknown

/-- A match of the expression `filename="?([^";]*)"?` (letters without regard
to case) at the head of `s`: the text of group 1 and the length of the
match. -/
def dispositionMatchHere (s : QString) : Option (QString × Nat) :=
  match stripKeyword "filename=".toList s with
  | none => none
  | some r =>
    let q1 : Nat := match r with
      | '"' :: _ => 1
      | _ => 0
    let r1 := r.drop q1
    let name := r1.takeWhile (fun c => decide (c ≠ '"') && decide (c ≠ ';'))
    let q2 : Nat := match r1.drop name.length with
      | '"' :: _ => 1
      | _ => 0
    some (name, 9 + q1 + name.length + q2)

/-- The loop of `ContentServer::mimeFromDisposition` from the position at the
head of the text; `skip` characters are still covered by the last match
(`pos += rx.matchedLength()`). -/
def mimeFromDispositionLoop : QString → Nat → QString
  | [], _ => []
  | _ :: r, skip + 1 => mimeFromDispositionLoop r skip
  | c :: r, 0 =>
    match dispositionMatchHere (c :: r) with
    | some (filename, len) =>
      if !filename.isEmpty then getContentMimeByExtension filename
      else mimeFromDispositionLoop r (len - 1)
    | none => mimeFromDispositionLoop r 0

/-- `ContentServer::mimeFromDisposition`. -/
def mimeFromDisposition (disposition : QString) : QString :=
  if "attachment".toList <:+: disposition then mimeFromDispositionLoop disposition 0 else []

/-- The struct `ContentServer::ItemMeta`, with the fields that the code
writes. `local_` is the field `local`. -/
structure ItemMeta where
  valid : Bool
  trackerId : QString
  url : QUrl
  path : QString
  filename : QString
  title : QString
  mime : QString
  comment : QString
  album : QString
  albumArt : QString
  artist : QString
  type : ContentType
  size : Int
  duration : Int
  bitrate : Int
  sampleRate : Int
  channels : Int
  local_ : Bool
  seekSupported : Bool
deriving DecidableEq, Repr

/-- A default-constructed `ItemMeta`: empty texts, zero numbers, flags not
set. -/
def ItemMeta.empty : ItemMeta :=
  { valid := false, trackerId := [], url := [], path := [], filename := [], title := [],
    mime := [], comment := [], album := [], albumArt := [], artist := [],
    type := .TypeUnknown, size := 0, duration := 0, bitrate := 0, sampleRate := 0,
    channels := 0, local_ := false, seekSupported := false }

/-- The values of `QNetworkReply::error()` that the code tells apart. -/
inductive NetworkError where
  | NoError
  | OperationCanceledError
  | OtherError
deriving DecidableEq, Repr

/-- What `makeItemMetaUsingHTTPRequest` reads from the `QNetworkReply` once
the event loop has ended. `contentLength` is
`header(QNetworkRequest::ContentLengthHeader)`: a 64-bit number, or `none` for
an invalid `QVariant` (no such header, or no number in it). `icyName` is the
raw header `icy-name` if the reply has one. -/
structure HttpReply where
  isFinished : Bool
  code : Int
  error : NetworkError
  location : QUrl
  contentDisposition : QString
  contentType : QString
  bytesAvailable : Int
  readAll : QString
  acceptRanges : QString
  contentLength : Option Int
  icyName : Option QString

/-- The first row of a Tracker answer with ten columns. -/
structure TrackerRow where
  trackerId : QString
  mime : QString
  title : QString
  comment : QString
  duration : Int
  album : QString
  artist : QString
  bitrate : Int
  channels : Int
  sampleRate : Int

/-- The collaborators of the metadata resolution and the constants of the
header: `QUrl` and `QFileInfo` queries, Tracker, TagLib, the settings, the
network (`httpGet counter url` is the reply to the request that
`makeItemMetaUsingHTTPRequest(url, nam, counter)` sends with `nam->get`; Qt may
follow redirections on its own within one such request), `Utils::urlFromText`
and `QDomDocument::setContent`. `trackerRow` is `none` when the query fails,
the answer has not ten columns or has no row. -/
structure MetaEnv where
  isLocalFile : QUrl → Bool
  toLocalFile : QUrl → QString
  fileExists : QString → Bool
  fileInfoName : QString → QString
  fileInfoSize : QString → Int
  urlFileName : QUrl → QString
  isUrlMic : QUrl → Bool
  isUrlPulse : QUrl → Bool
  pulseBuild : Bool
  trackerRow : QUrl → Option TrackerRow
  genAlbumArtFile : QString → QString → QString
  taglibTag : QString → Option (QString × QString × QString)
  taglibAudioProperties : QString → Option (Int × Int × Int × Int)
  coverArt : QString → QString
  micChannelCount : Int
  micSampleRate : Int
  micSampleSize : Int
  micTitle : QString
  micAlbumArt : QString
  getPulseMode : Int
  pulseSampleSize : Int
  pulseTitle : QString
  pulseAlbumArt : QString
  httpGet : Int → QUrl → HttpReply
  isRelative : QUrl → Bool
  resolved : QUrl → QUrl → QUrl
  isValid : QUrl → Bool
  urlFromText : QString → QUrl
  setContent : QString → Option (List DomNode)

/-- A call that the resolution makes to a collaborator, kept to tell which
strategy ran: a Tracker query, a TagLib read, the microphone or the loopback
descriptor, or a request `nam->get` with the value of `counter`. -/
inductive MetaCall where
  | tracker (url : QUrl)
  | taglib (url : QUrl)
  | mic (url : QUrl)
  | pulse (url : QUrl)
  | httpGet (url : QUrl) (counter : Int)
deriving DecidableEq, Repr

/-- The hash `metaCache`: pairs of key and descriptor, no key twice. -/
abbrev MetaCache := List (QUrl × ItemMeta)

/-- `metaCache.find(url)`: the descriptor under the key, `none` for `end()`. -/
def MetaCache.find : MetaCache → QUrl → Option ItemMeta
  | [], _ => none
  | (k, v) :: r, url => if k = url then some v else MetaCache.find r url

/-- `metaCache.insert(url, meta)`: an entry with the same key is replaced. -/
def MetaCache.insert (c : MetaCache) (url : QUrl) (meta : ItemMeta) : MetaCache :=
  (url, meta) :: c.filter (fun e => decide (e.1 ≠ url))

/-- The state of the resolution: the cache and the calls made so far. -/
structure MetaState where
  metaCache : MetaCache
  calls : List MetaCall
deriving DecidableEq, Repr

/-- The result of a function that returns an iterator of `metaCache`: the
state it leaves and the entry the iterator points to, `none` for `end()`. -/
abbrev MetaIter := MetaState × Option (QUrl × ItemMeta)

/-- The decimal text of a number, as `QString::arg` writes it. -/
def numberText (v : Int) : QString :=
  if v < 0 then '-' :: Nat.toDigits 10 v.natAbs else Nat.toDigits 10 v.natAbs

/-- The text `QString("audio/L%1;rate=%2;channels=%3").arg(a).arg(b).arg(c)`. -/
def pcmMime (sampleSize sampleRate channels : Int) : QString :=
  "audio/L".toList ++ numberText sampleSize ++ ";rate=".toList ++ numberText sampleRate ++
    ";channels=".toList ++ numberText channels

/-- `ContentServer::makeItemMetaUsingTracker`. -/
def makeItemMetaUsingTracker (env : MetaEnv) (url : QUrl) (st : MetaState) : MetaIter :=
  let st1 : MetaState := { st with calls := st.calls ++ [.tracker url] }
  let path := env.toLocalFile url
  match env.trackerRow url with
  | none => (st1, none)
  | some row =>
    let meta : ItemMeta :=
      { valid := true
        trackerId := row.trackerId
        url := url
        mime := row.mime
        title := row.title
        comment := row.comment
        duration := row.duration
        album := row.album
        artist := row.artist
        bitrate := row.bitrate
        channels := row.channels
        sampleRate := row.sampleRate
        path := path
        filename := env.fileInfoName path
        albumArt := env.genAlbumArtFile row.album row.artist
        type := typeFromMime row.mime
        size := env.fileInfoSize path
        local_ := true
        seekSupported := true }
    let cache := st1.metaCache.insert url meta
    ({ st1 with metaCache := cache }, (cache.find url).map (fun m => (url, m)))

/-- `ContentServer::makeItemMetaUsingTaglib`. -/
def makeItemMetaUsingTaglib (env : MetaEnv) (url : QUrl) (st : MetaState) : MetaIter :=
  let st1 : MetaState := { st with calls := st.calls ++ [.taglib url] }
  let path := env.toLocalFile url
  let meta : ItemMeta :=
    { ItemMeta.empty with
      valid := true
      url := url
      path := path
      mime := getContentMimeByExtension path
      type := getContentTypeByExtension path
      size := env.fileInfoSize path
      filename := env.fileInfoName path
      local_ := true
      seekSupported := true }
  let meta1 : ItemMeta :=
    match env.taglibTag path with
    | some (title, artist, album) => { meta with title := title, artist := artist, album := album }
    | none => meta
  let meta2 : ItemMeta :=
    match env.taglibAudioProperties path with
    | some (length, bitrate, sampleRate, channels) =>
      { meta1 with duration := length, bitrate := bitrate, sampleRate := sampleRate,
                   channels := channels }
    | none => meta1
  let meta3 : ItemMeta :=
    if meta2.mime = "audio/mpeg".toList then { meta2 with albumArt := env.coverArt meta2.path }
    else meta2
  ({ st1 with metaCache := st1.metaCache.insert url meta3 }, some (url, meta3))

/-- `ContentServer::makeMicItemMeta`. -/
def makeMicItemMeta (env : MetaEnv) (url : QUrl) (st : MetaState) : MetaIter :=
  let st1 : MetaState := { st with calls := st.calls ++ [.mic url] }
  let meta : ItemMeta :=
    { ItemMeta.empty with
      valid := true
      url := url
      channels := env.micChannelCount
      sampleRate := env.micSampleRate
      mime := pcmMime env.micSampleSize env.micSampleRate env.micChannelCount
      bitrate := env.micSampleRate * env.micSampleSize * env.micChannelCount
      type := .TypeMusic
      size := 0
      local_ := true
      seekSupported := false
      title := env.micTitle
      albumArt := env.micAlbumArt }
  ({ st1 with metaCache := st1.metaCache.insert url meta }, some (url, meta))

/-- `ContentServer::makePulseItemMeta`. -/
def makePulseItemMeta (env : MetaEnv) (url : QUrl) (st : MetaState) : MetaIter :=
  let st1 : MetaState := { st with calls := st.calls ++ [.pulse url] }
  let mode := env.getPulseMode
  let rate : Int := if mode = 0 ∨ mode = 1 then 44100 else 22050
  let channels : Int := if mode = 0 ∨ mode = 2 then 2 else 1
  let meta : ItemMeta :=
    { ItemMeta.empty with
      valid := true
      url := url
      channels := channels
      sampleRate := rate
      mime := pcmMime env.pulseSampleSize rate channels
      bitrate := rate * env.pulseSampleSize * channels
      type := .TypeMusic
      size := 0
      local_ := true
      seekSupported := false
      title := env.pulseTitle
      albumArt := env.pulseAlbumArt }
  ({ st1 with metaCache := st1.metaCache.insert url meta }, some (url, meta))

/-- The result of `QVariant::toInt()` on a 64-bit number: the low 32 bits,
read as a signed `int`. -/
def wrap32 (v : Int) : Int := (v + 2147483648) % 4294967296 - 2147483648

/-- The mime that `makeItemMetaUsingHTTPRequest` takes from a reply. -/
def replyMime (reply : HttpReply) : QString :=
  let mime := mimeFromDisposition (toLower reply.contentDisposition)
  if mime.isEmpty then toLower reply.contentType else mime

/-- The descriptor that `makeItemMetaUsingHTTPRequest` builds from a reply
with media content. -/
def httpItemMeta (env : MetaEnv) (url : QUrl) (reply : HttpReply) : ItemMeta :=
  let ranges : Bool := decide ("bytes".toList <:+: toLower reply.acceptRanges)
  let size : Int := wrap32 (reply.contentLength.getD 0)
  { ItemMeta.empty with
    valid := true
    url := url
    mime := replyMime reply
    type := typeFromMime (replyMime reply)
    size := if ranges then size else 0
    filename := env.urlFileName url
    local_ := false
    seekSupported := if size > 0 then ranges else false
    title := match reply.icyName with
      | some name => name
      | none => env.urlFileName url }

/-- The items of a playlist reply. -/
def playlistItems (env : MetaEnv) (reply : HttpReply) : List PlaylistItemMeta :=
  let ptype := playlistTypeFromMime (replyMime reply)
  if ptype = .PlaylistPLS then parsePls env.urlFromText reply.readAll
  else if ptype = .PlaylistXSPF then parseXspf env.urlFromText env.setContent reply.readAll
  else parseM3u env.urlFromText reply.readAll

/-- `ContentServer::makeItemMetaUsingHTTPRequest(url, nam, counter)` with a
bound on the depth of the recursion; `none` when the bound is used up. -/
def httpLoop (env : MetaEnv) (maxRedirections : Int) :
    Nat → QUrl → Int → MetaState → Option MetaIter
  | 0, _, _, _ => none
  | fuel + 1, url, counter, st =>
    if counter ≥ maxRedirections then some (st, none)
    else
      let st1 : MetaState := { st with calls := st.calls ++ [.httpGet url counter] }
      let reply := env.httpGet counter url
      if !reply.isFinished then some (st1, none)
      else if reply.error ≠ .NoError ∧ reply.error ≠ .OperationCanceledError then
        some (st1, none)
      else if reply.code > 299 ∧ reply.code < 399 then
        let newUrl :=
          if env.isRelative reply.location then env.resolved url reply.location
          else reply.location
        if env.isValid newUrl then httpLoop env maxRedirections fuel newUrl (counter + 1) st1
        else some (st1, none)
      else if reply.code > 299 then some (st1, none)
      else
        let type := typeFromMime (replyMime reply)
        if type = .TypePlaylist then
          if reply.bytesAvailable > 0 then
            match playlistItems env reply with
            | item :: _ => httpLoop env maxRedirections fuel item.url (counter + 1) st1
            | [] => some (st1, none)
          else some (st1, none)
        else if type ≠ .TypeMusic ∧ type ≠ .TypeVideo ∧ type ≠ .TypeImage then some (st1, none)
        else
          let meta := httpItemMeta env url reply
          some ({ st1 with metaCache := st1.metaCache.insert url meta }, some (url, meta))

/-- `ContentServer::makeItemMetaUsingHTTPRequest(url, nam, counter)`: the
recursion with a bound that the distance of `counter` to `maxRedirections`
gives. `maxRedirections` is a constant of the header. -/
def makeItemMetaUsingHTTPRequest (env : MetaEnv) (maxRedirections : Int) (url : QUrl)
    (counter : Int) (st : MetaState) : Option MetaIter :=
  httpLoop env maxRedirections ((maxRedirections - counter).toNat + 1) url counter st

/-- `ContentServer::makeItemMeta`. -/
def makeItemMeta (env : MetaEnv) (maxRedirections : Int) (url : QUrl) (st : MetaState) :
    Option MetaIter :=
  if env.isLocalFile url then
    if env.fileExists (env.toLocalFile url) then
      match makeItemMetaUsingTracker env url st with
      | (st1, none) => some (makeItemMetaUsingTaglib env url st1)
      | (st1, some it) => some (st1, some it)
    else some (st, none)
  else if env.isUrlMic url then some (makeMicItemMeta env url st)
  else if env.pulseBuild && env.isUrlPulse url then some (makePulseItemMeta env url st)
  else makeItemMetaUsingHTTPRequest env maxRedirections url 0 st

/-- `ContentServer::getMetaCacheIterator`. -/
def getMetaCacheIterator (env : MetaEnv) (maxRedirections : Int) (url : QUrl) (createNew : Bool)
    (st : MetaState) : Option MetaIter :=
  match st.metaCache.find url with
  | none => if createNew then makeItemMeta env maxRedirections url st else some (st, none)
  | some meta => some (st, some (url, meta))

/-- `ContentServer::getMeta`: the state it leaves and the descriptor it
returns, `none` for `nullptr`. -/
def getMeta (env : MetaEnv) (maxRedirections : Int) (url : QUrl) (createNew : Bool)
    (st : MetaState) : Option (MetaState × Option ItemMeta) :=
  (getMetaCacheIterator env maxRedirections url createNew st).map
    (fun r => (r.1, r.2.map (fun e => e.2)))

/-- What one activation of `makeItemMetaUsingHTTPRequest` ends with: a
`return` of its own, or the call of itself for another URL. -/
inductive HttpStep where
  | done (r : MetaIter)
  | follow (url : QUrl) (st : MetaState)

/-- One activation of `makeItemMetaUsingHTTPRequest(url, nam, counter)`, up to
the call of itself. -/
def httpStep (env : MetaEnv) (maxRedirections : Int) (url : QUrl) (counter : Int)
    (st : MetaState) : HttpStep :=
  if counter ≥ maxRedirections then .done (st, none)
  else
    let st1 : MetaState := { st with calls := st.calls ++ [.httpGet url counter] }
    let reply := env.httpGet counter url
    if !reply.isFinished then .done (st1, none)
    else if reply.error ≠ .NoError ∧ reply.error ≠ .OperationCanceledError then
      .done (st1, none)
    else if reply.code > 299 ∧ reply.code < 399 then
      let newUrl :=
        if env.isRelative reply.location then env.resolved url reply.location
        else reply.location
      if env.isValid newUrl then .follow newUrl st1
      else .done (st1, none)
    else if reply.code > 299 then .done (st1, none)
    else
      let type := typeFromMime (replyMime reply)
      if type = .TypePlaylist then
        if reply.bytesAvailable > 0 then
          match playlistItems env reply with
          | item :: _ => .follow item.url st1
          | [] => .done (st1, none)
        else .done (st1, none)
      else if type ≠ .TypeMusic ∧ type ≠ .TypeVideo ∧ type ≠ .TypeImage then .done (st1, none)
      else
        let meta := httpItemMeta env url reply
        .done ({ st1 with metaCache := st1.metaCache.insert url meta }, some (url, meta))

/-- The requests `nam->get` of one resolution as calls: request number `i`
carries the value `counter + i`. -/
def requestLog : List QUrl → Int → List MetaCall
  | [], _ => []
  | url :: r, counter => .httpGet url counter :: requestLog r (counter + 1)

/-- A reply with the given status, content type and body, and no other
header. -/
def plainReply (code : Int) (contentType body : QString) : HttpReply :=
  { isFinished := true, code := code, error := .NoError, location := [],
    contentDisposition := [], contentType := contentType,
    bytesAvailable := body.length, readAll := body, acceptRanges := [],
    contentLength := none, icyName := none }

/-- A sample origin: `http://x/list.m3u` is an M3U playlist with the one line
`http://x/a.mp3`, `http://x/a.mp3` is an MP3 file of 1000 bytes,
`http://x/big.mkv` a Matroska file of 3000000000 bytes, both served with
`Accept-Ranges: bytes`; every other URL gives 404. -/
def sampleHttpGet (_counter : Int) (url : QUrl) : HttpReply :=
  if url = "http://x/list.m3u".toList then
    plainReply 200 "audio/x-mpegurl".toList "http://x/a.mp3\n".toList
  else if url = "http://x/a.mp3".toList then
    { plainReply 200 "audio/mpeg".toList [] with
      acceptRanges := "bytes".toList, contentLength := some 1000 }
  else if url = "http://x/big.mkv".toList then
    { plainReply 200 "video/x-matroska".toList [] with
      acceptRanges := "bytes".toList, contentLength := some 3000000000 }
  else plainReply 404 [] []

/-- Sample collaborators: no URL is a local file, the microphone or the
loopback, the origin is `sampleHttpGet`. -/
def sampleMetaEnv : MetaEnv :=
  { isLocalFile := fun _ => false
    toLocalFile := fun _ => []
    fileExists := fun _ => false
    fileInfoName := fun _ => []
    fileInfoSize := fun _ => 0
    urlFileName := lastOfSplit '/'
    isUrlMic := fun _ => false
    isUrlPulse := fun _ => false
    pulseBuild := true
    trackerRow := fun _ => none
    genAlbumArtFile := fun _ _ => []
    taglibTag := fun _ => none
    taglibAudioProperties := fun _ => none
    coverArt := fun _ => []
    micChannelCount := 1
    micSampleRate := 22050
    micSampleSize := 16
    micTitle := "Microphone".toList
    micAlbumArt := []
    getPulseMode := 0
    pulseSampleSize := 16
    pulseTitle := "Audio output".toList
    pulseAlbumArt := []
    httpGet := sampleHttpGet
    isRelative := fun _ => false
    resolved := fun _ u => u
    isValid := fun u => !u.isEmpty
    urlFromText := sampleUrlFromText
    setContent := fun _ => none }

/-- The descriptor of `http://x/a.mp3` at the sample origin. -/
def sampleMp3Meta : ItemMeta :=
  { ItemMeta.empty with
    valid := true
    url := "http://x/a.mp3".toList
    mime := "audio/mpeg".toList
    type := .TypeMusic
    size := 1000
    filename := "a.mp3".toList
    seekSupported := true
    title := "a.mp3".toList }

/-- The state after the first `getMeta` for `http://x/list.m3u` at the sample
origin: the descriptor is stored under `http://x/a.mp3`. -/
def samplePlaylistState : MetaState :=
  { metaCache := [("http://x/a.mp3".toList, sampleMp3Meta)]
    calls := [.httpGet "http://x/list.m3u".toList 0, .httpGet "http://x/a.mp3".toList 1] }

/-- The descriptor that the code builds for `http://x/big.mkv` at the sample
origin. -/
def sampleBigMeta : ItemMeta :=
  { ItemMeta.empty with
    valid := true
    url := "http://x/big.mkv".toList
    mime := "video/x-matroska".toList
    type := .TypeVideo
    size := -1294967296
    filename := "big.mkv".toList
    seekSupported := false
    title := "big.mkv".toList }

/-! ## Predicates and runs used by the theorems -/

/-- The byte is one of the characters `A`–`Z`, `a`–`z`, `0`–`9`, `-` and `_`. -/
def isBase64UrlChar (c : Byte) : Bool :=
  (decide (65 ≤ c.val) && decide (c.val ≤ 90)) || (decide (97 ≤ c.val) && decide (c.val ≤ 122)) ||
    (decide (48 ≤ c.val) && decide (c.val ≤ 57)) || decide (c.val = 45) || decide (c.val = 95)

/-- The keys of the four extension tables. -/
def extKeys : List QString :=
  (m_imgExtMap ++ m_musicExtMap ++ m_videoExtMap ++ m_playlistExtMap).map (fun e => e.1)

/-- Every entry of the cache has the URL of its key and is valid. -/
def cacheInv (c : MetaCache) : Bool :=
  c.all (fun e => decide (e.2.url = e.1) && e.2.valid)

/-- A sequence of calls `getMeta(url, createNew)`, each with collaborators of
its own: the state that the last call leaves. -/
def getMetaCalls (maxRedirections : Int) :
    List (MetaEnv × QUrl × Bool) → MetaState → Option MetaState
  | [], st => some st
  | (env, url, createNew) :: rest, st =>
    match getMeta env maxRedirections url createNew st with
    | none => none
    | some r => getMetaCalls maxRedirections rest r.1

/-- Three calls at the sample origin: a playlist, a URL that gives 404, and a
lookup without resolution. -/
def sampleGetMetaCalls : List (MetaEnv × QUrl × Bool) :=
  [(sampleMetaEnv, "http://x/list.m3u".toList, true),
   (sampleMetaEnv, "http://x/none".toList, true),
   (sampleMetaEnv, "http://x/big.mkv".toList, false)]

/-- A proxy item in state 1 with the given `metaint`, `metacounter = 0` and an
empty carry-over buffer. -/
def sampleProxyItem (metaint : Int) (meta : Bool) : ProxyItem :=
  { id := [1], meta := meta, seek := false, state := 1, metaint := metaint, metacounter := 0,
    data := [] }

/-- Two reads of a stream with `metaint = 32`: 32 audio bytes and a metadata
block (length byte 1, 16 payload bytes) that is cut after its third payload
byte, then the rest of the block and two audio bytes. -/
def sampleSplitReads : List QByteArray :=
  [List.replicate 32 (10 : Byte) ++ [1, 83, 116, 114],
   [101, 97, 109, 84, 105, 116, 108, 101, 61, 39, 65, 39, 59, 20, 21]]

/-! ## Proxy events (`proxyMetaDataChanged`, `proxyFinished`) -/

/-- What the handlers of the proxy read of the `QNetworkReply`: the status
(`attribute(HttpStatusCodeAttribute).toInt()`, 0 without a status), the error,
the content type (`header(ContentTypeHeader).toString()`), the content length
(`none` for an invalid `QVariant`) and the raw headers. -/
structure ProxyReply where
  code : Int
  error : NetworkError
  contentType : QString
  contentLength : Option Int
  rawHeaderPairs : List (QString × QString)

/-- `QNetworkReply::rawHeader(name)`: the value of the first header with the
name, letters compared without regard to case; `none` when
`hasRawHeader(name)` is false. -/
def rawHeader (pairs : List (QString × QString)) (name : QString) : Option QString :=
  (pairs.find? (fun h => decide (toLower h.1 = toLower name))).map (fun h => h.2)

/-- What a handler of a reply signal leaves behind for the proxy item of the
reply: the item and the client response as they are then, whether the item
was removed from `proxyItems` and from `responseToReplyMap`, the signals
`itemRemoved(id)` emitted, and whether the handler called `reply->abort()` or
`reply->deleteLater()`. -/
structure ProxyEvent where
  item : ProxyItem
  resp : QHttpResponse
  removedFromProxyItems : Bool
  removedFromResponseToReplyMap : Bool
  itemRemoved : List QByteArray
  aborted : Bool
  deleted : Bool
deriving DecidableEq, Repr

/-- The last four statements of `proxyMetaDataChanged`:
`emit itemRemoved(item.id); proxyItems.remove(reply);
responseToReplyMap.remove(item.resp); reply->abort();`. -/
def proxyTeardown (item : ProxyItem) (resp : QHttpResponse) : ProxyEvent :=
  { item := item, resp := resp, removedFromProxyItems := true,
    removedFromResponseToReplyMap := true, itemRemoved := [item.id], aborted := true,
    deleted := false }

/-- The loop "copying icy-* headers" of `proxyMetaDataChanged`. -/
def copyIcyHeaders (resp : QHttpResponse) (pairs : List (QString × QString)) : QHttpResponse :=
  pairs.foldl
    (fun r h =>
      if "icy-".toList <+: toLower h.1 then r.setHeader (String.mk h.1) (String.mk h.2) else r)
    resp

/-- The branch `item.state == 0` of `proxyMetaDataChanged` up to
`item.state = 1`: the headers set on the client response. -/
def proxyHead (fl : DlnaOrgFlags) (flags : Bool) (item : ProxyItem) (resp : QHttpResponse)
    (reply : ProxyReply) : QHttpResponse :=
  let r1 := resp.setHeader "transferMode.dlna.org" "Streaming"
  let r2 := r1.setHeader "contentFeatures.dlna.org"
    (String.mk (dlnaContentFeaturesHeader fl reply.contentType item.seek flags))
  let r3 := r2.setHeader "Content-Type" (String.mk reply.contentType)
  let r4 := r3.setHeader "Connection" "close"
  let r5 := match reply.contentLength with
    | some len => r4.setHeader "Content-Length" (String.mk (numberText len))
    | none => r4
  let r6 := match rawHeader reply.rawHeaderPairs "Accept-Ranges".toList with
    | some v => r5.setHeader "Accept-Ranges" (String.mk v)
    | none => r5
  let r7 := match rawHeader reply.rawHeaderPairs "Content-Range".toList with
    | some v => r6.setHeader "Content-Range" (String.mk v)
    | none => r6
  copyIcyHeaders r7 reply.rawHeaderPairs

/-- `ContentServerWorker::proxyMetaDataChanged` for a reply that has a proxy
item. `fl` holds the two bitmasks of the content-features header and `flags`
is the default of the third argument of `dlnaContentFeaturesHeader` (both
from the header). The handler reads `item.id` and `item.resp` through the
reference `item` also after `proxyItems.remove(reply)`; the values are those
of the item before the removal. -/
def proxyMetaDataChanged (fl : DlnaOrgFlags) (flags : Bool) (item : ProxyItem)
    (resp : QHttpResponse) (reply : ProxyReply) : ProxyEvent :=
  if reply.error ≠ NetworkError.NoError ∨ reply.code > 299 then
    let code := if reply.code < 400 then 404 else reply.code
    proxyTeardown item (sendEmptyResponse resp code)
  else if reply.contentType.isEmpty then
    proxyTeardown item (sendEmptyResponse resp 404)
  else if item.state = 0 then
    let resp1 := proxyHead fl flags item resp reply
    let metaint := match rawHeader reply.rawHeaderPairs "icy-metaint".toList with
      | some v => (toIntOk v).getD 0
      | none => item.metaint
    { item := { item with metaint := metaint, state := 1 }
      resp := resp1.writeHead reply.code
      removedFromProxyItems := false
      removedFromResponseToReplyMap := false
      itemRemoved := []
      aborted := false
      deleted := false }
  else proxyTeardown item resp

/-- `ContentServerWorker::proxyFinished` for a reply that has a proxy item. -/
def proxyFinished (item : ProxyItem) (resp : QHttpResponse) (reply : ProxyReply) : ProxyEvent :=
  let resp1 :=
    if item.state = 0 then
      let code := if reply.code < 200 then 404 else reply.code
      sendEmptyResponse resp code
    else resp.end_ []
  { item := item, resp := resp1, removedFromProxyItems := true,
    removedFromResponseToReplyMap := true, itemRemoved := [item.id], aborted := false,
    deleted := true }

/-- The handler tore the item down: it removed it from `proxyItems` and from
`responseToReplyMap`, emitted `itemRemoved` for its identifier and aborted the
outbound request. -/
def ProxyEvent.tornDown (ev : ProxyEvent) (id : QByteArray) : Bool :=
  ev.removedFromProxyItems && ev.removedFromResponseToReplyMap &&
    decide (ev.itemRemoved = [id]) && ev.aborted

/-- The handler left the item registered: no removal, no signal, no abort. -/
def ProxyEvent.kept (ev : ProxyEvent) : Bool :=
  !ev.removedFromProxyItems && !ev.removedFromResponseToReplyMap &&
    decide (ev.itemRemoved = []) && !ev.aborted

/-- A reply with the given status and content type, no error and no other
header. -/
def sampleProxyReply (code : Int) (contentType : QString) : ProxyReply :=
  { code := code, error := NetworkError.NoError, contentType := contentType,
    contentLength := none, rawHeaderPairs := [] }

/-- A proxy item as `requestForUrlHandler` registers it: state 0, no
metadata interval yet. -/
def sampleNewProxyItem : ProxyItem :=
  { id := [1], meta := false, seek := false, state := 0, metaint := 0, metacounter := 0,
    data := [] }

/-! ## Stream titles (`ContentServer::streams`) -/

/-- The struct `ContentServer::StreamData`; a default-constructed entry has an
empty title and the count 0. -/
structure StreamData where
  id : QUrl
  title : QString
  count : Int
deriving DecidableEq, Repr

/-- A default-constructed `StreamData`. -/
def StreamData.empty : StreamData := { id := [], title := [], count := 0 }

/-- The hash `streams`: the entry under a key, `none` when it holds none. -/
abbrev Streams := QUrl → Option StreamData

/-- The entry that `streams[id]` refers to: the one in the hash, or a
default-constructed one that the operator inserts. -/
def Streams.entry (s : Streams) (id : QUrl) : StreamData := (s id).getD StreamData.empty

/-- The hash after the entry under `id` was written through `streams[id]`. -/
def Streams.set (s : Streams) (id : QUrl) (d : StreamData) : Streams :=
  fun k => if k = id then some d else s k

/-- `streams.remove(id)`. -/
def Streams.remove (s : Streams) (id : QUrl) : Streams :=
  fun k => if k = id then none else s k

/-- The hash `streams` and the signals `streamTitleChanged(id, title)` emitted
so far. -/
structure TitleState where
  streams : Streams
  emitted : List (QUrl × QString)

/-- The state at the start: no entry, no signal. -/
def TitleState.init : TitleState := { streams := fun _ => none, emitted := [] }

/-- `ContentServer::streamTitle`. -/
def streamTitle (st : TitleState) (id : QUrl) : QString :=
  match st.streams id with
  | some d => d.title
  | none => []

/-- `ContentServer::itemAddedHandler`. -/
def itemAddedHandler (st : TitleState) (id : QUrl) : TitleState :=
  let stream := Streams.entry st.streams id
  { st with streams := Streams.set st.streams id { stream with count := stream.count + 1, id := id } }

/-- `ContentServer::itemRemovedHandler`. -/
def itemRemovedHandler (st : TitleState) (id : QUrl) : TitleState :=
  let stream := Streams.entry st.streams id
  let stream1 := { stream with count := stream.count - 1 }
  if stream1.count < 1 then
    { streams := Streams.remove st.streams id, emitted := st.emitted ++ [(id, [])] }
  else { st with streams := Streams.set st.streams id stream1 }

/-- `ContentServer::pulseStreamNameHandler`. -/
def pulseStreamNameHandler (st : TitleState) (id : QUrl) (name : QString) : TitleState :=
  let stream := Streams.entry st.streams id
  { streams := Streams.set st.streams id { stream with id := id, title := name }
    emitted := st.emitted ++ [(id, name)] }

/-- The length of a match of `'?` at the head of the text: 1 if the text
starts with a quote, else 0. -/
def leadingQuote : QString → Nat
  | '\'' :: _ => 1
  | _ => 0

/-- A match of the expression `StreamTitle='?([^';]*)'?` (letters without
regard to case) at the head of `s`: the text of group 1 and the length of the
match. -/
def streamTitleMatchHere (s : QString) : Option (QString × Nat) :=
  match stripKeyword "StreamTitle=".toList s with
  | none => none
  | some r =>
    let q1 := leadingQuote r
    let r1 := r.drop q1
    let cap := r1.takeWhile (fun c => decide (c ≠ '\'') && decide (c ≠ ';'))
    let q2 := leadingQuote (r1.drop cap.length)
    some (cap, 12 + q1 + cap.length + q2)

/-- The loop `while ((pos = rx.indexIn(data, pos)) != -1)` of
`shoutcastMetadataHandler` from the position at the head of the text; `skip`
characters are still covered by the last match (`pos += rx.matchedLength()`),
and `title` is the value of the variable `title`. -/
def streamTitleLoop : QString → Nat → QString → QString
  | [], _, title => title
  | _ :: r, skip + 1, title => streamTitleLoop r skip title
  | c :: r, 0, title =>
    match streamTitleMatchHere (c :: r) with
    | some (cap, len) =>
      let title1 := trimSpace cap
      if !title1.isEmpty then title1 else streamTitleLoop r (len - 1) title1
    | none => streamTitleLoop r 0 title

/-- `ContentServer::shoutcastMetadataHandler`; `data` is the text
`QString(metadata)`. -/
def shoutcastMetadataHandler (st : TitleState) (id : QUrl) (data : QString) : TitleState :=
  let title := streamTitleLoop data 0 []
  let stream := Streams.entry st.streams id
  { streams := Streams.set st.streams id { stream with id := id, title := title }
    emitted := st.emitted ++ [(id, title)] }

/-- The signals that the handlers of `streams` are connected to. -/
inductive StreamEvent where
  | itemAdded (id : QUrl)
  | itemRemoved (id : QUrl)
  | shoutcastMetadata (id : QUrl) (data : QString)
  | pulseStreamName (id : QUrl) (name : QString)
deriving DecidableEq, Repr

/-- The identifier that an event carries. -/
def StreamEvent.id : StreamEvent → QUrl
  | .itemAdded id => id
  | .itemRemoved id => id
  | .shoutcastMetadata id _ => id
  | .pulseStreamName id _ => id

/-- The handler that an event invokes. -/
def handleEvent (st : TitleState) : StreamEvent → TitleState
  | .itemAdded id => itemAddedHandler st id
  | .itemRemoved id => itemRemovedHandler st id
  | .shoutcastMetadata id data => shoutcastMetadataHandler st id data
  | .pulseStreamName id name => pulseStreamNameHandler st id name

/-- A sequence of events, handled one after the other. -/
def handleEvents (st : TitleState) (evs : List StreamEvent) : TitleState :=
  evs.foldl handleEvent st

/-- The count of the entry under `id`, 0 when there is none. -/
def streamCount (st : TitleState) (id : QUrl) : Int :=
  match st.streams id with
  | some d => d.count
  | none => 0

/-- The number of `itemAdded` events for `id`. -/
def additions (id : QUrl) : List StreamEvent → Int
  | [] => 0
  | .itemAdded k :: r => (if k = id then 1 else 0) + additions id r
  | _ :: r => additions id r

/-- The number of `itemRemoved` events for `id`. -/
def removals (id : QUrl) : List StreamEvent → Int
  | [] => 0
  | .itemRemoved k :: r => (if k = id then 1 else 0) + removals id r
  | _ :: r => removals id r

/-- In no initial part of the sequence do the removals for `id` outnumber the
additions for `id` by more than `c`: every removal for `id` finds at least one
addition (or one of the `c` additions before the sequence) not yet removed. -/
def balanced (id : QUrl) : List StreamEvent → Int → Bool
  | [], _ => true
  | .itemAdded k :: r, c => if k = id then balanced id r (c + 1) else balanced id r c
  | .itemRemoved k :: r, c =>
    if k = id then decide (1 ≤ c) && balanced id r (c - 1) else balanced id r c
  | _ :: r, c => balanced id r c

/-- The identifier `http://x/radio`. -/
def sampleStreamId : QUrl := "http://x/radio".toList

/-- An addition, its removal, and a loopback name that arrives after the
removal, all for `sampleStreamId`. -/
def sampleTitleEvents : List StreamEvent :=
  [StreamEvent.itemAdded sampleStreamId, StreamEvent.itemRemoved sampleStreamId,
    StreamEvent.pulseStreamName sampleStreamId "Song".toList]

/-! # Theorems -/

/-! ## Identifier codec -/

theorem b64Val_b64Char_fin : ∀ j : Fin 64, b64Val (b64Char j.val) = some j.val := by
  decide

theorem b64Val_b64Char (j : Nat) (h : j < 64) : b64Val (b64Char j) = some j :=
  b64Val_b64Char_fin ⟨j, h⟩

theorem byte_ofNat_val (a : Byte) (n : Nat) (h : n = a.val) : (Fin.ofNat n : Byte) = a := by
  apply Fin.ext
  show n % 256 = a.val
  have := a.isLt
  omega

theorem fromBase64Loop_toBase64 (x : QByteArray) : fromBase64Loop (toBase64 x) 0 0 = x := by
  induction x using toBase64.induct with
  | case1 => rfl
  | case2 a =>
    have ha := a.isLt
    simp only [toBase64, fromBase64Loop]
    rw [b64Val_b64Char _ (Nat.mod_lt _ (by norm_num)), b64Val_b64Char _ (Nat.mod_lt _ (by norm_num))]
    simp only [fromBase64Loop]
    norm_num
    apply byte_ofNat_val
    omega
  | case3 a b =>
    have ha := a.isLt
    have hb := b.isLt
    simp only [toBase64, fromBase64Loop]
    rw [b64Val_b64Char _ (Nat.mod_lt _ (by norm_num)), b64Val_b64Char _ (Nat.mod_lt _ (by norm_num)),
      b64Val_b64Char _ (Nat.mod_lt _ (by norm_num))]
    simp only [fromBase64Loop]
    norm_num
    constructor
    · apply byte_ofNat_val; omega
    · apply byte_ofNat_val; omega
  | case4 a b c rest ih =>
    have ha := a.isLt
    have hb := b.isLt
    have hc := c.isLt
    simp only [toBase64, fromBase64Loop]
    rw [b64Val_b64Char _ (Nat.mod_lt _ (by norm_num)), b64Val_b64Char _ (Nat.mod_lt _ (by norm_num)),
      b64Val_b64Char _ (Nat.mod_lt _ (by norm_num)), b64Val_b64Char _ (Nat.mod_lt _ (by norm_num))]
    simp only [fromBase64Loop]
    norm_num
    refine ⟨?_, ?_, ?_, ?_⟩
    · apply byte_ofNat_val; omega
    · apply byte_ofNat_val; omega
    · apply byte_ofNat_val; omega
    · rw [Nat.mod_one]; exact ih

theorem fromBase64_toBase64 (x : QByteArray) : fromBase64 (toBase64 x) = x :=
  fromBase64Loop_toBase64 x

theorem growKey_some (tmp : QByteArray) (size : Nat) (htmp : tmp ≠ []) :
    ∀ (fuel : Nat) (key : QByteArray), size ≤ key.length + fuel →
      ∃ K, growKey tmp size (fuel + 1) key = some K ∧ size ≤ K.length := by
  intro fuel
  induction fuel with
  | zero =>
    intro key h
    unfold growKey
    rw [if_neg (by omega)]
    exact ⟨key, rfl, by omega⟩
  | succ n ih =>
    intro key h
    unfold growKey
    by_cases hk : key.length < size
    · rw [if_pos hk]
      apply ih
      have : 0 < tmp.length := List.length_pos.mpr htmp
      rw [List.length_append]
      omega
    · rw [if_neg hk]
      exact ⟨key, rfl, by omega⟩

theorem byte_xor_xor (a b : Byte) : (a ^^^ b) ^^^ b = a := by
  apply Fin.ext
  show ((a.val ^^^ b.val) % 256 ^^^ b.val) % 256 = a.val
  have h8 : a.val ^^^ b.val < 2 ^ 8 := Nat.xor_lt_two_pow a.isLt b.isLt
  have h : a.val ^^^ b.val < 256 := h8
  rw [Nat.mod_eq_of_lt h, Nat.xor_assoc, Nat.xor_self, Nat.xor_zero]
  exact Nat.mod_eq_of_lt a.isLt

theorem length_xorWith (d K : QByteArray) (h : d.length ≤ K.length) :
    (xorWith d K).length = d.length := by
  unfold xorWith
  rw [List.length_zipWith]
  omega

theorem xorWith_xorWith (d : QByteArray) :
    ∀ K : QByteArray, d.length ≤ K.length → xorWith (xorWith d K) K = d := by
  induction d with
  | nil => intro K _; cases K <;> rfl
  | cons a d ih =>
    intro K h
    cases K with
    | nil => simp at h
    | cons k K =>
      have h2 : d.length ≤ K.length := by simpa using h
      have := ih K h2
      simp only [xorWith, List.zipWith_cons_cons] at this ⊢
      rw [this, byte_xor_xor]

theorem encrypt_some (key d : QByteArray) (hk : key ≠ []) :
    ∃ K, growKey key d.length (d.length + 1) key = some K ∧ d.length ≤ K.length ∧
      encrypt key d = some (toBase64 (xorWith d K)) := by
  obtain ⟨K, hK, hlen⟩ := growKey_some key d.length hk d.length key (by omega)
  exact ⟨K, hK, hlen, by simp [encrypt, hK]⟩

theorem decrypt_some (key t : QByteArray) (hk : key ≠ []) :
    ∃ K, growKey key (fromBase64 t).length ((fromBase64 t).length + 1) key = some K ∧
      (fromBase64 t).length ≤ K.length ∧ decrypt key t = some (xorWith (fromBase64 t) K) := by
  obtain ⟨K, hK, hlen⟩ :=
    growKey_some key (fromBase64 t).length hk (fromBase64 t).length key (by omega)
  exact ⟨K, hK, hlen, by simp [decrypt, hK]⟩

theorem decrypt_toBase64_xorWith (key d K : QByteArray)
    (hK : growKey key d.length (d.length + 1) key = some K) (hlen : d.length ≤ K.length) :
    decrypt key (toBase64 (xorWith d K)) = some d := by
  simp only [decrypt, fromBase64_toBase64, length_xorWith d K hlen, hK, xorWith_xorWith d K hlen]

theorem hashOfPath_cons (c : Byte) (h : QByteArray) : hashOfPath (c :: h) = h := by
  simp [hashOfPath]

/-- C1: for every byte string `d` and every non-empty key, `encrypt` returns a
token and `decrypt` of that token returns `d`; the path `"/" + token` that
`makeUrl` builds is decoded back to `d` by the decode step of
`idUrlFromUrl`. -/
theorem decrypt_encrypt (key d : QByteArray) (hk : key ≠ []) :
    ∃ t, encrypt key d = some t ∧ decrypt key t = some d ∧
      ∃ p, makeUrlPath key d = some p ∧ decodePath key p = some d := by
  obtain ⟨K, hK, hlen, he⟩ := encrypt_some key d hk
  refine ⟨_, he, decrypt_toBase64_xorWith key d K hK hlen,
    (47 : Byte) :: toBase64 (xorWith d K), ?_, ?_⟩
  · simp [makeUrlPath, he]
  · simp only [decodePath, hashOfPath_cons]
    exact decrypt_toBase64_xorWith key d K hK hlen

theorem decrypt_encrypt_witness :
    sampleKey ≠ [] ∧
    ∃ t, encrypt sampleKey sampleId = some t ∧ decrypt sampleKey t = some sampleId ∧
      ∃ p, makeUrlPath sampleKey sampleId = some p ∧ decodePath sampleKey p = some sampleId :=
  ⟨by decide, decrypt_encrypt sampleKey sampleId (by decide)⟩

/-- C2, as stated, fails: the token `tamperedToken` differs from
`encrypt sampleKey sampleId` in its last character only, and `idUrlFromUrl`
accepts it and returns what it returns for `encrypt sampleKey sampleId`, the
identifier `sampleId` itself. -/
theorem idUrlFromUrl_tampered_returns_same :
    encrypt sampleKey sampleId = some sampleToken ∧ tamperedToken ≠ sampleToken ∧
    idUrlFromUrl sampleEnv sampleKey ((47 : Byte) :: tamperedToken) =
      some { url := some (sampleEnv.qurl sampleId), ok := some true, isFile := some false,
             isArt := some false } ∧
    idUrlFromUrl sampleEnv sampleKey ((47 : Byte) :: tamperedToken) =
      idUrlFromUrl sampleEnv sampleKey ((47 : Byte) :: sampleToken) :=
  have h1 : idUrlFromUrl sampleEnv sampleKey ((47 : Byte) :: tamperedToken) =
      some { url := some (sampleEnv.qurl sampleId), ok := some true, isFile := some false,
             isArt := some false } := by decide
  have h2 : idUrlFromUrl sampleEnv sampleKey ((47 : Byte) :: sampleToken) =
      some { url := some (sampleEnv.qurl sampleId), ok := some true, isFile := some false,
             isArt := some false } := by decide
  ⟨by decide, by decide, h1, h1.trans h2.symm⟩

/-- A token with another payload can give the same identifier as well: under
an environment that puts the scheme in lower case, `upperSchemeToken` decodes
to the text `upperSchemeId`, which is not `sampleId`, and `idUrlFromUrl`
returns the same `QUrl` value as for `encrypt sampleKey sampleId`. -/
theorem idUrlFromUrl_scheme_case_returns_same :
    encrypt sampleKey sampleId = some sampleToken ∧
    fromBase64 upperSchemeToken ≠ fromBase64 sampleToken ∧
    decrypt sampleKey upperSchemeToken = some upperSchemeId ∧ upperSchemeId ≠ sampleId ∧
    idUrlFromUrl lowerSchemeEnv sampleKey ((47 : Byte) :: upperSchemeToken) =
      some { url := some sampleId, ok := some true, isFile := some false, isArt := some false } ∧
    idUrlFromUrl lowerSchemeEnv sampleKey ((47 : Byte) :: upperSchemeToken) =
      idUrlFromUrl lowerSchemeEnv sampleKey ((47 : Byte) :: sampleToken) :=
  have h1 : idUrlFromUrl lowerSchemeEnv sampleKey ((47 : Byte) :: upperSchemeToken) =
      some { url := some sampleId, ok := some true, isFile := some false, isArt := some false } := by
    decide
  have h2 : idUrlFromUrl lowerSchemeEnv sampleKey ((47 : Byte) :: sampleToken) =
      some { url := some sampleId, ok := some true, isFile := some false, isArt := some false } := by
    decide
  ⟨by decide, by decide, by decide, by decide, h1, h1.trans h2.symm⟩

theorem xorWith_inj_of_decrypt (key x t K K1 : QByteArray)
    (hK : growKey key x.length (x.length + 1) key = some K) (hlen : x.length ≤ K.length)
    (hK1 : growKey key (fromBase64 t).length ((fromBase64 t).length + 1) key = some K1)
    (hlen1 : (fromBase64 t).length ≤ K1.length) :
    xorWith (fromBase64 t) K1 = x ↔ fromBase64 t = xorWith x K := by
  constructor
  · intro h
    have hl : (fromBase64 t).length = x.length := by
      rw [← h, length_xorWith _ _ hlen1]
    rw [hl] at hK1
    have hKK : K1 = K := by
      rw [hK] at hK1
      exact (Option.some.inj hK1).symm
    subst hKK
    rw [← h, xorWith_xorWith _ _ hlen1]
  · intro h
    have hl : (fromBase64 t).length = x.length := by
      rw [h, length_xorWith _ _ hlen]
    rw [hl] at hK1
    have hKK : K1 = K := by
      rw [hK] at hK1
      exact (Option.some.inj hK1).symm
    subst hKK
    rw [h, xorWith_xorWith _ _ hlen]

theorem decrypt_congr (key t e : QByteArray) (h : fromBase64 t = fromBase64 e) :
    decrypt key t = decrypt key e := by
  simp only [decrypt, h]

/-- C2, amended: for every identifier `x`, every non-empty key and every token
`t`, decoding `t` ends and either reports the token invalid, returning the
empty URL, or returns the `QUrl` built from a decoded text that passed every
check of `idUrlFromUrl`. The decoded text is `x` byte for byte exactly when
`t` carries the same base64 payload as `encrypt x`, and then `idUrlFromUrl`
leaves behind exactly what it leaves behind for `encrypt x`. -/
theorem idUrlFromUrl_token (env : UrlEnv) (key x t : QByteArray) (hk : key ≠ []) :
    ∃ e d r, encrypt key x = some e ∧ decrypt key t = some d ∧
      idUrlFromUrl env key ((47 : Byte) :: t) = some r ∧
      ((r.ok = some false ∧ r.url = none) ∨
        (r.ok = some true ∧
          r.url = some (if env.isLocalFile d = true then env.qurlToString d else env.qurl d) ∧
          env.isValid d = true ∧ env.hasQueryItem d = true ∧ env.queryItemValue d ≠ [] ∧
          (env.isLocalFile d = true → env.exists_ d = true ∧ env.isFile d = true))) ∧
      (d = x ↔ fromBase64 t = fromBase64 e) ∧
      (fromBase64 t = fromBase64 e →
        decrypt key e = some x ∧
        idUrlFromUrl env key ((47 : Byte) :: t) = idUrlFromUrl env key ((47 : Byte) :: e)) := by
  obtain ⟨K, hK, hlen, he⟩ := encrypt_some key x hk
  obtain ⟨K1, hK1, hlen1, hd⟩ := decrypt_some key t hk
  have hiff := xorWith_inj_of_decrypt key x t K K1 hK hlen hK1 hlen1
  rw [← fromBase64_toBase64 (xorWith x K)] at hiff
  refine ⟨_, _, idUrlChecks env (xorWith (fromBase64 t) K1), he, hd, ?_, ?_, hiff, ?_⟩
  · simp only [idUrlFromUrl, hashOfPath_cons, hd]
  · unfold idUrlChecks
    by_cases h1 : env.isValid (xorWith (fromBase64 t) K1) = true
    · by_cases h2 : env.hasQueryItem (xorWith (fromBase64 t) K1) = true
      · by_cases h3 : env.queryItemValue (xorWith (fromBase64 t) K1) = []
        · simp [h1, h2, h3]
        · by_cases h4 : env.isLocalFile (xorWith (fromBase64 t) K1) = true
          · by_cases h5 : env.exists_ (xorWith (fromBase64 t) K1) = true
            · by_cases h6 : env.isFile (xorWith (fromBase64 t) K1) = true
              · simp [h1, h2, h3, h4, h5, h6]
              · simp [h1, h2, h3, h4, h5, h6]
            · simp [h1, h2, h3, h4, h5]
          · simp [h1, h2, h3, h4]
      · simp [h1, h2]
    · simp [h1]
  · intro h
    refine ⟨decrypt_toBase64_xorWith key x K hK hlen, ?_⟩
    simp only [idUrlFromUrl, hashOfPath_cons, decrypt_congr key t _ h]

theorem idUrlFromUrl_token_witness :
    sampleKey ≠ [] ∧
    ∃ e d r, encrypt sampleKey sampleId = some e ∧ decrypt sampleKey tamperedToken = some d ∧
      idUrlFromUrl sampleEnv sampleKey ((47 : Byte) :: tamperedToken) = some r ∧
      ((r.ok = some false ∧ r.url = none) ∨
        (r.ok = some true ∧
          r.url = some (if sampleEnv.isLocalFile d = true then sampleEnv.qurlToString d
            else sampleEnv.qurl d) ∧
          sampleEnv.isValid d = true ∧ sampleEnv.hasQueryItem d = true ∧
          sampleEnv.queryItemValue d ≠ [] ∧
          (sampleEnv.isLocalFile d = true →
            sampleEnv.exists_ d = true ∧ sampleEnv.isFile d = true))) ∧
      (d = sampleId ↔ fromBase64 tamperedToken = fromBase64 e) ∧
      (fromBase64 tamperedToken = fromBase64 e →
        decrypt sampleKey e = some sampleId ∧
        idUrlFromUrl sampleEnv sampleKey ((47 : Byte) :: tamperedToken) =
          idUrlFromUrl sampleEnv sampleKey ((47 : Byte) :: e)) :=
  ⟨by decide, idUrlFromUrl_token sampleEnv sampleKey sampleId tamperedToken (by decide)⟩

/-! ## Static file streamer -/

theorem seqWriteDataLoop_copy (qlen : Int) (hq : 0 < qlen) (content : QByteArray) :
    ∀ (fuel n pos : Nat) (resp : QHttpResponse), n < fuel → pos + n ≤ content.length →
      resp.finished = false → resp.status.isSome = true →
      seqWriteDataLoop qlen content fuel (n : Int) pos resp =
        some (true, { resp with body := resp.body ++ (content.drop pos).take n }) := by
  intro fuel
  induction fuel with
  | zero => intro n pos resp h; exact absurd h (by omega)
  | succ f ih =>
    intro n pos resp hn hpos hfin hst
    obtain ⟨hs, st, bd, fn⟩ := resp
    simp only at hfin hst
    subst hfin
    unfold seqWriteDataLoop
    simp only [Bool.false_eq_true, if_false]
    by_cases hlt : (n : Int) < qlen
    · -- the rest fits one chunk
      simp only [hlt, if_true, Int.toNat_ofNat]
      have hlen : ((content.drop pos).take n).length = n := by
        rw [List.length_take, List.length_drop]; omega
      simp only [hlen, Nat.sub_self, List.replicate_zero, List.append_nil, sub_self]
      have hneg : ¬ ((n : Int) < 0) := by omega
      simp only [hneg, if_false, lt_self_iff_false]
      by_cases hn0 : n = 0
      · subst hn0
        simp
      · have : (0 : Int) < (n : Int) := by omega
        simp [this, QHttpResponse.write, QHttpResponse.isHeaderWritten, hst]
    · -- a full chunk of qlen bytes
      have hqn : qlen.toNat ≤ n := by omega
      have hq0 : 0 < qlen.toNat := by omega
      simp only [hlt, if_false]
      have hlen : ((content.drop pos).take qlen.toNat).length = qlen.toNat := by
        rw [List.length_take, List.length_drop]; omega
      simp only [hlen, Nat.sub_self, List.replicate_zero, List.append_nil]
      have hneg : ¬ (qlen < 0) := by omega
      have hpos1 : (0 : Int) < (qlen.toNat : Int) := by omega
      simp only [hneg, if_false, hpos1, if_true]
      by_cases hr : (n : Int) - qlen > 0
      · simp only [hr, if_true]
        have hcast : (n : Int) - qlen = ((n - qlen.toNat : Nat) : Int) := by omega
        rw [hcast]
        have hw : (QHttpResponse.write { headers := hs, status := st, body := bd, finished := false }
              ((content.drop pos).take qlen.toNat)) =
            { headers := hs, status := st,
              body := bd ++ (content.drop pos).take qlen.toNat, finished := false } := by
          simp [QHttpResponse.write, QHttpResponse.isHeaderWritten, hst]
        rw [hw, ih (n - qlen.toNat) (pos + qlen.toNat)
          { headers := hs, status := st,
            body := bd ++ (content.drop pos).take qlen.toNat, finished := false }
          (by omega) (by omega) rfl hst]
        have hsplit : (content.drop pos).take n =
            (content.drop pos).take qlen.toNat ++
              (content.drop (pos + qlen.toNat)).take (n - qlen.toNat) := by
          have := List.take_add (content.drop pos) qlen.toNat (n - qlen.toNat)
          rw [List.drop_drop] at this
          rw [← this]
          congr 1
          omega
        simp [hsplit]
      · have hnq : n = qlen.toNat := by omega
        simp only [hr, if_false]
        simp [QHttpResponse.write, QHttpResponse.isHeaderWritten, hst, hnq]

theorem seqWriteData_copy (qlen : Int) (hq : 0 < qlen) (content : QByteArray) (pos : Nat)
    (size : Int) (resp : QHttpResponse) (hsz : size ≤ 0 ∨ (pos : Int) + size ≤ content.length)
    (hfin : resp.finished = false) (hst : resp.status.isSome = true) :
    seqWriteData qlen content pos size resp =
      some (true, { resp with body := resp.body ++ (content.drop pos).take size.toNat }) := by
  obtain ⟨hs, st, bd, fn⟩ := resp
  simp only at hfin hst
  subst hfin
  by_cases h0 : size ≤ 0
  · have ht : size.toNat = 0 := by omega
    unfold seqWriteData
    rw [ht]
    unfold seqWriteDataLoop
    have h1 : size < qlen := by omega
    simp only [Bool.false_eq_true, if_false, h1, if_true, ht, List.take_zero,
      List.length_nil, Nat.sub_self, List.replicate_zero, List.append_nil]
    by_cases h2 : size < 0
    · simp [h2]
    · simp [h2]
  · have hcast : size = ((size.toNat : Nat) : Int) := by omega
    unfold seqWriteData
    have := seqWriteDataLoop_copy qlen hq content (size.toNat + 1) size.toNat pos
      { headers := hs, status := st, body := bd, finished := false }
      (by omega) (by omega) rfl hst
    rw [← hcast] at this
    exact this
theorem isDigit_not_isSpace (c : Char) (h : isDigit c = true) : isSpace c = false := by
  unfold isDigit at h
  unfold isSpace
  simp only [Bool.and_eq_true, decide_eq_true_eq] at h
  have h1 : c ≠ ' ' := by rintro rfl; simp at h
  have h2 : c ≠ '\t' := by rintro rfl; simp at h
  have h3 : c ≠ '\n' := by rintro rfl; simp at h
  have h4 : c ≠ '\r' := by rintro rfl; simp at h
  have h5 : c.toNat ≠ 11 := by omega
  have h6 : c.toNat ≠ 12 := by omega
  simp [h1, h2, h3, h4, h5, h6]

theorem rxIndexIn_range (ds es : List Char) (hne : ds ≠ [])
    (hds : ∀ c ∈ ds, isDigit c = true) (hes : ∀ c ∈ es, isDigit c = true) :
    rxIndexIn ('b' :: 'y' :: 't' :: 'e' :: 's' :: '=' :: (ds ++ '-' :: es)) = some (ds, es) := by
  obtain ⟨d, ds1, rfl⟩ := List.exists_cons_of_ne_nil hne
  have hd : isDigit d = true := hds d (List.mem_cons_self _ _)
  have hsp : isSpace d = false := isDigit_not_isSpace d hd
  have heq : isSpace '=' = false := by decide
  have hdash : isDigit '-' = false := by decide
  have h1 : List.dropWhile isSpace ('=' :: (d :: ds1 ++ '-' :: es)) = '=' :: (d :: ds1 ++ '-' :: es) := by
    simp [List.dropWhile, heq]
  have h2 : List.dropWhile isSpace (d :: ds1 ++ '-' :: es) = d :: ds1 ++ '-' :: es := by
    simp [List.dropWhile, hsp]
  have h3 : List.takeWhile isDigit (d :: ds1 ++ '-' :: es) = d :: ds1 := by
    rw [List.takeWhile_append_of_pos hds]
    simp [List.takeWhile, hdash]
  have h4 : List.dropWhile isDigit (d :: ds1 ++ '-' :: es) = '-' :: es := by
    rw [List.dropWhile_append_of_pos hds]
    simp [List.dropWhile, hdash]
  have h5 : List.takeWhile isDigit es = es := List.takeWhile_eq_self_iff.mpr hes
  simp only [rxIndexIn, rxMatchHere, h1, h2, h3, h4, h5]
theorem toInt_digits_nonneg (ds : List Char) (hne : ds ≠ []) (hds : ∀ c ∈ ds, isDigit c = true) :
    0 ≤ toInt ds := by
  obtain ⟨d, ds1, rfl⟩ := List.exists_cons_of_ne_nil hne
  have hd : isDigit d = true := hds d (List.mem_cons_self _ _)
  have h1 : d ≠ '-' := by rintro rfl; simp [isDigit] at hd
  have h2 : d ≠ '+' := by rintro rfl; simp [isDigit] at hd
  unfold toInt
  split
  · rename_i heq; simp at heq; exact absurd heq.1 h1
  · rename_i heq; simp at heq; exact absurd heq.1 h2
  · simp only
    split
    · simp
    · exact le_refl 0

theorem streamFile_range (qlen : Int) (hq : 0 < qlen) (content : QByteArray)
    (mime features : String) (method : HttpMethod) (ds es : List Char) (hne : ds ≠ [])
    (hds : ∀ c ∈ ds, isDigit c = true) (hes : ∀ c ∈ es, isDigit c = true) :
    streamFile qlen (some content) mime features (rangeRequest method ds es)
        QHttpResponse.fresh =
      some (rangeResponse mime features content.length (toInt ds)
        (if method = HttpMethod.HTTP_HEAD then []
         else (content.drop (toInt ds).toNat).take
           ((content.length : Int) - 1 - toInt ds + 1).toNat)) := by
  have hs := toInt_digits_nonneg ds hne hds
  have hrx := rxIndexIn_range ds es hne hds hes
  unfold streamFile
  simp only [rangeRequest, QHttpRequest.contains, QHttpRequest.value, List.any_cons, List.any_nil,
    decide_True, Bool.or_false, if_true, List.find?_cons_of_pos, Option.map_some',
    Option.getD_some, hrx, rxCap]
  have hhead : ∀ (a b : String),
      (((((((QHttpResponse.fresh.setHeader "Content-Type" mime).setHeader "Accept-Ranges"
        "bytes").setHeader "Connection" "close").setHeader "transferMode.dlna.org"
        "Streaming").setHeader "contentFeatures.dlna.org" features).setHeader
        "Content-Length" a).setHeader "Content-Range" b) =
      { headers :=
          [("Content-Type", mime), ("Accept-Ranges", "bytes"), ("Connection", "close"),
            ("transferMode.dlna.org", "Streaming"), ("contentFeatures.dlna.org", features),
            ("Content-Length", a), ("Content-Range", b)]
        status := none, body := [], finished := false } := by
    intro a b
    simp [QHttpResponse.setHeader, QHttpResponse.fresh]
  have hgt : ¬ ((content.length : Int) - 1 > (content.length : Int) - 1) := lt_irrefl _
  simp only [String.toList, hrx, hgt, if_false, hhead]
  by_cases hm : method = HttpMethod.HTTP_HEAD
  · simp [hm, sendResponse, QHttpResponse.writeHead, QHttpResponse.end_, rangeResponse]
  · have hw := seqWriteData_copy qlen hq content (toInt ds).toNat
      ((content.length : Int) - 1 - toInt ds + 1)
      { headers :=
          [("Content-Type", mime), ("Accept-Ranges", "bytes"), ("Connection", "close"),
            ("transferMode.dlna.org", "Streaming"), ("contentFeatures.dlna.org", features),
            ("Content-Length", toString ((content.length : Int) - 1 - toInt ds + 1)),
            ("Content-Range", "bytes " ++ toString (toInt ds) ++ "-" ++
              toString ((content.length : Int) - 1) ++ "/" ++
              toString ((content.length : Int) - 1))]
        status := some 206, body := [], finished := false }
      (by omega) rfl rfl
    simp only [hm, decide_False, Bool.false_eq_true, if_false, QHttpResponse.writeHead,
      Option.isSome_none, hw]
    simp [QHttpResponse.end_, rangeResponse]
/-- C3: on a file of 1000 bytes, `streamFile` answers `Range: bytes=1000-2000`
with status 206 and the range `1000-999`, not with 416: the end byte `2000`
is read from capture group 3 of an expression that has two groups, so it is
never seen. -/
theorem streamFile_range_1000_2000 (qlen : Int) (hq : 0 < qlen) (content : QByteArray)
    (hlen : content.length = 1000) (mime features : String) :
    streamFile qlen (some content) mime features
        (rangeRequest HttpMethod.HTTP_GET ['1', '0', '0', '0'] ['2', '0', '0', '0'])
        QHttpResponse.fresh =
      some { headers :=
               [("Content-Type", mime), ("Accept-Ranges", "bytes"), ("Connection", "close"),
                 ("transferMode.dlna.org", "Streaming"), ("contentFeatures.dlna.org", features),
                 ("Content-Length", "0"), ("Content-Range", "bytes 1000-999/999")]
             status := some 206
             body := []
             finished := true } := by
  have h := streamFile_range qlen hq content mime features HttpMethod.HTTP_GET
    ['1', '0', '0', '0'] ['2', '0', '0', '0'] (by decide) (by decide) (by decide)
  rw [h, hlen]
  have h1 : toInt ['1', '0', '0', '0'] = 1000 := by decide
  rw [h1]
  simp only [rangeResponse]
  congr 1

theorem streamFile_range_1000_2000_witness :
    (0 : Int) < 4096 ∧ (List.replicate 1000 (0 : Byte)).length = 1000 ∧
    streamFile 4096 (some (List.replicate 1000 (0 : Byte))) "audio/mpeg" ""
        (rangeRequest HttpMethod.HTTP_GET ['1', '0', '0', '0'] ['2', '0', '0', '0'])
        QHttpResponse.fresh =
      some { headers :=
               [("Content-Type", "audio/mpeg"), ("Accept-Ranges", "bytes"), ("Connection", "close"),
                 ("transferMode.dlna.org", "Streaming"), ("contentFeatures.dlna.org", ""),
                 ("Content-Length", "0"), ("Content-Range", "bytes 1000-999/999")]
             status := some 206
             body := []
             finished := true } :=
  ⟨by decide, List.length_replicate _ _,
    streamFile_range_1000_2000 4096 (by decide) (List.replicate 1000 (0 : Byte))
      (List.length_replicate _ _) "audio/mpeg" ""⟩

/-- C4: on a file of 1000 bytes, `streamFile` answers `Range: bytes=0-99` with
`Content-Length: 1000`, `Content-Range: bytes 0-999/999` and the whole file
as body, not with the 100 bytes `0-99` that were asked for. -/
theorem streamFile_range_0_99 (qlen : Int) (hq : 0 < qlen) (content : QByteArray)
    (hlen : content.length = 1000) (mime features : String) :
    streamFile qlen (some content) mime features
        (rangeRequest HttpMethod.HTTP_GET ['0'] ['9', '9']) QHttpResponse.fresh =
      some { headers :=
               [("Content-Type", mime), ("Accept-Ranges", "bytes"), ("Connection", "close"),
                 ("transferMode.dlna.org", "Streaming"), ("contentFeatures.dlna.org", features),
                 ("Content-Length", "1000"), ("Content-Range", "bytes 0-999/999")]
             status := some 206
             body := content
             finished := true } := by
  have h := streamFile_range qlen hq content mime features HttpMethod.HTTP_GET
    ['0'] ['9', '9'] (by decide) (by decide) (by decide)
  rw [h, hlen]
  have h1 : toInt ['0'] = 0 := by decide
  rw [h1]
  have h2 : ((((1000 : Nat) : Int) - 1 - 0 + 1).toNat) = 1000 := by decide
  have h3 : List.take 1000 content = content := by
    rw [← hlen]; exact List.take_length content
  simp only [rangeResponse, h2, Int.toNat_zero, List.drop_zero, h3]
  congr 1

theorem streamFile_range_0_99_witness :
    (0 : Int) < 4096 ∧ (List.replicate 1000 (7 : Byte)).length = 1000 ∧
    streamFile 4096 (some (List.replicate 1000 (7 : Byte))) "audio/mpeg" ""
        (rangeRequest HttpMethod.HTTP_GET ['0'] ['9', '9']) QHttpResponse.fresh =
      some { headers :=
               [("Content-Type", "audio/mpeg"), ("Accept-Ranges", "bytes"), ("Connection", "close"),
                 ("transferMode.dlna.org", "Streaming"), ("contentFeatures.dlna.org", ""),
                 ("Content-Length", "1000"), ("Content-Range", "bytes 0-999/999")]
             status := some 206
             body := List.replicate 1000 (7 : Byte)
             finished := true } :=
  ⟨by decide, List.length_replicate _ _,
    streamFile_range_0_99 4096 (by decide) (List.replicate 1000 (7 : Byte))
      (List.length_replicate _ _) "audio/mpeg" ""⟩

/-- The digits `2147483648`, the number `2^31`. -/
theorem toInt_two_pow_31 : toInt ['2', '1', '4', '7', '4', '8', '3', '6', '4', '8'] = 0 := by
  decide

/-- C5: on a file of 3000000000 bytes, `streamFile` answers the open-ended
header `Range: bytes=2147483648-` with `Content-Range: bytes
0-2999999999/2999999999`, `Content-Length: 3000000000` and the whole file as
body: `toInt` gives 0 for a start byte that is no 32-bit `int`. -/
theorem streamFile_range_start_overflow (qlen : Int) (hq : 0 < qlen) (content : QByteArray)
    (hlen : content.length = 3000000000) (mime features : String) :
    streamFile qlen (some content) mime features
        (rangeRequest HttpMethod.HTTP_GET ['2', '1', '4', '7', '4', '8', '3', '6', '4', '8'] [])
        QHttpResponse.fresh =
      some { headers :=
               [("Content-Type", mime), ("Accept-Ranges", "bytes"), ("Connection", "close"),
                 ("transferMode.dlna.org", "Streaming"), ("contentFeatures.dlna.org", features),
                 ("Content-Length", "3000000000"),
                 ("Content-Range", "bytes 0-2999999999/2999999999")]
             status := some 206
             body := content
             finished := true } := by
  have h := streamFile_range qlen hq content mime features HttpMethod.HTTP_GET
    ['2', '1', '4', '7', '4', '8', '3', '6', '4', '8'] [] (by decide) (by decide) (by decide)
  rw [h, hlen, toInt_two_pow_31]
  have h2 : ((((3000000000 : Nat) : Int) - 1 - 0 + 1).toNat) = 3000000000 := by decide
  have h3 : List.take 3000000000 content = content := by
    rw [← hlen]; exact List.take_length content
  simp only [rangeResponse, h2, Int.toNat_zero, List.drop_zero, h3]
  congr 1

theorem streamFile_range_start_overflow_witness :
    (0 : Int) < 4096 ∧ (List.replicate 3000000000 (7 : Byte)).length = 3000000000 ∧
    streamFile 4096 (some (List.replicate 3000000000 (7 : Byte))) "video/mp4" ""
        (rangeRequest HttpMethod.HTTP_GET ['2', '1', '4', '7', '4', '8', '3', '6', '4', '8'] [])
        QHttpResponse.fresh =
      some { headers :=
               [("Content-Type", "video/mp4"), ("Accept-Ranges", "bytes"), ("Connection", "close"),
                 ("transferMode.dlna.org", "Streaming"), ("contentFeatures.dlna.org", ""),
                 ("Content-Length", "3000000000"),
                 ("Content-Range", "bytes 0-2999999999/2999999999")]
             status := some 206
             body := List.replicate 3000000000 (7 : Byte)
             finished := true } :=
  ⟨by decide, List.length_replicate _ _,
    streamFile_range_start_overflow 4096 (by decide) (List.replicate 3000000000 (7 : Byte))
      (List.length_replicate _ _) "video/mp4" ""⟩
/-! ## SHOUTcast de-interleaving -/

theorem tdiv_of_bounds (b m k : Int) (hm : 0 < m) (hk : 0 ≤ k) (h1 : k * m ≤ b)
    (h2 : b < (k + 1) * m) : Int.tdiv b m = k := by
  have hb : 0 ≤ b := le_trans (mul_nonneg hk (le_of_lt hm)) h1
  rw [Int.tdiv_eq_ediv hb (le_of_lt hm)]
  apply le_antisymm
  · have : b / m < k + 1 := (Int.ediv_lt_iff_lt_mul hm).mpr h2
    omega
  · exact (Int.le_ediv_iff_mul_le hm).mpr h1

theorem QByteArray_at_append (p r : QByteArray) (b : Byte) (i : Int) (hi : i = p.length) :
    QByteArray_at (p ++ b :: r) i = some b := by
  subst hi
  unfold QByteArray_at
  have h : (0 : Int) ≤ (p.length : Int) ∧ (p.length : Int) < ((p ++ b :: r).length : Int) := by
    constructor
    · omega
    · rw [List.length_append, List.length_cons]; omega
  rw [if_pos h, Int.toNat_ofNat, List.get?_eq_getElem?,
    List.getElem?_append_right (le_refl _), Nat.sub_self]
  simp

theorem QByteArray_mid_append (p r : QByteArray) (i l : Int) (hi : i = p.length) (hl : 0 ≤ l) :
    QByteArray_mid (p ++ r) i l = r.take l.toNat := by
  subst hi
  unfold QByteArray_mid
  have h1 : ¬ ((p.length : Int) > ((p ++ r).length : Int)) := by
    rw [List.length_append]; omega
  have h2 : ¬ ((p.length : Int) < 0) := by omega
  rw [if_neg h1, if_neg h2]
  have hd : List.drop (p.length : Int).toNat (p ++ r) = r := by simp
  rw [hd]
  split
  · rename_i h
    have : r.length ≤ l.toNat := by
      rw [List.length_append] at h
      omega
    rw [List.take_of_length_le this]
  · rfl

theorem QByteArray_remove_append (p r : QByteArray) (i l : Int) (hi : i = p.length)
    (hl : 0 < l) (hr : r ≠ []) :
    QByteArray_remove (p ++ r) i l = p ++ r.drop l.toNat := by
  subst hi
  have hrl : 0 < r.length := List.length_pos.mpr hr
  unfold QByteArray_remove
  have h1 : ¬ (l ≤ 0 ∨ (p.length : Int) < 0 ∨ (p.length : Int) ≥ ((p ++ r).length : Int)) := by
    rw [List.length_append]; omega
  rw [if_neg h1]
  have ht : List.take (p.length : Int).toNat (p ++ r) = p := by simp
  rw [ht]
  split
  · rename_i h
    have : r.length ≤ l.toNat := by
      rw [List.length_append] at h
      omega
    rw [List.drop_of_length_le this, List.append_nil]
  · have hcast : ((p.length : Int) + l).toNat = p.length + l.toNat := by omega
    rw [hcast, List.drop_append]

theorem QByteArray_remove_outside (d : QByteArray) (i l : Int) (h : (d.length : Int) ≤ i) :
    QByteArray_remove d i l = d := by
  unfold QByteArray_remove
  rw [if_pos (Or.inr (Or.inr h))]

theorem byte_ofNat_cast (n : Nat) (h : n < 256) : (((Fin.ofNat n : Byte).val : Nat) : Int) = n := by
  show ((n % 256 : Nat) : Int) = n
  rw [Nat.mod_eq_of_lt h]

theorem process_block_short_by_one (M n : Nat) (a1 pl id : QByteArray) (sk : Bool)
    (hn : 0 < n) (hn2 : n < 256) (hM : 16 * n < M) (ha1 : a1.length = M)
    (hpl : pl.length + 1 = 16 * n) :
    processShoutcastMetadata (a1 ++ (Fin.ofNat n : Byte) :: pl)
        { id := id, meta := false, seek := sk, state := 1, metaint := M, metacounter := 0,
          data := [] } =
      some { data := a1
             item := { id := id, meta := false, seek := sk, state := 1, metaint := M,
                       metacounter := -1, data := [] }
             emitted := [(id, pl)] } := by
  have hcount : (((a1 ++ (Fin.ofNat n : Byte) :: pl).length : Nat) : Int) = (M : Int) + 16 * n := by
    rw [List.length_append, List.length_cons, ha1]; omega
  unfold processShoutcastMetadata
  simp only [hcount, zero_add]
  have hb : (M : Int) + 16 * n > M := by omega
  have hassert : ¬ ¬ ((M : Int) ≥ 0) := by omega
  have hM0 : ¬ ((M : Int) = 0) := by omega
  have hdiv : Int.tdiv ((M : Int) + 16 * n) M = 1 :=
    tdiv_of_bounds _ _ 1 (by omega) (by omega) (by omega) (by omega)
  simp only [hb, if_true, hassert, if_false, hM0, hdiv]
  have hat : QByteArray_at (a1 ++ (Fin.ofNat n : Byte) :: pl) ((M : Int) - 0 + (0 * M + 0 + 0)) =
      some (Fin.ofNat n) := QByteArray_at_append a1 pl _ _ (by rw [ha1]; omega)
  have hmid : QByteArray_mid (a1 ++ (Fin.ofNat n : Byte) :: pl) ((M : Int) - 0 + (0 * M + 0 + 0) + 1)
      (16 * (n : Int)) = pl := by
    have := QByteArray_mid_append (a1 ++ [(Fin.ofNat n : Byte)]) pl
      ((M : Int) - 0 + (0 * M + 0 + 0) + 1) (16 * (n : Int))
      (by rw [List.length_append, ha1]; simp) (by omega)
    rw [List.append_assoc] at this
    rw [show a1 ++ (Fin.ofNat n : Byte) :: pl = a1 ++ ([(Fin.ofNat n : Byte)] ++ pl) from rfl, this]
    exact List.take_of_length_le (by omega)
  have hrem : QByteArray_remove (a1 ++ (Fin.ofNat n : Byte) :: pl) ((M : Int) - 0 + (0 * M + 0 + 0))
      (16 * (n : Int) + 1) = a1 := by
    rw [QByteArray_remove_append a1 _ _ _ (by rw [ha1]; omega) (by omega) (by simp)]
    rw [List.drop_of_length_le (by rw [List.length_cons]; omega), List.append_nil]
  simp only [Int.toNat_one, metaLoop, hat, byte_ofNat_cast n hn2, hcount]
  have hsz : ¬ (16 * (n : Int) > (M : Int) + 16 * n - ((M : Int) - 0 + (0 * M + 0 + 0))) := by omega
  have hpos : (16 * (n : Int) > 0) := by omega
  simp only [hsz, if_false, hpos, if_true, hmid, Bool.not_false, List.nil_append, zero_add,
    List.isEmpty_cons, Bool.and_self, removeLoop, hrem]
  have hmc : (M : Int) + 16 * n - 1 * ((M : Int) + 1) - 16 * n = -1 := by omega
  rw [hmc]

theorem process_no_boundary (data : QByteArray) (item : ProxyItem)
    (h : item.metacounter + (data.length : Int) ≤ item.metaint) :
    processShoutcastMetadata data item =
      some { data := data
             item := { item with metacounter := item.metacounter + (data.length : Int) }
             emitted := [] } := by
  unfold processShoutcastMetadata
  have : ¬ (item.metacounter + (data.length : Int) > item.metaint) := by omega
  simp only [this, if_false]

/-- C6: a metadata block of `16 * n` payload bytes whose last payload byte
arrives in the second read is not reassembled: the one signal emitted carries
the payload without its last byte, and that byte is forwarded to the client
between the audio bytes. -/
theorem proxyReads_split_before_last_byte (M n : Nat) (a1 a2 pl id bd : QByteArray)
    (last : Byte) (sk : Bool) (headers : List (String × String)) (st : Int)
    (hn : 0 < n) (hn2 : n < 256) (hM : 16 * n < M) (ha1 : a1.length = M)
    (hpl : pl.length + 1 = 16 * n) (ha2 : a2.length < M) :
    proxyReads
        { id := id, meta := false, seek := sk, state := 1, metaint := M, metacounter := 0,
          data := [] }
        { headers := headers, status := some st, body := bd, finished := false }
        [a1 ++ (Fin.ofNat n : Byte) :: pl, last :: a2] =
      some { item := some { id := id, meta := false, seek := sk, state := 1, metaint := M,
                            metacounter := a2.length, data := [] }
             resp := { headers := headers, status := some st,
                       body := bd ++ a1 ++ last :: a2, finished := false }
             emitted := [(id, pl)] } := by
  have h1 := process_block_short_by_one M n a1 pl id sk hn hn2 hM ha1 hpl
  have h2 := process_no_boundary (last :: a2)
    { id := id, meta := false, seek := sk, state := 1, metaint := M, metacounter := -1,
      data := [] } (by simp only [List.length_cons]; omega)
  have hM0 : (M : Int) > 0 := by omega
  have hmc : (-1 : Int) + ((last :: a2).length : Int) = a2.length := by
    simp only [List.length_cons]; omega
  rw [hmc] at h2
  simp [proxyReads, proxyReadyRead, QHttpResponse.isHeaderWritten, QHttpResponse.write, h1, h2,
    hM0]

theorem proxyReads_split_before_last_byte_witness :
    0 < 1 ∧ 1 < 256 ∧ 16 * 1 < 8192 ∧ (List.replicate 8192 (170 : Byte)).length = 8192 ∧
    ([83, 116, 114, 101, 97, 109, 84, 105, 116, 108, 101, 61, 39, 65, 39] : QByteArray).length + 1
      = 16 * 1 ∧
    (List.replicate 100 (171 : Byte)).length < 8192 ∧
    proxyReads
        { id := [1], meta := false, seek := false, state := 1, metaint := (8192 : Nat),
          metacounter := 0, data := [] }
        { headers := [], status := some 200, body := [], finished := false }
        [List.replicate 8192 (170 : Byte) ++ (Fin.ofNat 1 : Byte) ::
            [83, 116, 114, 101, 97, 109, 84, 105, 116, 108, 101, 61, 39, 65, 39],
          59 :: List.replicate 100 (171 : Byte)] =
      some { item := some { id := [1], meta := false, seek := false, state := 1,
                            metaint := (8192 : Nat),
                            metacounter := (List.replicate 100 (171 : Byte)).length, data := [] }
             resp := { headers := [], status := some 200,
                       body := [] ++ List.replicate 8192 (170 : Byte) ++
                         59 :: List.replicate 100 (171 : Byte),
                       finished := false }
             emitted := [([1], [83, 116, 114, 101, 97, 109, 84, 105, 116, 108, 101, 61, 39, 65, 39])] } :=
  ⟨by decide, by decide, by decide, List.length_replicate _ _, by decide,
    by rw [List.length_replicate]; decide,
    proxyReads_split_before_last_byte 8192 1 (List.replicate 8192 (170 : Byte))
      (List.replicate 100 (171 : Byte))
      [83, 116, 114, 101, 97, 109, 84, 105, 116, 108, 101, 61, 39, 65, 39] [1] [] 59 false [] 200
      (by decide) (by decide) (by decide) (List.length_replicate _ _) (by decide)
      (by rw [List.length_replicate]; decide)⟩

theorem process_second_block_incomplete (M n : Nat) (a1 a2 pl id : QByteArray) (sk : Bool)
    (hn2 : n < 256) (ha1 : a1.length = M) (ha2 : a2.length = M)
    (hpl : pl.length + 1 < 16 * n) (hM : pl.length + 2 < M) :
    processShoutcastMetadata (a1 ++ (0 : Byte) :: (a2 ++ (Fin.ofNat n : Byte) :: pl))
        { id := id, meta := false, seek := sk, state := 1, metaint := M, metacounter := 0,
          data := [] } =
      some { data := a1 ++ (0 : Byte) :: a2
             item := { id := id, meta := false, seek := sk, state := 1, metaint := M,
                       metacounter := 2 * (M : Int) + 1, data := (Fin.ofNat n : Byte) :: pl }
             emitted := [] } := by
  have hcount : (((a1 ++ (0 : Byte) :: (a2 ++ (Fin.ofNat n : Byte) :: pl)).length : Nat) : Int) =
      2 * (M : Int) + 2 + pl.length := by
    simp only [List.length_append, List.length_cons, ha1, ha2]; omega
  unfold processShoutcastMetadata
  simp only [hcount, zero_add]
  have hb : 2 * (M : Int) + 2 + pl.length > M := by omega
  have hassert : ¬ ¬ ((M : Int) ≥ 0) := by omega
  have hM0 : ¬ ((M : Int) = 0) := by omega
  have hdiv : Int.tdiv (2 * (M : Int) + 2 + pl.length) M = 2 :=
    tdiv_of_bounds _ _ 2 (by omega) (by omega) (by omega) (by omega)
  simp only [hb, if_true, hassert, if_false, hM0, hdiv]
  have hat0 : QByteArray_at (a1 ++ (0 : Byte) :: (a2 ++ (Fin.ofNat n : Byte) :: pl))
      ((M : Int) - 0 + (0 * M + 0 + 0)) = some 0 :=
    QByteArray_at_append a1 _ _ _ (by rw [ha1]; omega)
  have hre : a1 ++ (0 : Byte) :: (a2 ++ (Fin.ofNat n : Byte) :: pl) =
      (a1 ++ (0 : Byte) :: a2) ++ (Fin.ofNat n : Byte) :: pl := by simp
  have hlen2 : (((a1 ++ (0 : Byte) :: a2).length : Nat) : Int) = 2 * (M : Int) + 1 := by
    simp only [List.length_append, List.length_cons, ha1, ha2]; omega
  have hat1 : QByteArray_at (a1 ++ (0 : Byte) :: (a2 ++ (Fin.ofNat n : Byte) :: pl))
      ((M : Int) - 0 + ((0 + 1) * M + 0 + (0 + 1))) = some (Fin.ofNat n) := by
    rw [hre]
    exact QByteArray_at_append _ _ _ _ (by rw [hlen2]; omega)
  have hmid : QByteArray_mid (a1 ++ (0 : Byte) :: (a2 ++ (Fin.ofNat n : Byte) :: pl))
      ((M : Int) - 0 + ((0 + 1) * M + 0 + (0 + 1)))
      (2 * (M : Int) + 2 + pl.length - ((M : Int) - 0 + ((0 + 1) * M + 0 + (0 + 1)))) =
      (Fin.ofNat n : Byte) :: pl := by
    rw [hre, QByteArray_mid_append _ _ _ _ (by rw [hlen2]; omega) (by omega)]
    exact List.take_of_length_le (by rw [List.length_cons]; omega)
  have hrem : QByteArray_remove (a1 ++ (0 : Byte) :: (a2 ++ (Fin.ofNat n : Byte) :: pl))
      ((M : Int) - 0 + ((0 + 1) * M + 0 + (0 + 1)))
      (2 * (M : Int) + 2 + pl.length - ((M : Int) - 0 + ((0 + 1) * M + 0 + (0 + 1)))) =
      a1 ++ (0 : Byte) :: a2 := by
    rw [hre, QByteArray_remove_append _ _ _ _ (by rw [hlen2]; omega) (by omega) (by simp)]
    rw [List.drop_of_length_le (by rw [List.length_cons]; omega), List.append_nil]
  have hz : (((0 : Byte).val : Nat) : Int) = 0 := rfl
  have hsz0 : ¬ (16 * (0 : Int) > 2 * (M : Int) + 2 + pl.length - ((M : Int) - 0 + (0 * M + 0 + 0))) := by
    omega
  have hpos0 : ¬ (16 * (0 : Int) > 0) := by omega
  have hsz1 : 16 * (n : Int) >
      2 * (M : Int) + 2 + pl.length - ((M : Int) - 0 + ((0 + 1) * M + 0 + (0 + 1))) := by omega
  have h2 : Int.toNat 2 = 2 := rfl
  simp only [h2, metaLoop, hat0, hz, hsz0, if_false, hpos0, hat1, byte_ofNat_cast n hn2, hsz1,
    if_true, hmid, hrem]
  have hmc : 2 * (M : Int) + 2 + pl.length - (((Fin.ofNat n : Byte) :: pl).length : Int) =
      2 * (M : Int) + 1 := by
    simp only [List.length_cons]; omega
  rw [hmc]

/-- C7: one read that holds `metaint` audio bytes, an empty metadata block,
`metaint` more audio bytes and the first bytes of the next block leaves
`metacounter = 2 * metaint + 1`, which is more than `metaint`; at the next
read the guard `metaint >= metacounter` fails. -/
theorem metacounter_exceeds_metaint (M n : Nat) (a1 a2 pl id r bd : QByteArray) (sk : Bool)
    (headers : List (String × String)) (st : Int)
    (hn2 : n < 256) (ha1 : a1.length = M) (ha2 : a2.length = M)
    (hpl : pl.length + 1 < 16 * n) (hM : pl.length + 2 < M) :
    processShoutcastMetadata (a1 ++ (0 : Byte) :: (a2 ++ (Fin.ofNat n : Byte) :: pl))
        { id := id, meta := false, seek := sk, state := 1, metaint := M, metacounter := 0,
          data := [] } =
      some { data := a1 ++ (0 : Byte) :: a2
             item := { id := id, meta := false, seek := sk, state := 1, metaint := M,
                       metacounter := 2 * (M : Int) + 1, data := (Fin.ofNat n : Byte) :: pl }
             emitted := [] } ∧
    (M : Int) < 2 * (M : Int) + 1 ∧
    proxyReadyRead
        { id := id, meta := false, seek := sk, state := 1, metaint := M,
          metacounter := 2 * (M : Int) + 1, data := (Fin.ofNat n : Byte) :: pl }
        { headers := headers, status := some st, body := bd, finished := false } r = none := by
  refine ⟨process_second_block_incomplete M n a1 a2 pl id sk hn2 ha1 ha2 hpl hM, by omega, ?_⟩
  have hM0 : (M : Int) > 0 := by omega
  have hp : processShoutcastMetadata ((Fin.ofNat n : Byte) :: (pl ++ r))
      { id := id, meta := false, seek := sk, state := 1, metaint := M,
        metacounter := 2 * (M : Int) + 1, data := [] } = none := by
    unfold processShoutcastMetadata
    have hb : 2 * (M : Int) + 1 + ((((Fin.ofNat n : Byte) :: (pl ++ r)).length : Nat) : Int) > M := by
      omega
    have hassert : ¬ ((M : Int) ≥ 2 * (M : Int) + 1) := by omega
    simp only [hb, if_true, hassert, not_false_eq_true]
  simp [proxyReadyRead, QHttpResponse.isHeaderWritten, hM0, hp]

theorem metacounter_exceeds_metaint_witness :
    2 < 256 ∧ (List.replicate 8192 (170 : Byte)).length = 8192 ∧
    (List.replicate 8192 (171 : Byte)).length = 8192 ∧
    ([83, 116, 114, 101, 97, 109, 84, 105, 116, 108] : QByteArray).length + 1 < 16 * 2 ∧
    ([83, 116, 114, 101, 97, 109, 84, 105, 116, 108] : QByteArray).length + 2 < 8192 ∧
    processShoutcastMetadata
        (List.replicate 8192 (170 : Byte) ++ (0 : Byte) ::
          (List.replicate 8192 (171 : Byte) ++ (Fin.ofNat 2 : Byte) ::
            [83, 116, 114, 101, 97, 109, 84, 105, 116, 108]))
        { id := [1], meta := false, seek := false, state := 1, metaint := (8192 : Nat),
          metacounter := 0, data := [] } =
      some { data := List.replicate 8192 (170 : Byte) ++ (0 : Byte) ::
               List.replicate 8192 (171 : Byte)
             item := { id := [1], meta := false, seek := false, state := 1,
                       metaint := (8192 : Nat), metacounter := 2 * ((8192 : Nat) : Int) + 1,
                       data := (Fin.ofNat 2 : Byte) :: [83, 116, 114, 101, 97, 109, 84, 105, 116, 108] }
             emitted := [] } ∧
    ((8192 : Nat) : Int) < 2 * ((8192 : Nat) : Int) + 1 ∧
    proxyReadyRead
        { id := [1], meta := false, seek := false, state := 1, metaint := (8192 : Nat),
          metacounter := 2 * ((8192 : Nat) : Int) + 1,
          data := (Fin.ofNat 2 : Byte) :: [83, 116, 114, 101, 97, 109, 84, 105, 116, 108] }
        { headers := [], status := some 200, body := [], finished := false }
        [101, 61, 39, 65, 39, 59] = none :=
  ⟨by decide, List.length_replicate _ _, List.length_replicate _ _, by decide, by decide,
    metacounter_exceeds_metaint 8192 2 (List.replicate 8192 (170 : Byte))
      (List.replicate 8192 (171 : Byte)) [83, 116, 114, 101, 97, 109, 84, 105, 116, 108] [1]
      [101, 61, 39, 65, 39, 59] [] false [] 200 (by decide) (List.length_replicate _ _)
      (List.length_replicate _ _) (by decide) (by decide)⟩

theorem QByteArray_remove_eq (d : QByteArray) (i l : Nat) (hl : 0 < l) :
    QByteArray_remove d (i : Int) (l : Int) = d.take i ++ d.drop (i + l) := by
  unfold QByteArray_remove
  by_cases h1 : (d.length : Int) ≤ (i : Int)
  · rw [if_pos (Or.inr (Or.inr h1))]
    rw [List.take_of_length_le (by omega), List.drop_of_length_le (by omega), List.append_nil]
  · have h0 : ¬ ((l : Int) ≤ 0 ∨ (i : Int) < 0 ∨ (i : Int) ≥ (d.length : Int)) := by omega
    rw [if_neg h0, Int.toNat_ofNat]
    split
    · rw [List.drop_of_length_le (by omega), List.append_nil]
    · have hc : ((i : Int) + (l : Int)).toNat = i + l := by omega
      rw [hc]

/-- C8: a read that holds two complete metadata blocks is not cleaned of
both. The first block is removed; the second removal is made `16 * n1 + 1`
bytes behind the place of the second block instead of before it, so the
first `32 * n1 + 2` bytes from the second length byte on stay in the buffer
that is forwarded, and bytes behind them are removed instead. -/
theorem processShoutcastMetadata_two_blocks (M n1 n2 : Nat) (a1 a2 p1 p2 tail id : QByteArray) (sk : Bool)
    (hn1 : 0 < n1) (hn1b : n1 < 256) (hn2 : 0 < n2) (hn2b : n2 < 256)
    (ha1 : a1.length = M) (ha2 : a2.length = M)
    (hp1 : p1.length = 16 * n1) (hp2 : p2.length = 16 * n2)
    (hM : 16 * n1 + 16 * n2 + 2 + tail.length < M) :
    processShoutcastMetadata
        (a1 ++ (Fin.ofNat n1 : Byte) :: (p1 ++ (a2 ++ (Fin.ofNat n2 : Byte) :: (p2 ++ tail))))
        { id := id, meta := false, seek := sk, state := 1, metaint := M, metacounter := 0,
          data := [] } =
      some { data := a1 ++ (a2 ++
               (List.take (32 * n1 + 2) ((Fin.ofNat n2 : Byte) :: (p2 ++ tail)) ++
                List.drop (32 * n1 + 16 * n2 + 3) ((Fin.ofNat n2 : Byte) :: (p2 ++ tail))))
             item := { id := id, meta := false, seek := sk, state := 1, metaint := M,
                       metacounter := tail.length, data := [] }
             emitted := [(id, p1), (id, p2)] } := by
  have hcount : (((a1 ++ (Fin.ofNat n1 : Byte) ::
      (p1 ++ (a2 ++ (Fin.ofNat n2 : Byte) :: (p2 ++ tail)))).length : Nat) : Int) =
      2 * (M : Int) + 16 * n1 + 16 * n2 + 2 + tail.length := by
    simp only [List.length_append, List.length_cons, ha1, ha2, hp1, hp2]; omega
  unfold processShoutcastMetadata
  simp only [hcount, zero_add]
  have hb : 2 * (M : Int) + 16 * n1 + 16 * n2 + 2 + tail.length > M := by omega
  have hassert : ¬ ¬ ((M : Int) ≥ 0) := by omega
  have hM0 : ¬ ((M : Int) = 0) := by omega
  have hdiv : Int.tdiv (2 * (M : Int) + 16 * n1 + 16 * n2 + 2 + tail.length) M = 2 :=
    tdiv_of_bounds _ _ 2 (by omega) (by omega) (by omega) (by omega)
  simp only [hb, if_true, hassert, if_false, hM0, hdiv]
  -- first block
  have hat0 : QByteArray_at
      (a1 ++ (Fin.ofNat n1 : Byte) :: (p1 ++ (a2 ++ (Fin.ofNat n2 : Byte) :: (p2 ++ tail))))
      ((M : Int) - 0 + (0 * M + 0 + 0)) = some (Fin.ofNat n1) :=
    QByteArray_at_append a1 _ _ _ (by rw [ha1]; omega)
  have hre1 : a1 ++ (Fin.ofNat n1 : Byte) :: (p1 ++ (a2 ++ (Fin.ofNat n2 : Byte) :: (p2 ++ tail))) =
      (a1 ++ [(Fin.ofNat n1 : Byte)]) ++ (p1 ++ (a2 ++ (Fin.ofNat n2 : Byte) :: (p2 ++ tail))) := by
    simp
  have hmid0 : QByteArray_mid
      (a1 ++ (Fin.ofNat n1 : Byte) :: (p1 ++ (a2 ++ (Fin.ofNat n2 : Byte) :: (p2 ++ tail))))
      ((M : Int) - 0 + (0 * M + 0 + 0) + 1) (16 * (n1 : Int)) = p1 := by
    rw [hre1, QByteArray_mid_append _ _ _ _
      (by simp only [List.length_append, List.length_cons, List.length_nil, ha1]; omega)
      (by omega)]
    have : (16 * (n1 : Int)).toNat = p1.length := by omega
    rw [this, List.take_left]
  -- second block
  have hre2 : a1 ++ (Fin.ofNat n1 : Byte) :: (p1 ++ (a2 ++ (Fin.ofNat n2 : Byte) :: (p2 ++ tail))) =
      (a1 ++ (Fin.ofNat n1 : Byte) :: (p1 ++ a2)) ++ (Fin.ofNat n2 : Byte) :: (p2 ++ tail) := by
    simp
  have hlen2 : (((a1 ++ (Fin.ofNat n1 : Byte) :: (p1 ++ a2)).length : Nat) : Int) =
      2 * (M : Int) + 16 * n1 + 1 := by
    simp only [List.length_append, List.length_cons, ha1, ha2, hp1]; omega
  have hat1 : QByteArray_at
      (a1 ++ (Fin.ofNat n1 : Byte) :: (p1 ++ (a2 ++ (Fin.ofNat n2 : Byte) :: (p2 ++ tail))))
      ((M : Int) - 0 + ((0 + 1) * M + (0 + 16 * (n1 : Int)) + (0 + 1))) = some (Fin.ofNat n2) := by
    rw [hre2]
    exact QByteArray_at_append _ _ _ _ (by rw [hlen2]; omega)
  have hre3 : a1 ++ (Fin.ofNat n1 : Byte) :: (p1 ++ (a2 ++ (Fin.ofNat n2 : Byte) :: (p2 ++ tail))) =
      (a1 ++ (Fin.ofNat n1 : Byte) :: (p1 ++ a2) ++ [(Fin.ofNat n2 : Byte)]) ++ (p2 ++ tail) := by
    simp
  have hmid1 : QByteArray_mid
      (a1 ++ (Fin.ofNat n1 : Byte) :: (p1 ++ (a2 ++ (Fin.ofNat n2 : Byte) :: (p2 ++ tail))))
      ((M : Int) - 0 + ((0 + 1) * M + (0 + 16 * (n1 : Int)) + (0 + 1)) + 1) (16 * (n2 : Int)) = p2 := by
    rw [hre3, QByteArray_mid_append _ _ _ _
      (by simp only [List.length_append, List.length_cons, List.length_nil, ha1, ha2, hp1]; omega)
      (by omega)]
    have : (16 * (n2 : Int)).toNat = p2.length := by omega
    rw [this, List.take_left]
  have hsz0 : ¬ (16 * (n1 : Int) >
      2 * (M : Int) + 16 * n1 + 16 * n2 + 2 + tail.length - ((M : Int) - 0 + (0 * M + 0 + 0))) := by
    omega
  have hpos0 : 16 * (n1 : Int) > 0 := by omega
  have hsz1 : ¬ (16 * (n2 : Int) >
      2 * (M : Int) + 16 * n1 + 16 * n2 + 2 + tail.length -
        ((M : Int) - 0 + ((0 + 1) * M + (0 + 16 * (n1 : Int)) + (0 + 1)))) := by omega
  have hpos1 : 16 * (n2 : Int) > 0 := by omega
  have h2 : Int.toNat 2 = 2 := rfl
  simp only [h2, metaLoop, hat0, byte_ofNat_cast n1 hn1b, hsz0, if_false, hpos0, if_true, hmid0,
    hat1, byte_ofNat_cast n2 hn2b, hsz1, hpos1, hmid1, Bool.not_false, List.nil_append,
    List.cons_append, List.isEmpty_cons, Bool.and_self, removeLoop]
  have hrem0 : QByteArray_remove
      (a1 ++ (Fin.ofNat n1 : Byte) :: (p1 ++ (a2 ++ (Fin.ofNat n2 : Byte) :: (p2 ++ tail))))
      (0 + ((M : Int) - 0 + (0 * M + 0 + 0))) (16 * (n1 : Int) + 1) =
      (a1 ++ a2) ++ (Fin.ofNat n2 : Byte) :: (p2 ++ tail) := by
    rw [QByteArray_remove_append a1 _ _ _ (by rw [ha1]; omega) (by omega) (by simp)]
    have : (16 * (n1 : Int) + 1).toNat = p1.length + 1 := by omega
    rw [this, List.drop_succ_cons, List.drop_left, List.append_assoc]
  have hrem1 : QByteArray_remove ((a1 ++ a2) ++ (Fin.ofNat n2 : Byte) :: (p2 ++ tail))
      (16 * (n1 : Int) + 1 + ((M : Int) - 0 + ((0 + 1) * M + (0 + 16 * (n1 : Int)) + (0 + 1))))
      (16 * (n2 : Int) + 1) =
      a1 ++ (a2 ++
        (List.take (32 * n1 + 2) ((Fin.ofNat n2 : Byte) :: (p2 ++ tail)) ++
         List.drop (32 * n1 + 16 * n2 + 3) ((Fin.ofNat n2 : Byte) :: (p2 ++ tail)))) := by
    have hpos : 16 * (n1 : Int) + 1 + ((M : Int) - 0 + ((0 + 1) * M + (0 + 16 * (n1 : Int)) + (0 + 1))) =
        (((a1 ++ a2).length + (32 * n1 + 2) : Nat) : Int) := by
      simp only [List.length_append, ha1, ha2]; omega
    have hl : 16 * (n2 : Int) + 1 = ((16 * n2 + 1 : Nat) : Int) := by omega
    rw [hpos, hl, QByteArray_remove_eq _ _ _ (by omega), List.take_append]
    have hd : (a1 ++ a2).length + (32 * n1 + 2) + (16 * n2 + 1) =
        (a1 ++ a2).length + (32 * n1 + 16 * n2 + 3) := by omega
    rw [hd, List.drop_append, List.append_assoc, List.append_assoc]
  have hmc : 2 * (M : Int) + 16 * n1 + 16 * n2 + 2 + tail.length - 2 * ((M : Int) + 1) -
      (0 + 16 * (n1 : Int) + 16 * (n2 : Int)) = tail.length := by omega
  rw [hrem0, hrem1, hmc]
theorem processShoutcastMetadata_two_blocks_witness :
    0 < 1 ∧ 1 < 256 ∧ 0 < 1 ∧ 1 < 256 ∧
    (List.replicate 8192 (170 : Byte)).length = 8192 ∧
    (List.replicate 8192 (171 : Byte)).length = 8192 ∧
    ([83, 116, 114, 101, 97, 109, 84, 105, 116, 108, 101, 61, 39, 65, 39, 59] : QByteArray).length
      = 16 * 1 ∧
    ([83, 116, 114, 101, 97, 109, 84, 105, 116, 108, 101, 61, 39, 66, 39, 59] : QByteArray).length
      = 16 * 1 ∧
    16 * 1 + 16 * 1 + 2 + ([172, 172, 172] : QByteArray).length < 8192 ∧
    processShoutcastMetadata
        (List.replicate 8192 (170 : Byte) ++ (Fin.ofNat 1 : Byte) ::
          ([83, 116, 114, 101, 97, 109, 84, 105, 116, 108, 101, 61, 39, 65, 39, 59] ++
            (List.replicate 8192 (171 : Byte) ++ (Fin.ofNat 1 : Byte) ::
              ([83, 116, 114, 101, 97, 109, 84, 105, 116, 108, 101, 61, 39, 66, 39, 59] ++
                [172, 172, 172]))))
        { id := [1], meta := false, seek := false, state := 1, metaint := (8192 : Nat),
          metacounter := 0, data := [] } =
      some { data := List.replicate 8192 (170 : Byte) ++ (List.replicate 8192 (171 : Byte) ++
               ([1, 83, 116, 114, 101, 97, 109, 84, 105, 116, 108, 101, 61, 39, 66, 39, 59,
                 172, 172, 172] ++ []))
             item := { id := [1], meta := false, seek := false, state := 1,
                       metaint := (8192 : Nat), metacounter := (3 : Nat), data := [] }
             emitted :=
               [([1], [83, 116, 114, 101, 97, 109, 84, 105, 116, 108, 101, 61, 39, 65, 39, 59]),
                ([1], [83, 116, 114, 101, 97, 109, 84, 105, 116, 108, 101, 61, 39, 66, 39, 59])] } :=
  ⟨by decide, by decide, by decide, by decide, List.length_replicate _ _,
    List.length_replicate _ _, by decide, by decide, by decide,
    processShoutcastMetadata_two_blocks 8192 1 1 (List.replicate 8192 (170 : Byte))
      (List.replicate 8192 (171 : Byte))
      [83, 116, 114, 101, 97, 109, 84, 105, 116, 108, 101, 61, 39, 65, 39, 59]
      [83, 116, 114, 101, 97, 109, 84, 105, 116, 108, 101, 61, 39, 66, 39, 59]
      [172, 172, 172] [1] false (by decide) (by decide) (by decide) (by decide)
      (List.length_replicate _ _) (List.length_replicate _ _) (by decide) (by decide)
      (by decide)⟩


/-! ## Request dispatcher -/

theorem idUrlChecks_shape (env : UrlEnv) (id : QByteArray) :
    ((idUrlChecks env id).ok = some false ∧ (idUrlChecks env id).url = none) ∨
      ((idUrlChecks env id).ok = some true ∧ ∃ u, (idUrlChecks env id).url = some u) := by
  unfold idUrlChecks
  split
  · simp
  · split
    · simp
    · simp only
      split
      · split <;> simp
      · simp

theorem idUrlChecks_vanished (env : UrlEnv) (id : QByteArray)
    (h1 : env.isLocalFile id = true) (h2 : env.exists_ id = false) :
    (idUrlChecks env id).ok = some false := by
  unfold idUrlChecks
  split
  · rfl
  · split
    · rfl
    · simp [h1, h2]

/-- C9: for a GET or HEAD request (and a non-empty key) `requestHandler` ends
and takes exactly one outcome, the one that the dispatch rule of the
specification names for the decoded path; a path that decodes to a local file
which no longer exists gets the 404. -/
theorem requestHandler_dispatch {M : Type} (env : UrlEnv) (cs : Collab M)
    (key path : QByteArray) (method : HttpMethod) (resp : QHttpResponse)
    (hm : method = HttpMethod.HTTP_GET ∨ method = HttpMethod.HTTP_HEAD) (hk : key ≠ []) :
    ∃ id out, decrypt key (hashOfPath path) = some id ∧
      requestHandler env cs key method path resp = some out ∧
      observe resp out = some (dispatchSpec cs (idUrlChecks env id)) ∧
      (env.isLocalFile id = true → env.exists_ id = false →
        observe resp out = some Outcome.notFound) := by
  obtain ⟨K, _, _, hd⟩ := decrypt_some key (hashOfPath path) hk
  have hmeth : ¬ (method ≠ HttpMethod.HTTP_GET ∧ method ≠ HttpMethod.HTTP_HEAD) := by
    rcases hm with h | h <;> simp [h]
  have hrun : ∃ out, requestHandler env cs key method path resp = some out ∧
      observe resp out = some (dispatchSpec cs (idUrlChecks env (xorWith (fromBase64 (hashOfPath path)) K))) := by
    simp only [requestHandler, hmeth, if_false, idUrlFromUrl, hd]
    rcases idUrlChecks_shape env (xorWith (fromBase64 (hashOfPath path)) K) with
      ⟨hok, hurl⟩ | ⟨hok, u, hurl⟩
    · simp [hok, hurl, observe, handlerCalls, dispatchSpec]
    · simp only [hok, hurl, ne_eq, not_true_eq_false, if_false, Option.getD_some, dispatchSpec]
      by_cases hart : (idUrlChecks env (xorWith (fromBase64 (hashOfPath path)) K)).isArt = some true
      · simp [hart, observe, handlerCalls]
      · simp only [hart, if_false]
        cases hmeta : cs.getMetaForId u with
        | none => simp [observe, handlerCalls]
        | some m =>
          simp only
          by_cases hf : (idUrlChecks env (xorWith (fromBase64 (hashOfPath path)) K)).isFile = some true
          · simp [hf, observe, handlerCalls]
          · by_cases hmic : cs.isUrlMic u = true
            · simp [hf, hmic, observe, handlerCalls]
            · by_cases hp : cs.isUrlPulse u = true
              · simp [hf, hmic, hp, observe, handlerCalls]
              · simp [hf, hmic, hp, observe, handlerCalls]
  obtain ⟨out, hout, hobs⟩ := hrun
  refine ⟨_, out, hd, hout, hobs, ?_⟩
  intro h1 h2
  rw [hobs]
  have := idUrlChecks_vanished env _ h1 h2
  simp [dispatchSpec, this]

theorem requestHandler_dispatch_witness :
    (HttpMethod.HTTP_GET = HttpMethod.HTTP_GET ∨ HttpMethod.HTTP_GET = HttpMethod.HTTP_HEAD) ∧
    sampleKey ≠ [] ∧
    ∃ id out, decrypt sampleKey (hashOfPath ((47 : Byte) :: sampleToken)) = some id ∧
      requestHandler sampleEnv sampleCollab sampleKey HttpMethod.HTTP_GET
        ((47 : Byte) :: sampleToken) QHttpResponse.fresh = some out ∧
      observe QHttpResponse.fresh out = some (dispatchSpec sampleCollab (idUrlChecks sampleEnv id)) ∧
      (sampleEnv.isLocalFile id = true → sampleEnv.exists_ id = false →
        observe QHttpResponse.fresh out = some Outcome.notFound) :=
  ⟨Or.inl rfl, by decide,
    requestHandler_dispatch sampleEnv sampleCollab sampleKey ((47 : Byte) :: sampleToken)
      HttpMethod.HTTP_GET QHttpResponse.fresh (Or.inl rfl) (by decide)⟩

/-- C10: for a method that is neither GET nor HEAD, `requestHandler` makes no
call at all (no decode, no metadata, no handler) and leaves a fresh response
finished with status 405, `Allow: HEAD, GET`, `Content-Length: 0` and an
empty body. -/
theorem requestHandler_unsupported_method {M : Type} (env : UrlEnv) (cs : Collab M)
    (key path : QByteArray) (method : HttpMethod)
    (hget : method ≠ HttpMethod.HTTP_GET) (hhead : method ≠ HttpMethod.HTTP_HEAD) :
    requestHandler env cs key method path QHttpResponse.fresh =
      some ({ headers := [("Allow", "HEAD, GET"), ("Content-Length", "0")]
              status := some 405
              body := []
              finished := true }, []) := by
  simp [requestHandler, hget, hhead, sendEmptyResponse, QHttpResponse.setHeader,
    QHttpResponse.writeHead, QHttpResponse.end_, QHttpResponse.fresh]

theorem requestHandler_unsupported_method_witness :
    HttpMethod.HTTP_POST ≠ HttpMethod.HTTP_GET ∧ HttpMethod.HTTP_POST ≠ HttpMethod.HTTP_HEAD ∧
    requestHandler sampleEnv sampleCollab sampleKey HttpMethod.HTTP_POST
        ((47 : Byte) :: sampleToken) QHttpResponse.fresh =
      some ({ headers := [("Allow", "HEAD, GET"), ("Content-Length", "0")]
              status := some 405
              body := []
              finished := true }, []) :=
  ⟨by decide, by decide,
    requestHandler_unsupported_method sampleEnv sampleCollab sampleKey
      ((47 : Byte) :: sampleToken) HttpMethod.HTTP_POST (by decide) (by decide)⟩

/-! ## Validation in `idUrlFromUrl` -/

/-- C11, as stated, fails in its last part: the path `badPortPath` decodes to
a text that is no valid URL but carries the art cookie; `idUrlFromUrl` reports
`ok = false` and the empty URL and leaves `isArt` unwritten, it does not set
it to true. -/
theorem idUrlFromUrl_invalid_leaves_isArt :
    idUrlFromUrl badPortEnv sampleKey badPortPath =
      some { url := none, ok := some false, isFile := none, isArt := none } ∧
    decrypt sampleKey (hashOfPath badPortPath) = some badPortId ∧
    badPortEnv.queryItemValue badPortId = artCookie := by
  decide

/-- C11, amended: for a non-empty key `idUrlFromUrl` ends; it reports
`ok = true` exactly when the decoded text is a valid URL, its query carries
the cookie key with a non-empty value and, when it names a local file, that
path exists and is a regular file, and then it returns the `QUrl` built from
the decoded text; in every other case it reports `ok = false` and returns the empty URL. For a
valid URL whose query carries the cookie key `isArt` is true exactly when the
cookie value equals the art cookie; for an invalid URL `isArt` is not
written. -/
theorem idUrlFromUrl_valid_iff (env : UrlEnv) (key path : QByteArray) (hk : key ≠ []) :
    ∃ id r, decrypt key (hashOfPath path) = some id ∧ idUrlFromUrl env key path = some r ∧
      (r.ok = some true ↔
        (env.isValid id = true ∧ env.hasQueryItem id = true ∧ env.queryItemValue id ≠ [] ∧
          (env.isLocalFile id = true → env.exists_ id = true ∧ env.isFile id = true))) ∧
      (r.ok = some true →
        r.url = some (if env.isLocalFile id = true then env.qurlToString id else env.qurl id)) ∧
      (r.ok ≠ some true → r.ok = some false ∧ r.url = none) ∧
      (env.isValid id = true → env.hasQueryItem id = true →
        (r.isArt = some true ↔ env.queryItemValue id = artCookie)) ∧
      (env.isValid id = false → r.isArt = none) := by
  obtain ⟨K, _, _, hd⟩ := decrypt_some key (hashOfPath path) hk
  refine ⟨_, idUrlChecks env (xorWith (fromBase64 (hashOfPath path)) K), hd, ?_, ?_⟩
  · simp only [idUrlFromUrl, hd]
  · have hart : artCookie ≠ [] := by decide
    unfold idUrlChecks
    by_cases h1 : env.isValid (xorWith (fromBase64 (hashOfPath path)) K) = true
    · by_cases h2 : env.hasQueryItem (xorWith (fromBase64 (hashOfPath path)) K) = true
      · by_cases h3 : env.queryItemValue (xorWith (fromBase64 (hashOfPath path)) K) = []
        · simp [h1, h2, h3, hart.symm]
        · by_cases h4 : env.isLocalFile (xorWith (fromBase64 (hashOfPath path)) K) = true
          · by_cases h5 : env.exists_ (xorWith (fromBase64 (hashOfPath path)) K) = true
            · by_cases h6 : env.isFile (xorWith (fromBase64 (hashOfPath path)) K) = true
              · simp [h1, h2, h3, h4, h5, h6]
              · simp [h1, h2, h3, h4, h5, h6]
            · simp [h1, h2, h3, h4, h5]
          · simp [h1, h2, h3, h4]
      · simp [h1, h2]
    · simp [h1]

theorem idUrlFromUrl_valid_iff_witness :
    sampleKey ≠ [] ∧
    ∃ id r, decrypt sampleKey (hashOfPath ((47 : Byte) :: sampleToken)) = some id ∧
      idUrlFromUrl sampleEnv sampleKey ((47 : Byte) :: sampleToken) = some r ∧
      (r.ok = some true ↔
        (sampleEnv.isValid id = true ∧ sampleEnv.hasQueryItem id = true ∧
          sampleEnv.queryItemValue id ≠ [] ∧
          (sampleEnv.isLocalFile id = true →
            sampleEnv.exists_ id = true ∧ sampleEnv.isFile id = true))) ∧
      (r.ok = some true →
        r.url = some (if sampleEnv.isLocalFile id = true then sampleEnv.qurlToString id
          else sampleEnv.qurl id)) ∧
      (r.ok ≠ some true → r.ok = some false ∧ r.url = none) ∧
      (sampleEnv.isValid id = true → sampleEnv.hasQueryItem id = true →
        (r.isArt = some true ↔ sampleEnv.queryItemValue id = artCookie)) ∧
      (sampleEnv.isValid id = false → r.isArt = none) :=
  ⟨by decide,
    idUrlFromUrl_valid_iff sampleEnv sampleKey ((47 : Byte) :: sampleToken) (by decide)⟩

/-! ## DLNA content features -/

/-- C15: `dlnaContentFeaturesHeader` is the list of tokens profile (only when
`dlnaOrgPnFlags` is not empty), op-flags, ci-flags and, when `flags` is set,
capability flags (the file mask if `seek`, the streaming mask otherwise),
joined with `;` and with no leading `;`. -/
theorem dlnaContentFeaturesHeader_eq_join (fl : DlnaOrgFlags) (mime : QString)
    (seek flags : Bool) :
    dlnaContentFeaturesHeader fl mime seek flags =
      List.intercalate [';'] (dlnaTokens fl mime seek flags) ∧
    (dlnaOrgPnFlags mime = [] →
      ∃ rest, dlnaContentFeaturesHeader fl mime seek flags =
        (if seek then "DLNA.ORG_OP=01".toList else "DLNA.ORG_OP=00".toList) ++ rest) := by
  constructor
  · unfold dlnaContentFeaturesHeader dlnaTokens
    by_cases hpn : dlnaOrgPnFlags mime = []
    · cases seek <;> cases flags <;>
        simp [hpn, List.intercalate, dlnaOrgOpFlagsSeekBytes, dlnaOrgOpFlagsNoSeek, dlnaOrgCiFlags]
    · cases seek <;> cases flags <;>
        simp [hpn, List.intercalate, dlnaOrgOpFlagsSeekBytes, dlnaOrgOpFlagsNoSeek,
          dlnaOrgCiFlags, List.isEmpty_iff]
  · intro hpn
    unfold dlnaContentFeaturesHeader
    cases seek <;> cases flags <;>
      simp [hpn, dlnaOrgOpFlagsSeekBytes, dlnaOrgOpFlagsNoSeek]

theorem getElem?_of_infix {α : Type} (P S : List α) (h : P <:+: S) :
    ∃ i, ∀ j, j < P.length → S[i + j]? = P[j]? := by
  obtain ⟨s, t, hst⟩ := h
  refine ⟨s.length, ?_⟩
  intro j hj
  rw [← hst, List.append_assoc, List.getElem?_append_right (by omega)]
  have : s.length + j - s.length = j := by omega
  rw [this, List.getElem?_append_left hj]

theorem not_infix_append {α : Type} (P A H : List α) (p0 : α) (hP : P[0]? = some p0)
    (hH : p0 ∉ H)
    (hA : ∀ i, i < A.length → ∃ j, j < P.length ∧ i + j < A.length ∧ A[i + j]? ≠ P[j]?) :
    ¬ (P <:+: A ++ H) := by
  intro h
  obtain ⟨i, hi⟩ := getElem?_of_infix P (A ++ H) h
  have hP0 : 0 < P.length := by
    cases P with
    | nil => simp at hP
    | cons _ _ => simp
  by_cases hlt : i < A.length
  · obtain ⟨j, hj, hij, hne⟩ := hA i hlt
    have := hi j hj
    rw [List.getElem?_append_left hij] at this
    exact hne this
  · have := hi 0 hP0
    rw [Nat.add_zero, List.getElem?_append_right (by omega), hP] at this
    exact hH (List.getElem?_mem this)

theorem hexDigit_ne_D : ∀ x : Fin 16, hexDigit x.val ≠ 'D' := by decide

theorem not_mem_hexFixed (k n : Nat) : 'D' ∉ hexFixed k n := by
  induction k with
  | zero => simp [hexFixed]
  | succ k ih =>
    simp only [hexFixed, List.mem_cons, not_or]
    exact ⟨(hexDigit_ne_D ⟨n / 16 ^ k % 16, Nat.mod_lt _ (by norm_num)⟩).symm, ih⟩

theorem containsCI_trans (s p q : QString) (hpq : (p.map Char.toLower) <:+: (q.map Char.toLower))
    (h : containsCI s p = false) : containsCI s q = false := by
  unfold containsCI at h ⊢
  simp only [decide_eq_false_iff_not] at h ⊢
  exact fun hq => h (hpq.trans hq)

theorem dlnaOrgPnFlags_mp3 (mime : QString)
    (hmp3 : containsCI mime "audio/mpeg".toList = true)
    (havi : containsCI mime "video/x-msvideo".toList = false)
    (haac : containsCI mime "audio/aac".toList = false) :
    dlnaOrgPnFlags mime = "DLNA.ORG_PN=MP3".toList := by
  have haacp : containsCI mime "audio/aacp".toList = false :=
    containsCI_trans mime "audio/aac".toList "audio/aacp".toList (by decide) haac
  unfold dlnaOrgPnFlags
  rw [havi, haac, haacp, hmp3]
  rfl

/-- C16, as stated, fails: the mime string `audio/aac audio/mpeg` contains
`audio/mpeg`, but the table is searched in order and `audio/aac` comes first,
so the header carries `DLNA.ORG_PN=AAC` and not `DLNA.ORG_PN=MP3`. -/
theorem dlnaContentFeaturesHeader_first_match_wins :
    containsCI "audio/aac audio/mpeg".toList "audio/mpeg".toList = true ∧
    dlnaContentFeaturesHeader sampleDlnaOrgFlags "audio/aac audio/mpeg".toList true false =
      "DLNA.ORG_PN=AAC;DLNA.ORG_OP=01;DLNA.ORG_CI=0".toList ∧
    ¬ ("DLNA.ORG_PN=MP3".toList <:+:
      dlnaContentFeaturesHeader sampleDlnaOrgFlags "audio/aac audio/mpeg".toList true false) := by
  decide

/-- C16, amended: for every mime string that contains `audio/mpeg` and
contains neither `video/x-msvideo` nor `audio/aac` (all in any letter case)
and for both values of the verbosity flag, the header with `seek = true`
contains `DLNA.ORG_PN=MP3` and `DLNA.ORG_OP=01`, and the header with
`seek = false` contains `DLNA.ORG_PN=MP3` and `DLNA.ORG_OP=00` and does not
contain `DLNA.ORG_OP=01`. -/
theorem dlnaContentFeaturesHeader_mp3 (fl : DlnaOrgFlags) (mime : QString) (flags : Bool)
    (hmp3 : containsCI mime "audio/mpeg".toList = true)
    (havi : containsCI mime "video/x-msvideo".toList = false)
    (haac : containsCI mime "audio/aac".toList = false) :
    "DLNA.ORG_PN=MP3".toList <:+: dlnaContentFeaturesHeader fl mime true flags ∧
    "DLNA.ORG_OP=01".toList <:+: dlnaContentFeaturesHeader fl mime true flags ∧
    "DLNA.ORG_PN=MP3".toList <:+: dlnaContentFeaturesHeader fl mime false flags ∧
    "DLNA.ORG_OP=00".toList <:+: dlnaContentFeaturesHeader fl mime false flags ∧
    ¬ ("DLNA.ORG_OP=01".toList <:+: dlnaContentFeaturesHeader fl mime false flags) := by
  have hpn := dlnaOrgPnFlags_mp3 mime hmp3 havi haac
  have hne : ("DLNA.ORG_PN=MP3".toList).isEmpty = false := by decide
  cases flags
  · have h1 : dlnaContentFeaturesHeader fl mime true false =
        "DLNA.ORG_PN=MP3;DLNA.ORG_OP=01;DLNA.ORG_CI=0".toList := by
      simp only [dlnaContentFeaturesHeader, hpn, hne, Bool.false_eq_true, if_false, if_true]
      rfl
    have h0 : dlnaContentFeaturesHeader fl mime false false =
        "DLNA.ORG_PN=MP3;DLNA.ORG_OP=00;DLNA.ORG_CI=0".toList := by
      simp only [dlnaContentFeaturesHeader, hpn, hne, Bool.false_eq_true, if_false, if_true]
      rfl
    rw [h1, h0]
    decide
  · have h1 : dlnaContentFeaturesHeader fl mime true true =
        "DLNA.ORG_PN=MP3;DLNA.ORG_OP=01;DLNA.ORG_CI=0;DLNA.ORG_FLAGS=".toList ++
          (hexFixed 8 (fl.forFile % 2 ^ 32) ++ hexFixed 24 0) := by
      simp only [dlnaContentFeaturesHeader, hpn, hne, dlnaOrgFlagsForFile, Bool.false_eq_true,
        if_false, if_true]
      simp [dlnaOrgOpFlagsSeekBytes, dlnaOrgCiFlags]
    have h0 : dlnaContentFeaturesHeader fl mime false true =
        "DLNA.ORG_PN=MP3;DLNA.ORG_OP=00;DLNA.ORG_CI=0;DLNA.ORG_FLAGS=".toList ++
          (hexFixed 8 (fl.forStreaming % 2 ^ 32) ++ hexFixed 24 0) := by
      simp only [dlnaContentFeaturesHeader, hpn, hne, dlnaOrgFlagsForStreaming,
        Bool.false_eq_true, if_false, if_true]
      simp [dlnaOrgOpFlagsNoSeek, dlnaOrgCiFlags]
    rw [h1, h0]
    refine ⟨?_, ?_, ?_, ?_, ?_⟩
    · have h : "DLNA.ORG_PN=MP3".toList <:+:
          "DLNA.ORG_PN=MP3;DLNA.ORG_OP=01;DLNA.ORG_CI=0;DLNA.ORG_FLAGS=".toList := by decide
      exact h.trans (List.prefix_append _ _).isInfix
    · have h : "DLNA.ORG_OP=01".toList <:+:
          "DLNA.ORG_PN=MP3;DLNA.ORG_OP=01;DLNA.ORG_CI=0;DLNA.ORG_FLAGS=".toList := by decide
      exact h.trans (List.prefix_append _ _).isInfix
    · have h : "DLNA.ORG_PN=MP3".toList <:+:
          "DLNA.ORG_PN=MP3;DLNA.ORG_OP=00;DLNA.ORG_CI=0;DLNA.ORG_FLAGS=".toList := by decide
      exact h.trans (List.prefix_append _ _).isInfix
    · have h : "DLNA.ORG_OP=00".toList <:+:
          "DLNA.ORG_PN=MP3;DLNA.ORG_OP=00;DLNA.ORG_CI=0;DLNA.ORG_FLAGS=".toList := by decide
      exact h.trans (List.prefix_append _ _).isInfix
    · apply not_infix_append _ _ _ 'D' (by decide)
      · simp only [List.mem_append, not_or]
        exact ⟨not_mem_hexFixed _ _, not_mem_hexFixed _ _⟩
      · decide

theorem dlnaContentFeaturesHeader_mp3_witness :
    containsCI "Audio/MPEG".toList "audio/mpeg".toList = true ∧
    containsCI "Audio/MPEG".toList "video/x-msvideo".toList = false ∧
    containsCI "Audio/MPEG".toList "audio/aac".toList = false ∧
    "DLNA.ORG_PN=MP3".toList <:+:
      dlnaContentFeaturesHeader sampleDlnaOrgFlags "Audio/MPEG".toList true true ∧
    "DLNA.ORG_OP=01".toList <:+:
      dlnaContentFeaturesHeader sampleDlnaOrgFlags "Audio/MPEG".toList true true ∧
    "DLNA.ORG_PN=MP3".toList <:+:
      dlnaContentFeaturesHeader sampleDlnaOrgFlags "Audio/MPEG".toList false true ∧
    "DLNA.ORG_OP=00".toList <:+:
      dlnaContentFeaturesHeader sampleDlnaOrgFlags "Audio/MPEG".toList false true ∧
    ¬ ("DLNA.ORG_OP=01".toList <:+:
      dlnaContentFeaturesHeader sampleDlnaOrgFlags "Audio/MPEG".toList false true) :=
  ⟨by decide, by decide, by decide,
    dlnaContentFeaturesHeader_mp3 sampleDlnaOrgFlags "Audio/MPEG".toList true
      (by decide) (by decide) (by decide)⟩

/-! ## Playlist parsers -/


theorem PlsMap.mem_update (f : PlaylistItemMeta → PlaylistItemMeta) (n : Int) (m : PlsMap)
    (e : Int × PlaylistItemMeta) (he : e ∈ PlsMap.update f n m) : e.1 = n ∨ e ∈ m := by
  induction m with
  | nil =>
    simp only [PlsMap.update, List.mem_singleton] at he
    exact Or.inl (by rw [he])
  | cons kv rest ih =>
    obtain ⟨k, v⟩ := kv
    simp only [PlsMap.update] at he
    split at he
    · simp only [List.mem_cons] at he
      rcases he with h | h | h
      · exact Or.inl (by rw [h])
      · exact Or.inr (by rw [h]; exact List.mem_cons_self _ _)
      · exact Or.inr (List.mem_cons_of_mem _ h)
    · split at he
      · rename_i hnk
        simp only [List.mem_cons] at he
        rcases he with h | h
        · exact Or.inl (by rw [h]; exact hnk.symm)
        · exact Or.inr (List.mem_cons_of_mem _ h)
      · simp only [List.mem_cons] at he
        rcases he with h | h
        · exact Or.inr (by rw [h]; exact List.mem_cons_self _ _)
        · rcases ih h with h1 | h1
          · exact Or.inl h1
          · exact Or.inr (List.mem_cons_of_mem _ h1)

theorem PlsMap.sorted_update (f : PlaylistItemMeta → PlaylistItemMeta) (n : Int) (m : PlsMap)
    (hm : m.Sorted) : (PlsMap.update f n m).Sorted := by
  induction m with
  | nil => simp [PlsMap.update, PlsMap.Sorted]
  | cons kv rest ih =>
    obtain ⟨k, v⟩ := kv
    have hrest : PlsMap.Sorted rest := (List.pairwise_cons.mp hm).2
    have hk : ∀ e ∈ rest, k < e.1 := (List.pairwise_cons.mp hm).1
    simp only [PlsMap.update]
    split
    · rename_i hlt
      refine List.pairwise_cons.mpr ⟨?_, hm⟩
      intro e he
      rcases List.mem_cons.mp he with h | h
      · rw [h]; exact hlt
      · exact lt_trans hlt (hk e h)
    · split
      · exact List.pairwise_cons.mpr ⟨hk, hrest⟩
      · rename_i h1 h2
        refine List.pairwise_cons.mpr ⟨?_, ih hrest⟩
        intro e he
        rcases PlsMap.mem_update f n rest e he with h | h
        · rw [h]; omega
        · exact hk e h

theorem PlsMap.lookup_eq_none_of_lt (m : PlsMap) (n : Int) (h : ∀ e ∈ m, n < e.1) :
    m.lookup n = none := by
  induction m with
  | nil => rfl
  | cons kv rest ih =>
    have h1 : ¬ (kv.1 = n) := by
      have := h kv (List.mem_cons_self _ _); omega
    have := ih (fun e he => h e (List.mem_cons_of_mem _ he))
    simp only [PlsMap.lookup, List.find?_cons, h1, decide_False] at this ⊢
    exact this

theorem PlsMap.lookup_update_same (f : PlaylistItemMeta → PlaylistItemMeta) (n : Int)
    (m : PlsMap) (hm : m.Sorted) :
    (PlsMap.update f n m).lookup n = some (f ((m.lookup n).getD PlaylistItemMeta.empty)) := by
  induction m with
  | nil => simp [PlsMap.update, PlsMap.lookup]
  | cons kv rest ih =>
    obtain ⟨k, v⟩ := kv
    have hrest : PlsMap.Sorted rest := (List.pairwise_cons.mp hm).2
    have hk : ∀ e ∈ rest, k < e.1 := (List.pairwise_cons.mp hm).1
    simp only [PlsMap.update]
    split
    · rename_i hlt
      have hnone : PlsMap.lookup ((k, v) :: rest) n = none := by
        apply PlsMap.lookup_eq_none_of_lt
        intro e he
        rcases List.mem_cons.mp he with h | h
        · rw [h]; exact hlt
        · exact lt_trans hlt (hk e h)
      rw [hnone]
      simp [PlsMap.lookup]
    · split
      · rename_i hnk
        simp [PlsMap.lookup, hnk]
      · rename_i h1 h2
        have hne : ¬ (k = n) := fun h => h2 h.symm
        have := ih hrest
        simp only [PlsMap.lookup, List.find?_cons, hne, decide_False] at this ⊢
        exact this

theorem PlsMap.lookup_update_other (f : PlaylistItemMeta → PlaylistItemMeta) (n k : Int)
    (m : PlsMap) (hkn : k ≠ n) : (PlsMap.update f n m).lookup k = m.lookup k := by
  induction m with
  | nil =>
    have : ¬ (n = k) := fun h => hkn h.symm
    simp [PlsMap.update, PlsMap.lookup, this]
  | cons kv rest ih =>
    obtain ⟨k1, v⟩ := kv
    have hnk : ¬ (n = k) := fun h => hkn h.symm
    simp only [PlsMap.update]
    split
    · simp [PlsMap.lookup, List.find?_cons, hnk]
    · split
      · rename_i h1 h2
        have : ¬ (k1 = k) := by rw [← h2]; exact hnk
        simp [PlsMap.lookup, List.find?_cons, this]
      · by_cases hk1 : k1 = k
        · simp [PlsMap.lookup, List.find?_cons, hk1]
        · simp only [PlsMap.lookup, List.find?_cons, hk1, decide_False] at ih ⊢
          exact ih

theorem PlsMap.contains_iff (m : PlsMap) (n : Int) :
    m.contains n = true ↔ (m.lookup n).isSome = true := by
  induction m with
  | nil => simp [PlsMap.contains, PlsMap.lookup]
  | cons kv rest ih =>
    by_cases h : kv.1 = n
    · simp [PlsMap.contains, PlsMap.lookup, List.find?_cons, h]
    · simp only [PlsMap.contains, PlsMap.lookup, List.any_cons, List.find?_cons, h, decide_False,
        Bool.false_or] at ih ⊢
      exact ih

theorem lastFor_append_singleton {α : Type} (n : Int) (xs : List (Int × α)) (x : Int × α) :
    lastFor n (xs ++ [x]) = if x.1 = n then some x.2 else lastFor n xs := by
  simp [lastFor, List.foldl_append]

theorem plsFiles_append_singleton (u : QString → QString) (pre : List (QString × QString))
    (c : QString × QString) :
    plsFiles u (pre ++ [c]) = plsFiles u pre ++
      (match toIntOk c.1 with
       | some n => if u c.2 = [] then [] else [(n, u c.2)]
       | none => []) := by
  simp only [plsFiles, List.filterMap_append, List.filterMap_cons, List.filterMap_nil]
  cases toIntOk c.1 with
  | none => rfl
  | some n => by_cases h : u c.2 = [] <;> simp [h]

theorem plsFile_fold (u : QString → QString) (caps : List (QString × QString)) :
    ∀ (pre : List (QString × QString)) (m : PlsMap), m.Sorted →
      (∀ n, m.lookup n = (lastFor n (plsFiles u pre)).map
        (fun url => { url := url, title := [], length := 0 })) →
      (caps.foldl (plsFileStep u) m).Sorted ∧
      ∀ n, (caps.foldl (plsFileStep u) m).lookup n =
        (lastFor n (plsFiles u (pre ++ caps))).map
          (fun url => { url := url, title := [], length := 0 }) := by
  induction caps with
  | nil => intro pre m hs hl; simpa using ⟨hs, hl⟩
  | cons c cs ih =>
    intro pre m hs hl
    have hpre : pre ++ c :: cs = (pre ++ [c]) ++ cs := by simp
    rw [List.foldl_cons, hpre]
    apply ih (pre ++ [c])
    · unfold plsFileStep
      cases toIntOk c.1 with
      | none => exact hs
      | some n0 =>
        simp only
        split
        · exact PlsMap.sorted_update _ _ _ hs
        · exact hs
    · intro n
      rw [plsFiles_append_singleton]
      unfold plsFileStep
      cases hc : toIntOk c.1 with
      | none => simpa using hl n
      | some n0 =>
        simp only
        by_cases hu : u c.2 = []
        · simp only [hu, List.isEmpty_nil, Bool.not_true, Bool.false_eq_true, if_false, if_true,
            List.append_nil]
          exact hl n
        · have hne : (!(u c.2).isEmpty) = true := by
            simp [List.isEmpty_iff, hu]
          simp only [hne, if_true, hu, if_false, lastFor_append_singleton]
          by_cases hn : n0 = n
          · subst hn
            rw [PlsMap.lookup_update_same _ _ _ hs, hl n0]
            simp only [if_true, Option.map_some']
            cases lastFor n0 (plsFiles u pre) <;> rfl
          · rw [PlsMap.lookup_update_other _ _ _ _ (fun h => hn h.symm), hl n]
            simp [hn]

theorem plsTitles_append_singleton (pre : List (QString × QString)) (c : QString × QString) :
    plsTitles (pre ++ [c]) = plsTitles pre ++
      (match toIntOk c.1 with
       | some n => [(n, c.2)]
       | none => []) := by
  simp only [plsTitles, List.filterMap_append, List.filterMap_cons, List.filterMap_nil]
  cases toIntOk c.1 <;> rfl

theorem plsTitle_fold (m0 : PlsMap) (caps : List (QString × QString)) :
    ∀ (pre : List (QString × QString)) (m : PlsMap), m.Sorted →
      (∀ n, m.lookup n = (m0.lookup n).map
        (fun e => { e with title := (lastFor n (plsTitles pre)).getD e.title })) →
      (caps.foldl plsTitleStep m).Sorted ∧
      ∀ n, (caps.foldl plsTitleStep m).lookup n = (m0.lookup n).map
        (fun e => { e with title := (lastFor n (plsTitles (pre ++ caps))).getD e.title }) := by
  induction caps with
  | nil => intro pre m hs hl; simpa using ⟨hs, hl⟩
  | cons c cs ih =>
    intro pre m hs hl
    have hpre : pre ++ c :: cs = (pre ++ [c]) ++ cs := by simp
    rw [List.foldl_cons, hpre]
    apply ih (pre ++ [c])
    · unfold plsTitleStep
      cases toIntOk c.1 with
      | none => exact hs
      | some n0 =>
        simp only
        split
        · exact PlsMap.sorted_update _ _ _ hs
        · exact hs
    · intro n
      rw [plsTitles_append_singleton]
      unfold plsTitleStep
      cases hc : toIntOk c.1 with
      | none => simpa using hl n
      | some n0 =>
        simp only [lastFor_append_singleton]
        by_cases hn : n0 = n
        · subst hn
          by_cases hcon : m.contains n0 = true
          · have hsome := (PlsMap.contains_iff m n0).mp hcon
            rw [hl n0] at hsome
            cases h0 : m0.lookup n0 with
            | none => rw [h0] at hsome; simp at hsome
            | some e =>
              simp only [hcon, if_true]
              rw [PlsMap.lookup_update_same _ _ _ hs, hl n0, h0]
              simp
          · simp only [hcon, Bool.false_eq_true, if_false]
            have hnone : m.lookup n0 = none := by
              cases h : m.lookup n0 with
              | none => rfl
              | some e =>
                exact absurd ((PlsMap.contains_iff m n0).mpr (by rw [h]; rfl)) hcon
            rw [hnone]
            rw [hl n0] at hnone
            cases h0 : m0.lookup n0 with
            | none => rfl
            | some e => rw [h0] at hnone; simp at hnone
        · have hstep : PlsMap.lookup
              (if m.contains n0 = true then
                PlsMap.update (fun item => { item with title := c.2 }) n0 m else m) n =
              m.lookup n := by
            split
            · exact PlsMap.lookup_update_other _ _ _ _ (fun h => hn h.symm)
            · rfl
          rw [hstep, hl n]
          simp [hn]

theorem plsLengths_append_singleton (pre : List (QString × QString)) (c : QString × QString) :
    plsLengths (pre ++ [c]) = plsLengths pre ++
      (match toIntOk c.1, toIntOk c.2 with
       | some n, some v => [(n, if v < 0 then 0 else v)]
       | _, _ => []) := by
  simp only [plsLengths, List.filterMap_append, List.filterMap_cons, List.filterMap_nil]
  cases toIntOk c.1 <;> cases toIntOk c.2 <;> rfl

theorem plsLength_fold (m0 : PlsMap) (caps : List (QString × QString)) :
    ∀ (pre : List (QString × QString)) (m : PlsMap), m.Sorted →
      (∀ n, m.lookup n = (m0.lookup n).map
        (fun e => { e with length := (lastFor n (plsLengths pre)).getD e.length })) →
      (caps.foldl plsLengthStep m).Sorted ∧
      ∀ n, (caps.foldl plsLengthStep m).lookup n = (m0.lookup n).map
        (fun e => { e with length := (lastFor n (plsLengths (pre ++ caps))).getD e.length }) := by
  induction caps with
  | nil => intro pre m hs hl; simpa using ⟨hs, hl⟩
  | cons c cs ih =>
    intro pre m hs hl
    have hpre : pre ++ c :: cs = (pre ++ [c]) ++ cs := by simp
    rw [List.foldl_cons, hpre]
    apply ih (pre ++ [c])
    · unfold plsLengthStep
      cases toIntOk c.1 with
      | none => exact hs
      | some n0 =>
        simp only
        split
        · cases toIntOk c.2 with
          | none => exact hs
          | some v => exact PlsMap.sorted_update _ _ _ hs
        · exact hs
    · intro n
      rw [plsLengths_append_singleton]
      unfold plsLengthStep
      cases hc : toIntOk c.1 with
      | none => simpa using hl n
      | some n0 =>
        cases hv : toIntOk c.2 with
        | none =>
          simp only [List.append_nil]
          split <;> exact hl n
        | some v =>
          simp only [lastFor_append_singleton]
          by_cases hn : n0 = n
          · subst hn
            by_cases hcon : m.contains n0 = true
            · have hsome := (PlsMap.contains_iff m n0).mp hcon
              rw [hl n0] at hsome
              cases h0 : m0.lookup n0 with
              | none => rw [h0] at hsome; simp at hsome
              | some e =>
                simp only [hcon, if_true]
                rw [PlsMap.lookup_update_same _ _ _ hs, hl n0, h0]
                simp
            · simp only [hcon, Bool.false_eq_true, if_false]
              have hnone : m.lookup n0 = none := by
                cases h : m.lookup n0 with
                | none => rfl
                | some e =>
                  exact absurd ((PlsMap.contains_iff m n0).mpr (by rw [h]; rfl)) hcon
              rw [hnone]
              rw [hl n0] at hnone
              cases h0 : m0.lookup n0 with
              | none => rfl
              | some e => rw [h0] at hnone; simp at hnone
          · have hstep : PlsMap.lookup
                (if m.contains n0 = true then
                  PlsMap.update
                    (fun item => { item with length := if v < 0 then 0 else v }) n0 m
                 else m) n = m.lookup n := by
              split
              · exact PlsMap.lookup_update_other _ _ _ _ (fun h => hn h.symm)
              · rfl
            rw [hstep, hl n]
            simp [hn]

theorem parsePlsMap_spec (u : QString → QString) (data : QString) :
    (parsePlsMap u data).Sorted ∧
    ∀ n, (parsePlsMap u data).lookup n =
      plsEntry (plsFiles u (plsScan "File".toList data 0))
        (plsTitles (plsScan "Title".toList data 0))
        (plsLengths (plsScan "Length".toList data 0)) n := by
  have hF := plsFile_fold u (plsScan "File".toList data 0) [] []
    List.Pairwise.nil (fun n => rfl)
  rw [List.nil_append] at hF
  obtain ⟨hFs, hFl⟩ := hF
  have hT := plsTitle_fold ((plsScan "File".toList data 0).foldl (plsFileStep u) [])
    (plsScan "Title".toList data 0) [] _ hFs
    (fun n => by cases PlsMap.lookup _ n <;> rfl)
  rw [List.nil_append] at hT
  obtain ⟨hTs, hTl⟩ := hT
  have hL := plsLength_fold
    ((plsScan "Title".toList data 0).foldl plsTitleStep
      ((plsScan "File".toList data 0).foldl (plsFileStep u) []))
    (plsScan "Length".toList data 0) [] _ hTs
    (fun n => by cases PlsMap.lookup _ n <;> rfl)
  rw [List.nil_append] at hL
  obtain ⟨hLs, hLl⟩ := hL
  unfold parsePlsMap
  simp only
  split
  · refine ⟨hLs, ?_⟩
    intro n
    rw [hLl n, hTl n, hFl n]
    unfold plsEntry
    cases lastFor n (plsFiles u (plsScan "File".toList data 0)) <;> rfl
  · refine ⟨hFs, ?_⟩
    intro n
    rename_i hempty
    have hnil : (plsScan "File".toList data 0).foldl (plsFileStep u) [] = [] := by
      simpa [List.isEmpty_iff] using hempty
    have h := hFl n
    rw [hnil] at h ⊢
    unfold plsEntry
    cases hl : lastFor n (plsFiles u (plsScan "File".toList data 0)) with
    | none => rfl
    | some url => rw [hl] at h; simp [PlsMap.lookup] at h

theorem splitLF_ne_nil (t : QString) : splitLF t ≠ [] := by
  cases t with
  | nil => simp [splitLF]
  | cons c r =>
    unfold splitLF
    split
    · simp
    · split <;> simp

theorem splitLF_cons_of_ne (c : Char) (r : QString) (hc : c ≠ '\n') :
    splitLF (c :: r) = (c :: (splitLF r).headD []) :: (splitLF r).tail := by
  have hne := splitLF_ne_nil r
  rw [splitLF, if_neg hc]
  revert hne
  generalize splitLF r = x
  intro hne
  cases x with
  | nil => exact absurd rfl hne
  | cons l ls => rfl

theorem splitLF_head (t : QString) :
    (splitLF t).headD [] = t.takeWhile (fun c => c ≠ '\n') := by
  induction t with
  | nil => rfl
  | cons c r ih =>
    by_cases hc : c = '\n'
    · subst hc
      simp [splitLF]
    · rw [splitLF_cons_of_ne c r hc]
      simp only [List.headD_cons, ih]
      simp [List.takeWhile_cons, hc]

theorem stripKeyword_line (kw : QString) (hkw : ∀ k ∈ kw, k.toLower ≠ '\n') :
    ∀ (line rest : QString), (∀ c ∈ line, c ≠ '\n') → (rest = [] ∨ ∃ x, rest = '\n' :: x) →
      stripKeyword kw (line ++ rest) = (stripKeyword kw line).map (fun r => r ++ rest) := by
  induction kw with
  | nil => intro line rest _ _; simp [stripKeyword]
  | cons k ks ih =>
    intro line rest hline hrest
    have hk : k.toLower ≠ '\n' := hkw k (List.mem_cons_self _ _)
    cases line with
    | nil =>
      rcases hrest with h | ⟨x, h⟩
      · subst h; simp [stripKeyword]
      · subst h
        have h1 : ('\n' : Char).toLower = '\n' := by decide
        simp [stripKeyword, h1, hk]
    | cons c line1 =>
      simp only [List.cons_append, stripKeyword]
      split
      · exact ih (fun k hk1 => hkw k (List.mem_cons_of_mem _ hk1)) line1 rest
          (fun c hc => hline c (List.mem_cons_of_mem _ hc)) hrest
      · rfl

theorem stripKeyword_length (kw : QString) :
    ∀ (line r : QString), stripKeyword kw line = some r → line.length = kw.length + r.length := by
  induction kw with
  | nil => intro line r h; simp [stripKeyword] at h; subst h; simp
  | cons k ks ih =>
    intro line r h
    cases line with
    | nil => simp [stripKeyword] at h
    | cons c line1 =>
      simp only [stripKeyword] at h
      split at h
      · have := ih line1 r h
        simp only [List.length_cons]; omega
      · simp at h

theorem stripKeyword_mem (kw : QString) :
    ∀ (line r : QString), stripKeyword kw line = some r → ∀ c ∈ r, c ∈ line := by
  induction kw with
  | nil => intro line r h; simp [stripKeyword] at h; subst h; exact fun c hc => hc
  | cons k ks ih =>
    intro line r h
    cases line with
    | nil => simp [stripKeyword] at h
    | cons c line1 =>
      simp only [stripKeyword] at h
      split at h
      · exact fun x hx => List.mem_cons_of_mem _ (ih line1 r h x hx)
      · simp at h

theorem plsIndex_length (r1 c1 r2 : QString) (h : plsIndex r1 = some (c1, r2)) :
    r1.length = c1.length + 1 + r2.length := by
  match r1, h with
  | [], h => simp [plsIndex] at h
  | [_], h => simp [plsIndex] at h
  | [d1, d2], h =>
    simp only [plsIndex] at h
    split at h
    · simp only [Option.some.injEq, Prod.mk.injEq] at h
      obtain ⟨h1, h2⟩ := h
      subst h1 h2
      rfl
    · simp at h
  | d1 :: d2 :: c3 :: r, h =>
    simp only [plsIndex] at h
    split at h
    · simp only [Option.some.injEq, Prod.mk.injEq] at h
      obtain ⟨h1, h2⟩ := h
      subst h1 h2
      simp only [List.length_cons, List.length_nil]; omega
    · split at h
      · simp only [Option.some.injEq, Prod.mk.injEq] at h
        obtain ⟨h1, h2⟩ := h
        subst h1 h2
        simp only [List.length_cons, List.length_nil]; omega
      · simp at h

theorem plsIndex_mem (r1 c1 r2 : QString) (h : plsIndex r1 = some (c1, r2)) :
    ∀ c ∈ r2, c ∈ r1 := by
  match r1, h with
  | [], h => simp [plsIndex] at h
  | [_], h => simp [plsIndex] at h
  | [d1, d2], h =>
    simp only [plsIndex] at h
    split at h
    · simp only [Option.some.injEq, Prod.mk.injEq] at h
      obtain ⟨h1, h2⟩ := h
      subst h1 h2
      simp
    · simp at h
  | d1 :: d2 :: c3 :: r, h =>
    simp only [plsIndex] at h
    split at h
    · simp only [Option.some.injEq, Prod.mk.injEq] at h
      obtain ⟨h1, h2⟩ := h
      subst h1 h2
      intro c hc
      simp [hc]
    · split at h
      · simp only [Option.some.injEq, Prod.mk.injEq] at h
        obtain ⟨h1, h2⟩ := h
        subst h1 h2
        intro c hc
        exact List.mem_cons_of_mem _ (List.mem_cons_of_mem _ hc)
      · simp at h

theorem plsIndex_line (l rest : QString) (hl : ∀ c ∈ l, c ≠ '\n')
    (hrest : rest = [] ∨ ∃ x, rest = '\n' :: x) :
    plsIndex (l ++ rest) = (plsIndex l).map (fun p => (p.1, p.2 ++ rest)) := by
  have hd : isDigit '\n' = false := by decide
  have he : ¬ (('\n' : Char) = '=') := by decide
  match l, hl with
  | [], _ =>
    rcases hrest with h | ⟨x, h⟩
    · subst h; rfl
    · subst h
      match x with
      | [] => simp [plsIndex]
      | [_] => simp [plsIndex, hd]
      | _ :: _ :: _ => simp [plsIndex, hd]
  | [a], hl =>
    rcases hrest with h | ⟨x, h⟩
    · subst h; simp [plsIndex]
    · subst h
      match x with
      | [] => simp [plsIndex, he]
      | _ :: _ => simp [plsIndex, hd, he]
  | [a, b], hl =>
    rcases hrest with h | ⟨x, h⟩
    · subst h; simp
    · subst h
      simp [plsIndex, he]
  | a :: b :: c :: l1, hl =>
    simp only [List.cons_append, plsIndex]
    split
    · simp
    · split <;> simp

theorem takeWhile_dropWhile_line (r : QString) :
    (∀ c ∈ r.takeWhile (fun c => c ≠ '\n'), c ≠ '\n') ∧
    (r.dropWhile (fun c => c ≠ '\n') = [] ∨
      ∃ x, r.dropWhile (fun c => c ≠ '\n') = '\n' :: x) := by
  constructor
  · intro c hc
    have := List.mem_takeWhile_imp hc
    simpa using this
  · induction r with
    | nil => left; rfl
    | cons a r ih =>
      by_cases ha : a = '\n'
      · right; subst ha; exact ⟨r, by simp [List.dropWhile_cons]⟩
      · simp only [List.dropWhile_cons, ne_eq, ha, not_false_eq_true, decide_True, if_true]
        exact ih

theorem plsMatchHere_line (kw : QString) (hkw : ∀ k ∈ kw, k.toLower ≠ '\n') (r : QString) :
    plsMatchHere kw ('\n' :: r) =
      (plsLine kw (r.takeWhile (fun c => c ≠ '\n'))).map
        (fun p => (p.1, p.2, 1 + (r.takeWhile (fun c => c ≠ '\n')).length)) := by
  obtain ⟨hline, hrest⟩ := takeWhile_dropWhile_line r
  have hr : r = r.takeWhile (fun c => c ≠ '\n') ++ r.dropWhile (fun c => c ≠ '\n') :=
    (List.takeWhile_append_dropWhile _ r).symm
  generalize r.takeWhile (fun c => c ≠ '\n') = line at hline hr
  generalize r.dropWhile (fun c => c ≠ '\n') = rest at hrest hr
  subst hr
  simp only [plsMatchHere, plsLine]
  rw [stripKeyword_line kw hkw line rest hline hrest]
  cases hs : stripKeyword kw line with
  | none => rfl
  | some r1 =>
    simp only [Option.map_some']
    have hr1 : ∀ c ∈ r1, c ≠ '\n' := fun c hc => hline c (stripKeyword_mem kw line r1 hs c hc)
    rw [plsIndex_line r1 rest hr1 hrest]
    cases hi : plsIndex r1 with
    | none => rfl
    | some p =>
      obtain ⟨c1, r2⟩ := p
      have hr2 : ∀ c ∈ r2, c ≠ '\n' := fun c hc => hr1 c (plsIndex_mem r1 c1 r2 hi c hc)
      have htake : (r2 ++ rest).takeWhile (fun c => c ≠ '\n') = r2 := by
        rw [List.takeWhile_append_of_pos (by simpa using hr2)]
        rcases hrest with h | ⟨x, h⟩
        · subst h; simp
        · subst h; simp [List.takeWhile_cons]
      have h1 := stripKeyword_length kw line r1 hs
      have h2 := plsIndex_length r1 c1 r2 hi
      simp only [Option.map_some', htake]
      congr 3
      omega

theorem plsMatchHere_of_ne (kw : QString) (c : Char) (r : QString) (hc : c ≠ '\n') :
    plsMatchHere kw (c :: r) = none := by
  unfold plsMatchHere
  split
  · rename_i heq
    simp only [List.cons.injEq] at heq
    exact absurd heq.1 hc
  · rfl

theorem plsScan_lines (kw : QString) (hkw : ∀ k ∈ kw, k.toLower ≠ '\n') :
    ∀ (t : QString) (k : Nat), k ≤ (t.takeWhile (fun c => c ≠ '\n')).length →
      plsScan kw t k = (splitLF t).tail.filterMap (plsLine kw) := by
  intro t
  induction t with
  | nil => intro k _; cases k <;> rfl
  | cons c rest ih =>
    intro k hk
    by_cases hc : c = '\n'
    · subst hc
      have hk0 : k = 0 := by simpa [List.takeWhile_cons] using hk
      subst hk0
      have htail : (splitLF ('\n' :: rest)).tail = splitLF rest := by simp [splitLF]
      have hsplit : splitLF rest =
          rest.takeWhile (fun c => c ≠ '\n') :: (splitLF rest).tail := by
        have hne := splitLF_ne_nil rest
        have hh := splitLF_head rest
        revert hne hh
        generalize splitLF rest = x
        intro hne hh
        cases x with
        | nil => exact absurd rfl hne
        | cons l ls => simp only [List.headD_cons] at hh; rw [hh]; rfl
      rw [htail, hsplit, List.filterMap_cons]
      simp only [plsScan, plsMatchHere_line kw hkw rest]
      cases hl : plsLine kw (rest.takeWhile (fun c => c ≠ '\n')) with
      | none =>
        simp only [Option.map_none']
        exact ih 0 (Nat.zero_le _)
      | some p =>
        simp only [Option.map_some']
        rw [ih _ (by omega)]
    · have htail : (splitLF (c :: rest)).tail = (splitLF rest).tail := by
        rw [splitLF_cons_of_ne c rest hc]; rfl
      rw [htail]
      cases k with
      | zero =>
        simp only [plsScan, plsMatchHere_of_ne kw c rest hc]
        exact ih 0 (Nat.zero_le _)
      | succ k1 =>
        simp only [plsScan]
        apply ih
        have hcd : (decide (c ≠ '\n')) = true := by simp [hc]
        rw [List.takeWhile_cons, hcd] at hk
        simp only [if_true, List.length_cons] at hk
        omega

theorem plsScan_eq_plsLines_File (data : QString) :
    plsScan "File".toList data 0 = plsLines "File".toList data :=
  plsScan_lines "File".toList (by decide) data 0 (Nat.zero_le _)

theorem plsScan_eq_plsLines_Title (data : QString) :
    plsScan "Title".toList data 0 = plsLines "Title".toList data :=
  plsScan_lines "Title".toList (by decide) data 0 (Nat.zero_le _)

theorem plsScan_eq_plsLines_Length (data : QString) :
    plsScan "Length".toList data 0 = plsLines "Length".toList data :=
  plsScan_lines "Length".toList (by decide) data 0 (Nat.zero_le _)

theorem parsePlsMap_lookup (u : QString → QString) (data : QString) (n : Int) :
    (parsePlsMap u data).lookup n =
      plsEntry (plsFiles u (plsLines "File".toList data))
        (plsTitles (plsLines "Title".toList data))
        (plsLengths (plsLines "Length".toList data)) n := by
  rw [← plsScan_eq_plsLines_File, ← plsScan_eq_plsLines_Title, ← plsScan_eq_plsLines_Length]
  exact (parsePlsMap_spec u data).2 n

theorem PlsMap.lookup_of_mem (m : PlsMap) (hm : m.Sorted) (e : Int × PlaylistItemMeta)
    (he : e ∈ m) : m.lookup e.1 = some e.2 := by
  induction m with
  | nil => simp at he
  | cons kv rest ih =>
    have hrest : PlsMap.Sorted rest := (List.pairwise_cons.mp hm).2
    have hk : ∀ x ∈ rest, kv.1 < x.1 := (List.pairwise_cons.mp hm).1
    rcases List.mem_cons.mp he with h | h
    · subst h
      simp [PlsMap.lookup]
    · have hne : ¬ (kv.1 = e.1) := by have := hk e h; omega
      have := ih hrest h
      simp only [PlsMap.lookup, List.find?_cons, hne, decide_False] at this ⊢
      exact this

theorem lastFor_some_mem {α : Type} (n : Int) (xs : List (Int × α)) (v : α)
    (h : lastFor n xs = some v) : (n, v) ∈ xs := by
  induction xs using List.reverseRecOn with
  | nil => simp [lastFor] at h
  | append_singleton xs x ih =>
    rw [lastFor_append_singleton] at h
    split at h
    · rename_i hx
      simp only [Option.some.injEq] at h
      rw [List.mem_append]
      right
      rw [List.mem_singleton, ← hx, ← h]
    · exact List.mem_append_left _ (ih h)

theorem lastFor_lengths_nonneg (n : Int) (caps : List (QString × QString)) :
    0 ≤ (lastFor n (plsLengths caps)).getD 0 := by
  cases h : lastFor n (plsLengths caps) with
  | none => exact le_refl 0
  | some v =>
    have hm := lastFor_some_mem n _ v h
    simp only [plsLengths, List.mem_filterMap] at hm
    obtain ⟨cap, _, hcap⟩ := hm
    simp only [Option.getD_some]
    cases h1 : toIntOk cap.1 with
    | none => rw [h1] at hcap; simp at hcap
    | some a =>
      cases h2 : toIntOk cap.2 with
      | none => rw [h1, h2] at hcap; simp at hcap
      | some b =>
        rw [h1, h2] at hcap
        simp only [Option.some.injEq, Prod.mk.injEq] at hcap
        rw [← hcap.2]
        split <;> omega

/-- C17, as stated, fails in one part: the value `3000000000` of a `Length`
line is a non-negative integer, but it is no 32-bit `int`, so `toInt` reports
a failure and the length of the entry stays 0; it is not kept. -/
theorem parsePls_length_out_of_range :
    parsePls sampleUrlFromText
        "[playlist]\nFile1=http://x/a.mp3\nLength1=3000000000\n".toList =
      [{ url := "http://x/a.mp3".toList, title := [], length := 0 }] := by
  decide

/-- C17, amended: every entry that `parsePls` returns has a length of 0 or
more. The length of the entry with index `n` is that of the last line
`Length<n>=<value>` (a line that follows a line feed, its index written with
one or two digits) whose value is a 32-bit integer: 0 for a negative value,
the value itself otherwise; it is 0 when there is no such line. The input
`[playlist]\nFile1=http://x/a.mp3\nTitle1=Song\nLength1=-5\n` gives exactly one
entry, with that URL, the title `Song` and the length 0. -/
theorem parsePls_length (u : QString → QString) (data : QString)
    (hu : u "http://x/a.mp3".toList ≠ []) :
    (∀ e ∈ parsePls u data, 0 ≤ e.length) ∧
    (∀ n e, (parsePlsMap u data).lookup n = some e →
      e.length = (lastFor n (plsLengths (plsLines "Length".toList data))).getD 0) ∧
    (∀ cap ∈ plsLengths (plsLines "Length".toList data), 0 ≤ cap.2) ∧
    parsePls u "[playlist]\nFile1=http://x/a.mp3\nTitle1=Song\nLength1=-5\n".toList =
      [{ url := u "http://x/a.mp3".toList, title := "Song".toList, length := 0 }] := by
  have hlen : ∀ n e, (parsePlsMap u data).lookup n = some e →
      e.length = (lastFor n (plsLengths (plsLines "Length".toList data))).getD 0 := by
    intro n e h
    rw [parsePlsMap_lookup] at h
    unfold plsEntry at h
    cases hf : lastFor n (plsFiles u (plsLines "File".toList data)) with
    | none => rw [hf] at h; simp at h
    | some url =>
      rw [hf] at h
      simp only [Option.map_some', Option.some.injEq] at h
      rw [← h]
  refine ⟨?_, hlen, ?_, ?_⟩
  · intro e he
    simp only [parsePls, List.mem_map] at he
    obtain ⟨kv, hkv, rfl⟩ := he
    have := PlsMap.lookup_of_mem _ (parsePlsMap_spec u data).1 kv hkv
    rw [hlen kv.1 kv.2 this]
    exact lastFor_lengths_nonneg _ _
  · intro cap hcap
    simp only [plsLengths, List.mem_filterMap] at hcap
    obtain ⟨c, _, hc⟩ := hcap
    cases h1 : toIntOk c.1 with
    | none => rw [h1] at hc; simp at hc
    | some a =>
      cases h2 : toIntOk c.2 with
      | none => rw [h1, h2] at hc; simp at hc
      | some b =>
        rw [h1, h2] at hc
        simp only [Option.some.injEq] at hc
        rw [← hc]
        simp only
        split <;> omega
  · have hF : plsScan "File".toList
        "[playlist]\nFile1=http://x/a.mp3\nTitle1=Song\nLength1=-5\n".toList 0 =
        [(['1'], "http://x/a.mp3".toList)] := by decide
    have hT : plsScan "Title".toList
        "[playlist]\nFile1=http://x/a.mp3\nTitle1=Song\nLength1=-5\n".toList 0 =
        [(['1'], "Song".toList)] := by decide
    have hL : plsScan "Length".toList
        "[playlist]\nFile1=http://x/a.mp3\nTitle1=Song\nLength1=-5\n".toList 0 =
        [(['1'], "-5".toList)] := by decide
    have h1 : toIntOk ['1'] = some 1 := by decide
    have h5 : toIntOk "-5".toList = some (-5) := by decide
    have hne : (u "http://x/a.mp3".toList).isEmpty = false := by
      simpa [List.isEmpty_iff] using hu
    simp only [parsePls, parsePlsMap, hF, hT, hL, List.foldl_cons, List.foldl_nil, plsFileStep,
      plsTitleStep, plsLengthStep, h1, h5, hne, Bool.not_false, if_true, PlsMap.update,
      List.isEmpty_cons, PlsMap.contains, List.any_cons, List.any_nil, decide_True, Bool.or_false,
      lt_self_iff_false, if_false, PlaylistItemMeta.empty, List.map_cons, List.map_nil]
    rfl

theorem parsePls_length_witness :
    sampleUrlFromText "http://x/a.mp3".toList ≠ [] ∧
    (∀ e ∈ parsePls sampleUrlFromText "[playlist]\nFile1=http://x/a.mp3\nLength1=-1\n".toList,
      0 ≤ e.length) ∧
    (∀ n e, (parsePlsMap sampleUrlFromText
        "[playlist]\nFile1=http://x/a.mp3\nLength1=-1\n".toList).lookup n = some e →
      e.length = (lastFor n (plsLengths (plsLines "Length".toList
        "[playlist]\nFile1=http://x/a.mp3\nLength1=-1\n".toList))).getD 0) ∧
    (∀ cap ∈ plsLengths (plsLines "Length".toList
        "[playlist]\nFile1=http://x/a.mp3\nLength1=-1\n".toList), 0 ≤ cap.2) ∧
    parsePls sampleUrlFromText
        "[playlist]\nFile1=http://x/a.mp3\nTitle1=Song\nLength1=-5\n".toList =
      [{ url := sampleUrlFromText "http://x/a.mp3".toList, title := "Song".toList,
         length := 0 }] :=
  ⟨by decide,
    parsePls_length sampleUrlFromText "[playlist]\nFile1=http://x/a.mp3\nLength1=-1\n".toList
      (by decide)⟩

theorem plsIndex_digits (r1 c1 r2 : QString) (h : plsIndex r1 = some (c1, r2)) :
    (∃ d1, c1 = [d1] ∧ isDigit d1 = true) ∨
      (∃ d1 d2, c1 = [d1, d2] ∧ isDigit d1 = true ∧ isDigit d2 = true) := by
  match r1, h with
  | [], h => simp [plsIndex] at h
  | [_], h => simp [plsIndex] at h
  | [d1, d2], h =>
    simp only [plsIndex] at h
    split at h
    · rename_i hc
      simp only [Option.some.injEq, Prod.mk.injEq] at h
      simp only [Bool.and_eq_true] at hc
      exact Or.inl ⟨d1, h.1.symm, hc.1⟩
    · simp at h
  | d1 :: d2 :: c3 :: r, h =>
    simp only [plsIndex] at h
    split at h
    · rename_i hc
      simp only [Option.some.injEq, Prod.mk.injEq] at h
      simp only [Bool.and_eq_true] at hc
      exact Or.inr ⟨d1, d2, h.1.symm, hc.1.1, hc.1.2⟩
    · split at h
      · rename_i hc
        simp only [Option.some.injEq, Prod.mk.injEq] at h
        simp only [Bool.and_eq_true] at hc
        exact Or.inl ⟨d1, h.1.symm, hc.1⟩
      · simp at h

theorem isDigit_bounds (d : Char) (h : isDigit d = true) : 48 ≤ d.toNat ∧ d.toNat ≤ 57 := by
  simpa [isDigit] using h

theorem toIntOk_one_digit (d1 : Char) (h1 : isDigit d1 = true) :
    toIntOk [d1] = some ((d1.toNat - 48 : Nat) : Int) := by
  have hs := isDigit_not_isSpace d1 h1
  have hb := isDigit_bounds d1 h1
  have hm : d1 ≠ '-' := by rintro rfl; simp [isDigit] at h1
  have hp : d1 ≠ '+' := by rintro rfl; simp [isDigit] at h1
  have ht : trimSpace [d1] = [d1] := by simp [trimSpace, List.dropWhile, hs]
  unfold toIntOk
  rw [ht]
  split
  · rename_i heq; simp only [List.cons.injEq] at heq; exact absurd heq.1 hm
  · rename_i heq; simp only [List.cons.injEq] at heq; exact absurd heq.1 hp
  · have hv : digitsValue [d1] = d1.toNat - 48 := by simp [digitsValue]
    simp only [hv, List.all_cons, List.all_nil, h1, Bool.and_true, one_mul]
    rw [if_pos]
    refine ⟨by simp, trivial, by omega, by omega⟩

theorem toIntOk_two_digits (d1 d2 : Char) (h1 : isDigit d1 = true) (h2 : isDigit d2 = true) :
    toIntOk [d1, d2] = some (((d1.toNat - 48) * 10 + (d2.toNat - 48) : Nat) : Int) := by
  have hs1 := isDigit_not_isSpace d1 h1
  have hs2 := isDigit_not_isSpace d2 h2
  have hb1 := isDigit_bounds d1 h1
  have hb2 := isDigit_bounds d2 h2
  have hm : d1 ≠ '-' := by rintro rfl; simp [isDigit] at h1
  have hp : d1 ≠ '+' := by rintro rfl; simp [isDigit] at h1
  have ht : trimSpace [d1, d2] = [d1, d2] := by simp [trimSpace, List.dropWhile, hs1, hs2]
  unfold toIntOk
  rw [ht]
  split
  · rename_i heq; simp only [List.cons.injEq] at heq; exact absurd heq.1 hm
  · rename_i heq; simp only [List.cons.injEq] at heq; exact absurd heq.1 hp
  · have hv : digitsValue [d1, d2] = (d1.toNat - 48) * 10 + (d2.toNat - 48) := by
      simp [digitsValue]
    simp only [hv, List.all_cons, List.all_nil, h1, h2, Bool.and_true, one_mul]
    rw [if_pos]
    refine ⟨by simp, trivial, by omega, by omega⟩

theorem plsLine_index_range (kw line c1 c2 : QString) (n : Int)
    (h : plsLine kw line = some (c1, c2)) (hn : toIntOk c1 = some n) : 0 ≤ n ∧ n ≤ 99 := by
  unfold plsLine at h
  cases hs : stripKeyword kw line with
  | none => rw [hs] at h; simp at h
  | some r =>
    rw [hs] at h
    rcases plsIndex_digits r c1 c2 h with ⟨d1, hc, h1⟩ | ⟨d1, d2, hc, h1, h2⟩
    · subst hc
      rw [toIntOk_one_digit d1 h1] at hn
      have hb := isDigit_bounds d1 h1
      simp only [Option.some.injEq] at hn
      omega
    · subst hc
      rw [toIntOk_two_digits d1 d2 h1 h2] at hn
      have hb1 := isDigit_bounds d1 h1
      have hb2 := isDigit_bounds d2 h2
      simp only [Option.some.injEq] at hn
      omega

/-- C18, as stated, fails: the index `100` has a `File` line with a URL, but
the expression `\nFile(\d\d?)=` takes one or two digits, so the line is not
seen and no entry is returned. -/
theorem parsePls_three_digit_index :
    sampleUrlFromText "http://x/a.mp3".toList ≠ [] ∧
    parsePls sampleUrlFromText "[playlist]\nFile100=http://x/a.mp3\n".toList = [] := by
  decide

/-- C18, amended: `parsePls` returns the items of a map whose keys are in
strictly ascending order, so one entry for each key. The keys are the indices
`n` from 0 to 99 of the lines `File<n>=<text>` (lines that follow a line feed,
the index written with one or two digits, the keyword in any letter case)
whose text gives a non-empty URL; the entry of `n` carries the URL of the last
such line, the title of the last line `Title<n>=` (empty when there is none)
and the length of the last line `Length<n>=` with an `int` value (0 when
there is none). An index with `Title` or `Length` lines and no such `File`
line has no entry. -/
theorem parsePls_entries (u : QString → QString) (data : QString) :
    parsePls u data = (parsePlsMap u data).map (fun e => e.2) ∧
    (parsePlsMap u data).Pairwise (fun a b => a.1 < b.1) ∧
    (∀ n, (parsePlsMap u data).lookup n =
      plsEntry (plsFiles u (plsLines "File".toList data))
        (plsTitles (plsLines "Title".toList data))
        (plsLengths (plsLines "Length".toList data)) n) ∧
    (∀ n, lastFor n (plsFiles u (plsLines "File".toList data)) = none →
      (parsePlsMap u data).lookup n = none) ∧
    (∀ e ∈ parsePlsMap u data, 0 ≤ e.1 ∧ e.1 ≤ 99) := by
  refine ⟨rfl, (parsePlsMap_spec u data).1, parsePlsMap_lookup u data, ?_, ?_⟩
  · intro n hn
    rw [parsePlsMap_lookup, plsEntry, hn]
    rfl
  · intro e he
    have hl := PlsMap.lookup_of_mem _ (parsePlsMap_spec u data).1 e he
    rw [parsePlsMap_lookup, plsEntry] at hl
    cases hf : lastFor e.1 (plsFiles u (plsLines "File".toList data)) with
    | none => rw [hf] at hl; simp at hl
    | some url =>
      have hm := lastFor_some_mem _ _ _ hf
      simp only [plsFiles, List.mem_filterMap] at hm
      obtain ⟨cap, hcap, hc⟩ := hm
      simp only [plsLines, List.mem_filterMap] at hcap
      obtain ⟨line, _, hline⟩ := hcap
      cases h1 : toIntOk cap.1 with
      | none => rw [h1] at hc; simp at hc
      | some a =>
        rw [h1] at hc
        simp only at hc
        split at hc
        · simp at hc
        · simp only [Option.some.injEq, Prod.mk.injEq] at hc
          have := plsLine_index_range "File".toList line cap.1 cap.2 a hline h1
          omega

theorem m3u_fold (u : QString → QString) (lines : List QString) :
    ∀ acc : List PlaylistItemMeta,
      lines.foldl (m3uStep u) acc = acc ++
        (lines.filter
          (fun line => decide (line.head? ≠ some '#') && decide (u line ≠ []))).map
          (fun line => { url := u line, title := [], length := 0 }) := by
  induction lines with
  | nil => intro acc; simp
  | cons l ls ih =>
    intro acc
    rw [List.foldl_cons, ih]
    unfold m3uStep
    by_cases h1 : l.head? = some '#'
    · simp [h1]
    · by_cases h2 : u l = []
      · simp [h1, h2]
      · simp [h1, h2, List.isEmpty_iff, PlaylistItemMeta.empty]

/-- C19: `parseM3u` returns, in the order of the lines, exactly one entry for
each line that does not start with `#` and whose text gives a non-empty URL,
with that URL, an empty title and length 0, and no other entry; a `#EXTINF`
line followed by one URL line gives exactly one entry. -/
theorem parseM3u_entries (u : QString → QString) (data : QString)
    (hu : u "http://x/a.mp3".toList ≠ []) :
    parseM3u u data = m3uEntries u data ∧
    (∀ e ∈ parseM3u u data, e.title = [] ∧ e.url ≠ []) ∧
    parseM3u u "#EXTINF:123,Artist - Song\nhttp://x/a.mp3\n".toList =
      [{ url := u "http://x/a.mp3".toList, title := [], length := 0 }] := by
  have heq : ∀ d, parseM3u u d = m3uEntries u d := by
    intro d
    unfold parseM3u m3uEntries
    rw [m3u_fold]
    rfl
  refine ⟨heq data, ?_, ?_⟩
  · intro e he
    rw [heq] at he
    simp only [m3uEntries, List.mem_map, List.mem_filter] at he
    obtain ⟨line, ⟨_, hl⟩, rfl⟩ := he
    simp only [Bool.and_eq_true, decide_eq_true_eq] at hl
    exact ⟨rfl, hl.2⟩
  · rw [heq]
    have hl : textStreamLines "#EXTINF:123,Artist - Song\nhttp://x/a.mp3\n".toList [] =
        ["#EXTINF:123,Artist - Song".toList, "http://x/a.mp3".toList] := by decide
    have h1 : ("#EXTINF:123,Artist - Song".toList).head? = some '#' := by decide
    have h2 : ¬ (("http://x/a.mp3".toList).head? = some '#') := by decide
    simp only [m3uEntries, hl, List.filter_cons, h1, h2, hu, ne_eq, not_true_eq_false,
      not_false_eq_true, decide_True, decide_False, Bool.false_and, Bool.and_self,
      Bool.false_eq_true, if_false, if_true, List.filter_nil, List.map_cons, List.map_nil]

theorem parseM3u_entries_witness :
    sampleUrlFromText "http://x/a.mp3".toList ≠ [] ∧
    parseM3u sampleUrlFromText "#EXTM3U\r\nhttp://x/b.mp3\r\n\r\nc.mp3".toList =
      m3uEntries sampleUrlFromText "#EXTM3U\r\nhttp://x/b.mp3\r\n\r\nc.mp3".toList ∧
    (∀ e ∈ parseM3u sampleUrlFromText "#EXTM3U\r\nhttp://x/b.mp3\r\n\r\nc.mp3".toList,
      e.title = [] ∧ e.url ≠ []) ∧
    parseM3u sampleUrlFromText "#EXTINF:123,Artist - Song\nhttp://x/a.mp3\n".toList =
      [{ url := sampleUrlFromText "http://x/a.mp3".toList, title := [], length := 0 }] :=
  ⟨by decide,
    parseM3u_entries sampleUrlFromText "#EXTM3U\r\nhttp://x/b.mp3\r\n\r\nc.mp3".toList
      (by decide)⟩

theorem MetaCache.find_insert_self (c : MetaCache) (k : QUrl) (v : ItemMeta) :
    (c.insert k v).find k = some v := by
  simp [MetaCache.insert, MetaCache.find]

theorem httpLoop_succ (env : MetaEnv) (maxR : Int) (fuel : Nat) (url : QUrl) (counter : Int)
    (st : MetaState) :
    httpLoop env maxR (fuel + 1) url counter st =
      match httpStep env maxR url counter st with
      | .done r => some r
      | .follow u st1 => httpLoop env maxR fuel u (counter + 1) st1 := by
  unfold httpStep
  rw [httpLoop]
  simp only []
  split_ifs <;> first | rfl | (split <;> rfl)

theorem httpStep_props (env : MetaEnv) (maxR : Int) (url : QUrl) (counter : Int)
    (st : MetaState) :
    (maxR ≤ counter → httpStep env maxR url counter st = .done (st, none)) ∧
    (counter < maxR →
      match httpStep env maxR url counter st with
      | .done (st1, it) =>
        st1.calls = st.calls ++ [.httpGet url counter] ∧
        (it = none → st1.metaCache = st.metaCache) ∧
        (∀ k m, it = some (k, m) →
          k = url ∧ m = httpItemMeta env url (env.httpGet counter url) ∧
          st1.metaCache = st.metaCache.insert url m)
      | .follow _ st1 => st1 = { st with calls := st.calls ++ [.httpGet url counter] }) := by
  constructor
  · intro h
    unfold httpStep
    rw [if_pos (by omega)]
  · intro h
    unfold httpStep
    rw [if_neg (by omega)]
    simp only []
    split_ifs <;> (try cases playlistItems env (env.httpGet counter url)) <;> simp

theorem httpLoop_spec (env : MetaEnv) (maxR : Int) :
    ∀ (n : Nat) (url : QUrl) (counter : Int) (st : MetaState), (maxR - counter).toNat ≤ n →
      ∃ (st1 : MetaState) (it : Option (QUrl × ItemMeta)) (reqs : List QUrl),
        (∀ fuel, (maxR - counter).toNat < fuel →
          httpLoop env maxR fuel url counter st = some (st1, it)) ∧
        st1.calls = st.calls ++ requestLog reqs counter ∧
        reqs.length ≤ (maxR - counter).toNat ∧
        (maxR ≤ counter → st1 = st ∧ it = none) ∧
        (it = none → st1.metaCache = st.metaCache) ∧
        (∀ k m, it = some (k, m) → st1.metaCache = st.metaCache.insert k m ∧
          ∃ c, counter ≤ c ∧ c < maxR ∧ m = httpItemMeta env k (env.httpGet c k)) := by
  have hstop : ∀ (url : QUrl) (counter : Int) (st : MetaState), maxR ≤ counter →
      ∃ (st1 : MetaState) (it : Option (QUrl × ItemMeta)) (reqs : List QUrl),
        (∀ fuel, (maxR - counter).toNat < fuel →
          httpLoop env maxR fuel url counter st = some (st1, it)) ∧
        st1.calls = st.calls ++ requestLog reqs counter ∧
        reqs.length ≤ (maxR - counter).toNat ∧
        (maxR ≤ counter → st1 = st ∧ it = none) ∧
        (it = none → st1.metaCache = st.metaCache) ∧
        (∀ k m, it = some (k, m) → st1.metaCache = st.metaCache.insert k m ∧
          ∃ c, counter ≤ c ∧ c < maxR ∧ m = httpItemMeta env k (env.httpGet c k)) := by
    intro url counter st hc
    refine ⟨st, none, [], ?_, by simp [requestLog], by simp, fun _ => ⟨rfl, rfl⟩,
      fun _ => rfl, by intro k m h; cases h⟩
    intro fuel hf
    obtain ⟨f, rfl⟩ : ∃ f, fuel = f + 1 := ⟨fuel - 1, by omega⟩
    rw [httpLoop_succ, (httpStep_props env maxR url counter st).1 hc]
  intro n
  induction n with
  | zero =>
    intro url counter st hn
    exact hstop url counter st (by omega)
  | succ n ih =>
    intro url counter st hn
    by_cases hc : maxR ≤ counter
    · exact hstop url counter st hc
    · have hlt : counter < maxR := by omega
      have hp := (httpStep_props env maxR url counter st).2 hlt
      cases hs : httpStep env maxR url counter st with
      | done r =>
        obtain ⟨st1, it⟩ := r
        simp only [hs] at hp
        obtain ⟨h1, h2, h3⟩ := hp
        refine ⟨st1, it, [url], ?_, by simpa [requestLog] using h1, ?_, by intro h; omega,
          h2, ?_⟩
        · intro fuel hf
          obtain ⟨f, rfl⟩ : ∃ f, fuel = f + 1 := ⟨fuel - 1, by omega⟩
          rw [httpLoop_succ, hs]
        · simp only [List.length_singleton]
          omega
        · intro k m h
          obtain ⟨hk, hm, hcache⟩ := h3 k m h
          subst hk
          exact ⟨hcache, counter, le_refl _, hlt, hm⟩
      | follow u st2 =>
        simp only [hs] at hp
        obtain ⟨st1, it, reqs, hf1, hcalls, hlen, _, hnone, hsome⟩ :=
          ih u (counter + 1) st2 (by omega)
        refine ⟨st1, it, url :: reqs, ?_, ?_, ?_, by intro h; omega, ?_, ?_⟩
        · intro fuel hf
          obtain ⟨f, rfl⟩ : ∃ f, fuel = f + 1 := ⟨fuel - 1, by omega⟩
          rw [httpLoop_succ, hs]
          exact hf1 f (by omega)
        · rw [hcalls, hp]
          simp [requestLog]
        · simp only [List.length_cons]
          omega
        · intro h
          rw [hnone h, hp]
        · intro k m h
          obtain ⟨hc1, c, hc2, hc3, hm⟩ := hsome k m h
          refine ⟨by rw [hc1, hp], c, by omega, hc3, hm⟩

theorem makeItemMetaUsingHTTPRequest_result (env : MetaEnv) (maxR : Int) (url : QUrl)
    (counter : Int) (st st1 : MetaState) (k : QUrl) (m : ItemMeta)
    (h : makeItemMetaUsingHTTPRequest env maxR url counter st = some (st1, some (k, m))) :
    st1.metaCache = st.metaCache.insert k m ∧
    ∃ c, counter ≤ c ∧ c < maxR ∧ m = httpItemMeta env k (env.httpGet c k) := by
  obtain ⟨st2, it, reqs, hf, _, _, _, _, hsome⟩ :=
    httpLoop_spec env maxR (maxR - counter).toNat url counter st (le_refl _)
  have h2 := hf ((maxR - counter).toNat + 1) (Nat.lt_succ_self _)
  unfold makeItemMetaUsingHTTPRequest at h
  rw [h2] at h
  simp only [Option.some.injEq, Prod.mk.injEq] at h
  obtain ⟨rfl, rfl⟩ := h
  exact hsome k m rfl

theorem makeItemMetaUsingTaglib_cached (env : MetaEnv) (url : QUrl) (st : MetaState) :
    ∃ (st1 : MetaState) (m : ItemMeta),
      makeItemMetaUsingTaglib env url st = (st1, some (url, m)) ∧
      st1.metaCache.find url = some m ∧ m.url = url := by
  unfold makeItemMetaUsingTaglib
  refine ⟨_, _, rfl, MetaCache.find_insert_self _ _ _, ?_⟩
  rcases env.taglibTag (env.toLocalFile url) with _ | ⟨a, b, c⟩ <;>
    rcases env.taglibAudioProperties (env.toLocalFile url) with _ | ⟨d, e, f, g⟩ <;>
    dsimp only <;> split_ifs <;> rfl

theorem makeItemMeta_cached (env : MetaEnv) (maxR : Int) (url : QUrl) (st st1 : MetaState)
    (k : QUrl) (m : ItemMeta)
    (h : makeItemMeta env maxR url st = some (st1, some (k, m))) :
    st1.metaCache.find k = some m ∧ m.url = k := by
  unfold makeItemMeta at h
  split_ifs at h with h1 h2 h3 h4
  · -- Tracker, then TagLib
    cases hrow : env.trackerRow url with
    | none =>
      simp only [makeItemMetaUsingTracker, hrow] at h
      obtain ⟨st2, m2, hm2, hfind, hurl⟩ := makeItemMetaUsingTaglib_cached env url
        { metaCache := st.metaCache, calls := st.calls ++ [MetaCall.tracker url] }
      rw [hm2] at h
      simp only [Option.some.injEq, Prod.mk.injEq] at h
      obtain ⟨rfl, rfl, rfl⟩ := h
      exact ⟨hfind, hurl⟩
    | some row =>
      simp only [makeItemMetaUsingTracker, hrow, MetaCache.find_insert_self, Option.map_some',
        Option.some.injEq, Prod.mk.injEq] at h
      obtain ⟨rfl, rfl, rfl⟩ := h
      exact ⟨MetaCache.find_insert_self _ _ _, rfl⟩
  · cases h
  · simp only [makeMicItemMeta, Option.some.injEq, Prod.mk.injEq] at h
    obtain ⟨rfl, rfl, rfl⟩ := h
    exact ⟨MetaCache.find_insert_self _ _ _, rfl⟩
  · simp only [makePulseItemMeta, Option.some.injEq, Prod.mk.injEq] at h
    obtain ⟨rfl, rfl, rfl⟩ := h
    exact ⟨MetaCache.find_insert_self _ _ _, rfl⟩
  · obtain ⟨hc, c, _, _, hm⟩ := makeItemMetaUsingHTTPRequest_result env maxR url 0 st st1 k m h
    rw [hc, hm]
    exact ⟨MetaCache.find_insert_self _ _ _, rfl⟩

theorem getMeta_hit (env : MetaEnv) (maxR : Int) (u : QUrl) (createNew : Bool) (st : MetaState)
    (m : ItemMeta) (h : st.metaCache.find u = some m) :
    getMeta env maxR u createNew st = some (st, some m) := by
  simp [getMeta, getMetaCacheIterator, h]

theorem getMeta_miss (env : MetaEnv) (maxR : Int) (u : QUrl) (st st1 : MetaState)
    (m : ItemMeta) (h0 : st.metaCache.find u = none)
    (h : getMeta env maxR u true st = some (st1, some m)) :
    st1.metaCache.find m.url = some m := by
  unfold getMeta getMetaCacheIterator at h
  rw [h0] at h
  simp only [if_true] at h
  cases hmk : makeItemMeta env maxR u st with
  | none => rw [hmk] at h; cases h
  | some r =>
    obtain ⟨st2, it⟩ := r
    rw [hmk] at h
    cases it with
    | none => simp at h
    | some e =>
      obtain ⟨k, m2⟩ := e
      simp only [Option.map_some', Option.some.injEq, Prod.mk.injEq] at h
      obtain ⟨rfl, rfl⟩ := h
      obtain ⟨hc, hu⟩ := makeItemMeta_cached env maxR u st st2 k m2 hmk
      rw [hu]
      exact hc

theorem wrap32_of_int (v : Int) (h1 : -2147483648 ≤ v) (h2 : v ≤ 2147483647) : wrap32 v = v := by
  unfold wrap32
  omega

theorem wrap32_of_large (v : Int) (h1 : 2147483648 ≤ v) (h2 : v ≤ 4294967296) :
    wrap32 v ≤ 0 := by
  unfold wrap32
  omega

theorem httpItemMeta_seekSupported (env : MetaEnv) (k : QUrl) (reply : HttpReply) :
    (httpItemMeta env k reply).seekSupported = true ↔
      "bytes".toList <:+: toLower reply.acceptRanges ∧
      0 < wrap32 (reply.contentLength.getD 0) := by
  simp only [httpItemMeta]
  by_cases hs : 0 < wrap32 (reply.contentLength.getD 0)
  · simp [hs]
  · simp [hs]

/-- C12, as stated, fails: at the sample origin `http://x/list.m3u` is a
playlist whose first entry is `http://x/a.mp3`. The first
`getMeta(http://x/list.m3u, true)` returns the descriptor of `http://x/a.mp3`
and stores it under that URL only, so the second call for
`http://x/list.m3u` finds nothing under its key and sends both requests
again. -/
theorem getMeta_playlist_probes_again :
    getMeta sampleMetaEnv 5 "http://x/list.m3u".toList true ⟨[], []⟩ =
      some (samplePlaylistState, some sampleMp3Meta) ∧
    samplePlaylistState.metaCache.find "http://x/list.m3u".toList = none ∧
    getMeta sampleMetaEnv 5 "http://x/list.m3u".toList true samplePlaylistState =
      some ({ samplePlaylistState with
              calls := samplePlaylistState.calls ++
                [.httpGet "http://x/list.m3u".toList 0, .httpGet "http://x/a.mp3".toList 1] },
            some sampleMp3Meta) := by
  decide

/-- C12, amended: if a first `getMeta(u, true)` returns a descriptor `m`, then
`m` is in the cache, under `u` when `u` was cached before or `m.url = u`, and
else (a remote URL resolved through a playlist or a redirection) under
`m.url` only. A second `getMeta(u, true)`, with any collaborators, returns the
descriptor stored under `u` and leaves the state as it is (no strategy is
reached, no call is made) whenever there is one, in particular `m` itself when
`m.url = u`; a second `getMeta(m.url, true)` returns `m` in the same way. -/
theorem getMeta_second_call (env1 env2 : MetaEnv) (maxRedirections : Int) (u : QUrl)
    (st st1 : MetaState) (m : ItemMeta)
    (h : getMeta env1 maxRedirections u true st = some (st1, some m)) :
    (st1.metaCache.find u = some m ∨
      (st.metaCache.find u = none ∧ m.url ≠ u ∧ st1.metaCache.find m.url = some m)) ∧
    (∀ m1, st1.metaCache.find u = some m1 →
      getMeta env2 maxRedirections u true st1 = some (st1, some m1)) ∧
    (m.url = u → getMeta env2 maxRedirections u true st1 = some (st1, some m)) ∧
    (st.metaCache.find u = none →
      getMeta env2 maxRedirections m.url true st1 = some (st1, some m)) := by
  have hkey : st1.metaCache.find u = some m ∨
      (st.metaCache.find u = none ∧ st1.metaCache.find m.url = some m) := by
    cases hfind : st.metaCache.find u with
    | some m0 =>
      rw [getMeta_hit env1 maxRedirections u true st m0 hfind] at h
      simp only [Option.some.injEq, Prod.mk.injEq] at h
      obtain ⟨rfl, rfl⟩ := h
      exact Or.inl hfind
    | none => exact Or.inr ⟨rfl, getMeta_miss env1 maxRedirections u st st1 m hfind h⟩
  refine ⟨?_, ?_, ?_, ?_⟩
  · rcases hkey with hk | ⟨h0, hk⟩
    · exact Or.inl hk
    · by_cases hu : m.url = u
      · exact Or.inl (by rw [← hu]; exact hk)
      · exact Or.inr ⟨h0, hu, hk⟩
  · intro m1 hm1
    exact getMeta_hit env2 maxRedirections u true st1 m1 hm1
  · intro hu
    rcases hkey with hk | ⟨_, hk⟩
    · exact getMeta_hit env2 maxRedirections u true st1 m hk
    · exact getMeta_hit env2 maxRedirections u true st1 m (by rw [← hu]; exact hk)
  · intro h0
    exact getMeta_hit env2 maxRedirections m.url true st1 m
      (getMeta_miss env1 maxRedirections u st st1 m h0 h)

theorem getMeta_second_call_witness :
    getMeta sampleMetaEnv 5 "http://x/list.m3u".toList true ⟨[], []⟩ =
      some (samplePlaylistState, some sampleMp3Meta) ∧
    ((samplePlaylistState.metaCache.find "http://x/list.m3u".toList = some sampleMp3Meta ∨
      (MetaCache.find [] "http://x/list.m3u".toList = none ∧
        sampleMp3Meta.url ≠ "http://x/list.m3u".toList ∧
        samplePlaylistState.metaCache.find sampleMp3Meta.url = some sampleMp3Meta)) ∧
    (∀ m1, samplePlaylistState.metaCache.find "http://x/list.m3u".toList = some m1 →
      getMeta sampleMetaEnv 5 "http://x/list.m3u".toList true samplePlaylistState =
        some (samplePlaylistState, some m1)) ∧
    (sampleMp3Meta.url = "http://x/list.m3u".toList →
      getMeta sampleMetaEnv 5 "http://x/list.m3u".toList true samplePlaylistState =
        some (samplePlaylistState, some sampleMp3Meta)) ∧
    (MetaCache.find [] "http://x/list.m3u".toList = none →
      getMeta sampleMetaEnv 5 sampleMp3Meta.url true samplePlaylistState =
        some (samplePlaylistState, some sampleMp3Meta))) :=
  ⟨by decide,
    getMeta_second_call sampleMetaEnv sampleMetaEnv 5 "http://x/list.m3u".toList ⟨[], []⟩
      samplePlaylistState sampleMp3Meta (by decide)⟩

/-- C13: `makeItemMetaUsingHTTPRequest` returns for every behaviour of the
origin (with the bound `maxRedirections - counter + 1` on the depth of the
recursion, and with every larger one). The requests it sends are at most
`maxRedirections - counter`, so at most `maxRedirections` from `counter = 0`;
request number `i` is sent by the activation with `counter + i`, so every
follow of a redirection or of a playlist passes `counter + 1`; and a call with
`counter ≥ maxRedirections` returns `end()` with no request sent and the cache
as it was. -/
theorem makeItemMetaUsingHTTPRequest_terminates (env : MetaEnv) (maxRedirections : Int)
    (url : QUrl) (counter : Int) (st : MetaState) :
    ∃ (st1 : MetaState) (it : Option (QUrl × ItemMeta)) (reqs : List QUrl),
      makeItemMetaUsingHTTPRequest env maxRedirections url counter st = some (st1, it) ∧
      (∀ fuel, (maxRedirections - counter).toNat < fuel →
        httpLoop env maxRedirections fuel url counter st = some (st1, it)) ∧
      st1.calls = st.calls ++ requestLog reqs counter ∧
      reqs.length ≤ (maxRedirections - counter).toNat ∧
      (counter = 0 → (reqs.length : Int) ≤ max maxRedirections 0) ∧
      (maxRedirections ≤ counter → st1 = st ∧ it = none) := by
  obtain ⟨st1, it, reqs, hf, hcalls, hlen, hstop, _, _⟩ :=
    httpLoop_spec env maxRedirections (maxRedirections - counter).toNat url counter st (le_refl _)
  refine ⟨st1, it, reqs, hf _ (Nat.lt_succ_self _), hf, hcalls, hlen, ?_, hstop⟩
  intro h0
  subst h0
  omega

/-- C14: the descriptor `m` that a remote resolution stores comes from the
reply to one of its requests, and `m.seekSupported` holds exactly when the
`Accept-Ranges` header of that reply contains `bytes` (letters of any case)
and the `Content-Length`, cut to the 32 bits of `int size`, is positive. For a
`Content-Length` that fits in an `int` this is the rule of the specification;
for one from 2147483648 to 4294967296 `seekSupported` is false, whatever
`Accept-Ranges` says. -/
theorem makeItemMetaUsingHTTPRequest_seekSupported (env : MetaEnv) (maxRedirections : Int)
    (url : QUrl) (counter : Int) (st st1 : MetaState) (k : QUrl) (m : ItemMeta)
    (h : makeItemMetaUsingHTTPRequest env maxRedirections url counter st =
      some (st1, some (k, m))) :
    st1.metaCache.find k = some m ∧
    ∃ c, counter ≤ c ∧ c < maxRedirections ∧
      (m.seekSupported = true ↔
        "bytes".toList <:+: toLower (env.httpGet c k).acceptRanges ∧
        0 < wrap32 ((env.httpGet c k).contentLength.getD 0)) ∧
      (∀ len, (env.httpGet c k).contentLength = some len →
        -2147483648 ≤ len → len ≤ 2147483647 →
        (m.seekSupported = true ↔
          "bytes".toList <:+: toLower (env.httpGet c k).acceptRanges ∧ 0 < len)) ∧
      (∀ len, (env.httpGet c k).contentLength = some len →
        2147483648 ≤ len → len ≤ 4294967296 → m.seekSupported = false) := by
  obtain ⟨hc, c, hc1, hc2, hm⟩ :=
    makeItemMetaUsingHTTPRequest_result env maxRedirections url counter st st1 k m h
  refine ⟨by rw [hc]; exact MetaCache.find_insert_self _ _ _, c, hc1, hc2, ?_, ?_, ?_⟩
  · rw [hm]
    exact httpItemMeta_seekSupported env k _
  · intro len hl h1 h2
    rw [hm, httpItemMeta_seekSupported, hl, Option.getD_some, wrap32_of_int len h1 h2]
  · intro len hl h1 h2
    have hw := wrap32_of_large len h1 h2
    have hiff := httpItemMeta_seekSupported env k (env.httpGet c k)
    rw [hl, Option.getD_some] at hiff
    rw [hm]
    cases hb : (httpItemMeta env k (env.httpGet c k)).seekSupported with
    | false => rfl
    | true =>
      have := (hiff.mp hb).2
      omega

theorem makeItemMetaUsingHTTPRequest_seekSupported_witness :
    makeItemMetaUsingHTTPRequest sampleMetaEnv 5 "http://x/big.mkv".toList 0 ⟨[], []⟩ =
      some (⟨[("http://x/big.mkv".toList, sampleBigMeta)],
              [.httpGet "http://x/big.mkv".toList 0]⟩,
            some ("http://x/big.mkv".toList, sampleBigMeta)) ∧
    (sampleMetaEnv.httpGet 0 "http://x/big.mkv".toList).contentLength = some 3000000000 ∧
    "bytes".toList <:+: toLower (sampleMetaEnv.httpGet 0 "http://x/big.mkv".toList).acceptRanges ∧
    sampleBigMeta.seekSupported = false ∧
    (MetaCache.find [("http://x/big.mkv".toList, sampleBigMeta)] "http://x/big.mkv".toList =
        some sampleBigMeta ∧
      ∃ c, (0 : Int) ≤ c ∧ c < 5 ∧
        (sampleBigMeta.seekSupported = true ↔
          "bytes".toList <:+:
              toLower (sampleMetaEnv.httpGet c "http://x/big.mkv".toList).acceptRanges ∧
          0 < wrap32 ((sampleMetaEnv.httpGet c "http://x/big.mkv".toList).contentLength.getD 0)) ∧
        (∀ len, (sampleMetaEnv.httpGet c "http://x/big.mkv".toList).contentLength = some len →
          -2147483648 ≤ len → len ≤ 2147483647 →
          (sampleBigMeta.seekSupported = true ↔
            "bytes".toList <:+:
                toLower (sampleMetaEnv.httpGet c "http://x/big.mkv".toList).acceptRanges ∧
            0 < len)) ∧
        (∀ len, (sampleMetaEnv.httpGet c "http://x/big.mkv".toList).contentLength = some len →
          2147483648 ≤ len → len ≤ 4294967296 → sampleBigMeta.seekSupported = false)) :=
  ⟨by decide, by decide, by decide, by decide,
    makeItemMetaUsingHTTPRequest_seekSupported sampleMetaEnv 5 "http://x/big.mkv".toList 0
      ⟨[], []⟩ ⟨[("http://x/big.mkv".toList, sampleBigMeta)],
        [.httpGet "http://x/big.mkv".toList 0]⟩ "http://x/big.mkv".toList sampleBigMeta
      (by decide)⟩

/-! ## Token alphabet -/

theorem isBase64UrlChar_b64Char_fin : ∀ j : Fin 64, isBase64UrlChar (b64Char j.val) = true := by
  decide

theorem isBase64UrlChar_b64Char (j : Nat) (h : j < 64) : isBase64UrlChar (b64Char j) = true :=
  isBase64UrlChar_b64Char_fin ⟨j, h⟩

theorem toBase64_chars (x : QByteArray) : ∀ c ∈ toBase64 x, isBase64UrlChar c = true := by
  induction x using toBase64.induct with
  | case1 => intro c hc; simp [toBase64] at hc
  | case2 a =>
    intro c hc
    simp only [toBase64, List.mem_cons, List.mem_singleton, List.not_mem_nil, or_false] at hc
    rcases hc with rfl | rfl <;> exact isBase64UrlChar_b64Char _ (Nat.mod_lt _ (by decide))
  | case3 a b =>
    intro c hc
    simp only [toBase64, List.mem_cons, List.mem_singleton, List.not_mem_nil, or_false] at hc
    rcases hc with rfl | rfl | rfl <;> exact isBase64UrlChar_b64Char _ (Nat.mod_lt _ (by decide))
  | case4 a b c rest ih =>
    intro ch hc
    simp only [toBase64, List.mem_cons] at hc
    rcases hc with rfl | rfl | rfl | rfl | hc
    · exact isBase64UrlChar_b64Char _ (Nat.mod_lt _ (by decide))
    · exact isBase64UrlChar_b64Char _ (Nat.mod_lt _ (by decide))
    · exact isBase64UrlChar_b64Char _ (Nat.mod_lt _ (by decide))
    · exact isBase64UrlChar_b64Char _ (Nat.mod_lt _ (by decide))
    · exact ih ch hc

theorem toBase64_length (x : QByteArray) : (toBase64 x).length = (4 * x.length + 2) / 3 := by
  induction x using toBase64.induct with
  | case1 => rfl
  | case2 a => simp [toBase64]
  | case3 a b => simp [toBase64]
  | case4 a b c rest ih =>
    simp only [toBase64, List.length_cons, ih]
    omega

theorem isBase64UrlChar_ne (c : Byte) (h : isBase64UrlChar c = true) :
    c ≠ 61 ∧ c ≠ 43 ∧ c ≠ 47 := by
  refine ⟨?_, ?_, ?_⟩ <;> (intro hc; subst hc; revert h; decide)

/-- C24: for every byte string `d` and every non-empty key, `encrypt` returns a
token that consists only of the characters `A`–`Z`, `a`–`z`, `0`–`9`, `-` and
`_`, so it holds no `=` (61), no `+` (43) and no `/` (47), and whose length
is `ceil(4 * n / 3)` for the length `n` of `d`. -/
theorem encrypt_token (key d : QByteArray) (hk : key ≠ []) :
    ∃ t, encrypt key d = some t ∧
      (∀ c ∈ t, isBase64UrlChar c = true) ∧
      (∀ c ∈ t, c ≠ 61 ∧ c ≠ 43 ∧ c ≠ 47) ∧
      t.length = (4 * d.length + 2) / 3 ∧
      4 * d.length ≤ 3 * t.length ∧ 3 * t.length < 4 * d.length + 3 := by
  obtain ⟨K, _, hlen, henc⟩ := encrypt_some key d hk
  refine ⟨_, henc, toBase64_chars _, ?_, ?_, ?_, ?_⟩
  · intro c hc
    exact isBase64UrlChar_ne c (toBase64_chars _ c hc)
  · rw [toBase64_length, length_xorWith d K hlen]
  · rw [toBase64_length, length_xorWith d K hlen]
    omega
  · rw [toBase64_length, length_xorWith d K hlen]
    omega

theorem encrypt_token_witness :
    sampleKey ≠ [] ∧
    ∃ t, encrypt sampleKey sampleId = some t ∧
      (∀ c ∈ t, isBase64UrlChar c = true) ∧
      (∀ c ∈ t, c ≠ 61 ∧ c ≠ 43 ∧ c ≠ 47) ∧
      t.length = (4 * sampleId.length + 2) / 3 ∧
      4 * sampleId.length ≤ 3 * t.length ∧ 3 * t.length < 4 * sampleId.length + 3 :=
  ⟨by decide, encrypt_token sampleKey sampleId (by decide)⟩

/-! ## Classification by extension and by mime -/

theorem extContains_iff (table : List (QString × QString)) (key : QString) :
    extContains table key = true ↔ key ∈ table.map (fun e => e.1) := by
  simp [extContains]

theorem ext_tables_agree :
    ∀ ext ∈ extKeys,
      (ext ≠ "ogv".toList →
        typeFromMime
            (if extContains m_imgExtMap ext then extValue m_imgExtMap ext
             else if extContains m_musicExtMap ext then extValue m_musicExtMap ext
             else if extContains m_videoExtMap ext then extValue m_videoExtMap ext
             else if extContains m_playlistExtMap ext then extValue m_playlistExtMap ext
             else "application/octet-stream".toList) =
          (if extContains m_imgExtMap ext then ContentType.TypeImage
           else if extContains m_musicExtMap ext then ContentType.TypeMusic
           else if extContains m_videoExtMap ext then ContentType.TypeVideo
           else if extContains m_playlistExtMap ext then ContentType.TypePlaylist
           else ContentType.TypeUnknown)) := by
  decide

/-- C29: for a name whose lower-cased extension is a key of one of the four
extension tables and is not `ogv`, `typeFromMime` of the mime by extension is
the type by extension. For the extension `ogv` the two differ: the type by
extension is video, the mime by extension is `video/ogg`, and `typeFromMime`
takes it for music, as the test for `/ogg` comes first (`clip.ogv` is such a
name). For every other name the mime is `application/octet-stream` and both
classifications give the unknown type. -/
theorem typeFromMime_of_extension (name : QString) :
    (toLower (lastOfSplit '.' name) ∈ extKeys → toLower (lastOfSplit '.' name) ≠ "ogv".toList →
      typeFromMime (getContentMimeByExtension name) = getContentTypeByExtension name) ∧
    (toLower (lastOfSplit '.' name) = "ogv".toList →
      getContentTypeByExtension name = ContentType.TypeVideo ∧
      getContentMimeByExtension name = "video/ogg".toList ∧
      typeFromMime (getContentMimeByExtension name) = ContentType.TypeMusic) ∧
    (toLower (lastOfSplit '.' name) ∉ extKeys →
      getContentMimeByExtension name = "application/octet-stream".toList ∧
      typeFromMime (getContentMimeByExtension name) = ContentType.TypeUnknown ∧
      getContentTypeByExtension name = ContentType.TypeUnknown) ∧
    getContentTypeByExtension "clip.ogv".toList = ContentType.TypeVideo ∧
    typeFromMime (getContentMimeByExtension "clip.ogv".toList) = ContentType.TypeMusic := by
  refine ⟨?_, ?_, ?_, by decide, by decide⟩
  · intro hmem hne
    unfold getContentMimeByExtension getContentTypeByExtension
    exact ext_tables_agree _ hmem hne
  · intro h
    unfold getContentMimeByExtension getContentTypeByExtension
    simp only [h]
    decide
  · intro h
    have hsplit : ∀ table : List (QString × QString),
        (∀ k ∈ table.map (fun e => e.1), k ∈ extKeys) →
        extContains table (toLower (lastOfSplit '.' name)) = false := by
      intro table hsub
      cases hc : extContains table (toLower (lastOfSplit '.' name)) with
      | false => rfl
      | true => exact absurd (hsub _ ((extContains_iff _ _).mp hc)) h
    have h1 := hsplit m_imgExtMap (by decide)
    have h2 := hsplit m_musicExtMap (by decide)
    have h3 := hsplit m_videoExtMap (by decide)
    have h4 := hsplit m_playlistExtMap (by decide)
    unfold getContentMimeByExtension getContentTypeByExtension
    simp only [h1, h2, h3, h4, Bool.false_eq_true, if_false]
    decide

/-! ## Microphone and loopback descriptors -/

/-- C23, as stated, fails: with a capture format of 22050 Hz, 16 bits and one
channel the microphone descriptor has the mime `audio/L16;rate=22050;channels=1`
and the bitrate 352800, which is 22050 × 16 × 1 and not 22050 × (16 / 8) × 1. -/
theorem makeMicItemMeta_bitrate_in_bits :
    (makeMicItemMeta sampleMetaEnv "jupii://mic".toList ⟨[], []⟩).2.map
        (fun e => (e.2.mime, e.2.bitrate, e.2.seekSupported, e.2.size)) =
      some ("audio/L16;rate=22050;channels=1".toList, 352800, false, 0) ∧
    (352800 : Int) ≠ 22050 * (16 / 8) * 1 := by
  decide

/-- C23, amended: the descriptor that `makeMicItemMeta` and
`makePulseItemMeta` store under the URL has `seekSupported = false`,
`size = 0`, the mime `audio/L<bits>;rate=<rate>;channels=<channels>` and the
bitrate rate × bits × channels, where bits is the sample size in bits, the
number that follows `L`: the bitrate counts bits, not bytes, and is eight
times rate × (bits / 8) × channels when the sample size is a multiple of 8.
The loopback format is 44100 Hz for the modes 0 and 1 and 22050 Hz otherwise,
two channels for the modes 0 and 2 and one otherwise. -/
theorem pseudo_url_descriptors (env : MetaEnv) (url : QUrl) (st : MetaState) :
    (∃ st1 m, makeMicItemMeta env url st = (st1, some (url, m)) ∧
      st1.metaCache.find url = some m ∧
      m.seekSupported = false ∧ m.size = 0 ∧
      m.mime = "audio/L".toList ++ numberText env.micSampleSize ++ ";rate=".toList ++
        numberText env.micSampleRate ++ ";channels=".toList ++ numberText env.micChannelCount ∧
      m.bitrate = env.micSampleRate * env.micSampleSize * env.micChannelCount ∧
      (8 ∣ env.micSampleSize →
        m.bitrate = 8 * (env.micSampleRate * (env.micSampleSize / 8) * env.micChannelCount))) ∧
    (∃ st1 m, makePulseItemMeta env url st = (st1, some (url, m)) ∧
      st1.metaCache.find url = some m ∧
      m.seekSupported = false ∧ m.size = 0 ∧
      m.sampleRate = (if env.getPulseMode = 0 ∨ env.getPulseMode = 1 then 44100 else 22050) ∧
      m.channels = (if env.getPulseMode = 0 ∨ env.getPulseMode = 2 then 2 else 1) ∧
      m.mime = "audio/L".toList ++ numberText env.pulseSampleSize ++ ";rate=".toList ++
        numberText m.sampleRate ++ ";channels=".toList ++ numberText m.channels ∧
      m.bitrate = m.sampleRate * env.pulseSampleSize * m.channels ∧
      (8 ∣ env.pulseSampleSize →
        m.bitrate = 8 * (m.sampleRate * (env.pulseSampleSize / 8) * m.channels))) := by
  have h8 : ∀ a b c : Int, 8 ∣ b → a * b * c = 8 * (a * (b / 8) * c) := by
    intro a b c hb
    obtain ⟨k, rfl⟩ := hb
    rw [Int.mul_ediv_cancel_left k (by decide)]
    ring
  constructor
  · exact ⟨_, _, rfl, MetaCache.find_insert_self _ _ _, rfl, rfl, rfl, rfl,
      fun hb => h8 _ _ _ hb⟩
  · exact ⟨_, _, rfl, MetaCache.find_insert_self _ _ _, rfl, rfl, rfl, rfl, rfl, rfl,
      fun hb => h8 _ _ _ hb⟩

/-! ## Invariant of the metadata cache -/

theorem cacheInv_insert (c : MetaCache) (k : QUrl) (m : ItemMeta) (hc : cacheInv c = true)
    (hu : m.url = k) (hv : m.valid = true) : cacheInv (c.insert k m) = true := by
  simp only [cacheInv, List.all_eq_true, Bool.and_eq_true, decide_eq_true_eq] at hc ⊢
  intro e he
  simp only [MetaCache.insert, List.mem_cons, List.mem_filter] at he
  rcases he with rfl | ⟨he, _⟩
  · exact ⟨hu, hv⟩
  · exact hc e he

theorem makeItemMetaUsingTaglib_effect (env : MetaEnv) (url : QUrl) (st : MetaState) :
    ∃ (st1 : MetaState) (m : ItemMeta),
      makeItemMetaUsingTaglib env url st = (st1, some (url, m)) ∧
      st1.metaCache = st.metaCache.insert url m ∧ m.url = url ∧ m.valid = true := by
  unfold makeItemMetaUsingTaglib
  refine ⟨_, _, rfl, rfl, ?_, ?_⟩ <;>
    (rcases env.taglibTag (env.toLocalFile url) with _ | ⟨a, b, c⟩ <;>
      rcases env.taglibAudioProperties (env.toLocalFile url) with _ | ⟨d, e, f, g⟩ <;>
      dsimp only <;> split_ifs <;> rfl)

theorem makeItemMeta_effect (env : MetaEnv) (maxR : Int) (url : QUrl) (st : MetaState) :
    ∃ (st1 : MetaState) (it : Option (QUrl × ItemMeta)),
      makeItemMeta env maxR url st = some (st1, it) ∧
      (it = none → st1.metaCache = st.metaCache) ∧
      (∀ k m, it = some (k, m) →
        st1.metaCache = st.metaCache.insert k m ∧ m.url = k ∧ m.valid = true) := by
  unfold makeItemMeta
  split_ifs with h1 h2 h3 h4
  · cases hrow : env.trackerRow url with
    | none =>
      obtain ⟨st2, m2, hm2, hcache, hurl, hvalid⟩ := makeItemMetaUsingTaglib_effect env url
        { metaCache := st.metaCache, calls := st.calls ++ [MetaCall.tracker url] }
      simp only [makeItemMetaUsingTracker, hrow, hm2]
      refine ⟨st2, some (url, m2), rfl, (by intro h; cases h), ?_⟩
      intro k m h
      simp only [Option.some.injEq, Prod.mk.injEq] at h
      obtain ⟨rfl, rfl⟩ := h
      exact ⟨hcache, hurl, hvalid⟩
    | some row =>
      simp only [makeItemMetaUsingTracker, hrow, MetaCache.find_insert_self, Option.map_some']
      refine ⟨_, _, rfl, (by intro h; cases h), ?_⟩
      intro k m h
      simp only [Option.some.injEq, Prod.mk.injEq] at h
      obtain ⟨rfl, rfl⟩ := h
      exact ⟨rfl, rfl, rfl⟩
  · exact ⟨st, none, rfl, fun _ => rfl, by intro k m h; cases h⟩
  · refine ⟨_, _, rfl, (by intro h; simp [makeMicItemMeta] at h), ?_⟩
    intro k m h
    simp only [makeMicItemMeta, Option.some.injEq, Prod.mk.injEq] at h
    obtain ⟨rfl, rfl⟩ := h
    exact ⟨rfl, rfl, rfl⟩
  · refine ⟨_, _, rfl, (by intro h; simp [makePulseItemMeta] at h), ?_⟩
    intro k m h
    simp only [makePulseItemMeta, Option.some.injEq, Prod.mk.injEq] at h
    obtain ⟨rfl, rfl⟩ := h
    exact ⟨rfl, rfl, rfl⟩
  · obtain ⟨st1, it, reqs, hf, _, _, _, hnone, hsome⟩ :=
      httpLoop_spec env maxR (maxR - 0).toNat url 0 st (le_refl _)
    refine ⟨st1, it, hf _ (Nat.lt_succ_self _), hnone, ?_⟩
    intro k m h
    obtain ⟨hc, c, _, _, hm⟩ := hsome k m h
    rw [hm]
    exact ⟨by rw [hc, hm], rfl, rfl⟩

theorem getMeta_effect (env : MetaEnv) (maxR : Int) (url : QUrl) (createNew : Bool)
    (st : MetaState) :
    ∃ (st1 : MetaState) (r : Option ItemMeta),
      getMeta env maxR url createNew st = some (st1, r) ∧
      (r = none → st1.metaCache = st.metaCache) ∧
      (cacheInv st.metaCache = true → cacheInv st1.metaCache = true) := by
  unfold getMeta getMetaCacheIterator
  cases hfind : st.metaCache.find url with
  | some m => exact ⟨st, some m, rfl, fun _ => rfl, fun h => h⟩
  | none =>
    cases createNew with
    | false => exact ⟨st, none, rfl, fun _ => rfl, fun h => h⟩
    | true =>
      obtain ⟨st1, it, hmk, hnone, hsome⟩ := makeItemMeta_effect env maxR url st
      simp only [if_true, hmk, Option.map_some']
      refine ⟨st1, _, rfl, ?_, ?_⟩
      · intro h
        cases it with
        | none => exact hnone rfl
        | some e => cases h
      · intro hinv
        cases it with
        | none => rw [hnone rfl]; exact hinv
        | some e =>
          obtain ⟨k, m⟩ := e
          obtain ⟨hc, hu, hv⟩ := hsome k m rfl
          rw [hc]
          exact cacheInv_insert _ _ _ hinv hu hv

/-- C30: every call `getMeta(url, createNew)` returns, with either value of
`createNew` and any results of the collaborators; a call that returns no
descriptor leaves the cache as it was; and after any sequence of such calls
from a cache in which every entry has the URL of its key and is valid (the
empty cache is one), every entry of the cache has the URL of its key and is
valid. -/
theorem getMeta_cache_invariant (maxRedirections : Int) (calls : List (MetaEnv × QUrl × Bool))
    (st : MetaState) (h : cacheInv st.metaCache = true) :
    (∃ st1, getMetaCalls maxRedirections calls st = some st1 ∧
      cacheInv st1.metaCache = true ∧
      (∀ k m, (k, m) ∈ st1.metaCache → m.url = k ∧ m.valid = true)) ∧
    (∀ (env : MetaEnv) (url : QUrl) (createNew : Bool),
      ∃ st1 r, getMeta env maxRedirections url createNew st = some (st1, r) ∧
        (r = none → st1.metaCache = st.metaCache)) := by
  constructor
  · induction calls generalizing st with
    | nil =>
      refine ⟨st, rfl, h, ?_⟩
      intro k m hm
      simp only [cacheInv, List.all_eq_true, Bool.and_eq_true, decide_eq_true_eq] at h
      exact h (k, m) hm
    | cons c rest ih =>
      obtain ⟨env, url, createNew⟩ := c
      obtain ⟨st1, r, hget, _, hinv⟩ := getMeta_effect env maxRedirections url createNew st
      obtain ⟨st2, hrun, hinv2, hall⟩ := ih st1 (hinv h)
      refine ⟨st2, ?_, hinv2, hall⟩
      simp only [getMetaCalls, hget]
      exact hrun
  · intro env url createNew
    obtain ⟨st1, r, hget, hnone, _⟩ := getMeta_effect env maxRedirections url createNew st
    exact ⟨st1, r, hget, hnone⟩

theorem getMeta_cache_invariant_witness :
    cacheInv (MetaState.mk [] []).metaCache = true ∧
    ((∃ st1, getMetaCalls 5 sampleGetMetaCalls ⟨[], []⟩ = some st1 ∧
      cacheInv st1.metaCache = true ∧
      (∀ k m, (k, m) ∈ st1.metaCache → m.url = k ∧ m.valid = true)) ∧
    (∀ (env : MetaEnv) (url : QUrl) (createNew : Bool),
      ∃ st1 r, getMeta env 5 url createNew ⟨[], []⟩ = some (st1, r) ∧
        (r = none → st1.metaCache = (MetaState.mk [] []).metaCache))) :=
  ⟨by decide, getMeta_cache_invariant 5 sampleGetMetaCalls ⟨[], []⟩ (by decide)⟩

/-! ## Index safety and pass-through of the de-interleaving -/

/-- C27: a read of `2 * metaint` bytes at `metacounter = 0` whose byte at
`metaint` is 0 (an empty metadata block) makes `nmeta = 2`, and the second pass
of the loop reads its length byte at `start + offset = 2 * metaint + 1`, which
lies behind the end of the buffer: the range check of `data.at` fails. -/
theorem processShoutcastMetadata_reads_outside (M : Nat) (a1 a2 id : QByteArray) (mt sk : Bool)
    (hM : 0 < M) (ha1 : a1.length = M) (ha2 : a2.length + 1 = M) :
    ((a1 ++ (0 : Byte) :: a2).length : Int) = 2 * M ∧
    ((a1 ++ (0 : Byte) :: a2).length : Int) ≤ ((M : Int) - 0) + ((0 + 1) * (M : Int) + 0 + (0 + 1)) ∧
    QByteArray_at (a1 ++ (0 : Byte) :: a2) ((M : Int) - 0 + ((0 + 1) * M + 0 + (0 + 1))) = none ∧
    processShoutcastMetadata (a1 ++ (0 : Byte) :: a2)
        { id := id, meta := mt, seek := sk, state := 1, metaint := M, metacounter := 0,
          data := [] } = none := by
  have hcount : (((a1 ++ (0 : Byte) :: a2).length : Nat) : Int) = 2 * (M : Int) := by
    simp only [List.length_append, List.length_cons, ha1]; omega
  have hat1 : QByteArray_at (a1 ++ (0 : Byte) :: a2)
      ((M : Int) - 0 + ((0 + 1) * M + 0 + (0 + 1))) = none := by
    unfold QByteArray_at
    rw [if_neg (by rw [hcount]; omega)]
  refine ⟨hcount, by rw [hcount]; omega, hat1, ?_⟩
  unfold processShoutcastMetadata
  simp only [hcount, zero_add]
  have hb : 2 * (M : Int) > M := by omega
  have hassert : ¬ ¬ ((M : Int) ≥ 0) := by omega
  have hM0 : ¬ ((M : Int) = 0) := by omega
  have hdiv : Int.tdiv (2 * (M : Int)) M = 2 :=
    tdiv_of_bounds _ _ 2 (by omega) (by omega) (by omega) (by omega)
  simp only [hb, if_true, hassert, if_false, hM0, hdiv]
  have hat0 : QByteArray_at (a1 ++ (0 : Byte) :: a2) ((M : Int) - 0 + (0 * M + 0 + 0)) = some 0 :=
    QByteArray_at_append a1 _ _ _ (by rw [ha1]; omega)
  have hz : (((0 : Byte).val : Nat) : Int) = 0 := rfl
  have hsz0 : ¬ (16 * (0 : Int) > 2 * (M : Int) - ((M : Int) - 0 + (0 * M + 0 + 0))) := by omega
  have hpos0 : ¬ (16 * (0 : Int) > 0) := by omega
  have h2 : Int.toNat 2 = 2 := rfl
  simp only [h2, metaLoop, hat0, hz, hsz0, if_false, hpos0, hat1]

theorem processShoutcastMetadata_reads_outside_witness :
    0 < 8192 ∧ (List.replicate 8192 (170 : Byte)).length = 8192 ∧
    (List.replicate 8191 (171 : Byte)).length + 1 = 8192 ∧
    (((List.replicate 8192 (170 : Byte) ++ (0 : Byte) :: List.replicate 8191 (171 : Byte)).length
        : Int) = 2 * (8192 : Nat) ∧
    ((List.replicate 8192 (170 : Byte) ++ (0 : Byte) :: List.replicate 8191 (171 : Byte)).length
        : Int) ≤ (((8192 : Nat) : Int) - 0) + ((0 + 1) * ((8192 : Nat) : Int) + 0 + (0 + 1)) ∧
    QByteArray_at (List.replicate 8192 (170 : Byte) ++ (0 : Byte) :: List.replicate 8191 (171 : Byte))
        (((8192 : Nat) : Int) - 0 + ((0 + 1) * ((8192 : Nat) : Int) + 0 + (0 + 1))) = none ∧
    processShoutcastMetadata
        (List.replicate 8192 (170 : Byte) ++ (0 : Byte) :: List.replicate 8191 (171 : Byte))
        { id := [1], meta := false, seek := false, state := 1, metaint := (8192 : Nat),
          metacounter := 0, data := [] } = none) :=
  ⟨by decide, List.length_replicate _ _, by rw [List.length_replicate],
    processShoutcastMetadata_reads_outside 8192 (List.replicate 8192 (170 : Byte))
      (List.replicate 8191 (171 : Byte)) [1] false false (by decide) (List.length_replicate _ _)
      (by rw [List.length_replicate])⟩

theorem QByteArray_remove_mid_tail (d : QByteArray) (p : Int) (h0 : 0 ≤ p)
    (h1 : p < d.length) :
    QByteArray_remove d p ((d.length : Int) - p) ++ QByteArray_mid d p ((d.length : Int) - p) =
      d := by
  unfold QByteArray_remove QByteArray_mid
  have c1 : ¬ ((d.length : Int) - p ≤ 0 ∨ p < 0 ∨ p ≥ d.length) := by omega
  have c2 : (d.length : Int) - p ≥ d.length - p := le_refl _
  have c3 : ¬ (p > d.length) := by omega
  have c4 : ¬ (p < 0) := by omega
  have c5 : ¬ ((d.length : Int) - p < 0 ∨ (d.length : Int) - p > d.length - p) := by omega
  rw [if_neg c1, if_pos c2, if_neg c3, if_neg c4, if_neg c5]
  have ht : ((d.length : Int) - p).toNat = d.length - p.toNat := by omega
  have hl : (List.drop p.toNat d).length ≤ d.length - p.toNat := by rw [List.length_drop]
  rw [ht, List.take_of_length_le hl, List.take_append_drop]

theorem QByteArray_at_some_range (d : QByteArray) (p : Int) (b : Byte)
    (h : QByteArray_at d p = some b) : 0 ≤ p ∧ p < d.length := by
  unfold QByteArray_at at h
  by_cases hp : 0 ≤ p ∧ p < d.length
  · exact hp
  · rw [if_neg hp] at h
    cases h

theorem metaLoop_meta (data : QByteArray) (item : ProxyItem) (bytes : Int)
    (hm : item.meta = true) :
    ∀ (n : Nat) (i totalsize : Int) (rpoints : List (Int × Int)) (emitted : List MetadataSignal)
      (r : MetaLoop),
      metaLoop data item data.length bytes n i totalsize rpoints emitted = some r →
      match r with
      | MetaLoop.earlyReturn data1 item1 _ =>
        data1 ++ item1.data = data ∧ item1.meta = true ∧ item1.state = item.state ∧
          item1.metaint = item.metaint
      | MetaLoop.finished _ rpoints1 _ => rpoints1 = rpoints := by
  intro n
  induction n with
  | zero =>
    intro i totalsize rpoints emitted r h
    simp only [metaLoop, Option.some.injEq] at h
    subst h
    rfl
  | succ n ih =>
    intro i totalsize rpoints emitted r h
    rw [metaLoop] at h
    cases hat : QByteArray_at data (item.metaint - item.metacounter +
        (i * item.metaint + totalsize + i)) with
    | none => simp only [hat] at h; cases h
    | some b =>
      obtain ⟨hp0, hp1⟩ := QByteArray_at_some_range _ _ _ hat
      simp only [hat, hm, Bool.not_true, Bool.false_eq_true, if_false] at h
      split_ifs at h with hsz
      · simp only [Option.some.injEq] at h
        subst h
        exact ⟨QByteArray_remove_mid_tail data _ hp0 hp1, rfl, rfl, rfl⟩
      · exact ih _ _ _ _ r h
      · exact ih _ _ _ _ r h

theorem processShoutcastMetadata_meta (data : QByteArray) (item : ProxyItem) (r : Processed)
    (hm : item.meta = true) (hd : item.data = [])
    (h : processShoutcastMetadata data item = some r) :
    r.data ++ r.item.data = data ∧ r.item.meta = true ∧ r.item.state = item.state ∧
      r.item.metaint = item.metaint := by
  unfold processShoutcastMetadata at h
  simp only [] at h
  split_ifs at h with h1 h2 h3
  · cases hl : metaLoop data item data.length (item.metacounter + data.length)
        (Int.tdiv (item.metacounter + data.length) item.metaint).toNat 0 0 [] [] with
    | none => simp only [hl] at h; cases h
    | some ml =>
      have hml := metaLoop_meta data item _ hm _ _ _ _ _ ml hl
      cases ml with
      | earlyReturn data1 item1 em =>
        simp only [hl, Option.some.injEq] at h
        subst h
        exact hml
      | finished ts rp em =>
        simp only [hl, Option.some.injEq] at h
        subst h
        simp only [hm, Bool.not_true, Bool.false_and, Bool.false_eq_true, if_false, hd,
          List.append_nil]
        exact ⟨trivial, trivial, trivial, trivial⟩
  · simp only [Option.some.injEq] at h
    subst h
    simp only [hd, List.append_nil]
    exact ⟨trivial, hm, trivial, trivial⟩

theorem proxyReadyRead_meta (item : ProxyItem) (resp : QHttpResponse) (read : QByteArray)
    (out : ReadOut) (hm : item.meta = true) (hs : item.state = 1)
    (hf : resp.finished = false) (hh : resp.isHeaderWritten = true)
    (h : proxyReadyRead item resp read = some out) :
    ∃ item1, out.item = some item1 ∧ item1.meta = true ∧ item1.state = 1 ∧
      out.resp.finished = false ∧ out.resp.isHeaderWritten = true ∧
      out.resp.body ++ item1.data = resp.body ++ item.data ++ read := by
  have hwrite : ∀ d : QByteArray, (resp.write d).finished = false ∧
      (resp.write d).isHeaderWritten = true ∧ (resp.write d).body = resp.body ++ d := by
    intro d
    have e : resp.write d = { resp with body := resp.body ++ d } := by
      simp [QHttpResponse.write, hf, hh]
    rw [e]
    exact ⟨hf, hh, rfl⟩
  unfold proxyReadyRead at h
  rw [if_neg (by simp [hf]), if_pos hs, if_neg (by simp [hh])] at h
  simp only [] at h
  by_cases hde : item.data = []
  · simp only [hde, List.isEmpty_nil, Bool.not_true, Bool.false_eq_true, if_false] at h
    split_ifs at h with hlen hmi
    · cases hp : processShoutcastMetadata read item with
      | none => simp only [hp] at h; cases h
      | some r =>
        simp only [hp, Option.some.injEq] at h
        subst h
        obtain ⟨h1, h2, h3, _⟩ := processShoutcastMetadata_meta read item r hm hde hp
        obtain ⟨w1, w2, w3⟩ := hwrite r.data
        refine ⟨r.item, rfl, h2, by rw [h3, hs], w1, w2, ?_⟩
        simp only [w3, hde, List.append_nil, List.append_assoc, h1]
    · simp only [Option.some.injEq] at h
      subst h
      obtain ⟨w1, w2, w3⟩ := hwrite read
      exact ⟨item, rfl, hm, hs, w1, w2, by simp only [w3, hde, List.append_nil]⟩
    · simp only [Option.some.injEq] at h
      subst h
      have hr : read = [] := List.eq_nil_of_length_eq_zero (by omega)
      exact ⟨item, rfl, hm, hs, hf, hh, by rw [hr, List.append_nil]⟩
  · have hne : item.data.isEmpty = false := by
      cases hd : item.data with
      | nil => exact absurd hd hde
      | cons a t => rfl
    simp only [hne, Bool.not_false, if_true] at h
    split_ifs at h with hlen hmi
    · cases hp : processShoutcastMetadata (item.data ++ read) { item with data := [] } with
      | none => simp only [hp] at h; cases h
      | some r =>
        simp only [hp, Option.some.injEq] at h
        subst h
        obtain ⟨h1, h2, h3, _⟩ :=
          processShoutcastMetadata_meta (item.data ++ read) { item with data := [] } r hm rfl hp
        obtain ⟨w1, w2, w3⟩ := hwrite r.data
        refine ⟨r.item, rfl, h2, by rw [h3]; exact hs, w1, w2, ?_⟩
        simp only [w3, List.append_assoc, h1]
    · simp only [Option.some.injEq] at h
      subst h
      obtain ⟨w1, w2, w3⟩ := hwrite (item.data ++ read)
      exact ⟨_, rfl, hm, hs, w1, w2, by simp only [w3, List.append_nil, List.append_assoc]⟩
    · exfalso
      apply hlen
      cases hd : item.data with
      | nil => exact absurd hd hde
      | cons a t => simp [hd]

/-- C28: for an item whose `meta` flag is set, in state 1, with the head of
the client response written and the response not finished, and for every
sequence of reads that `proxyReadyRead` processes with no failed index check,
the item stays registered and the bytes written to the client followed by the
carry-over buffer `item.data` are the bytes that were there before followed
by all bytes read, in their order. -/
theorem proxyReads_pass_through (item : ProxyItem) (resp : QHttpResponse)
    (reads : List QByteArray) (out : ReadOut)
    (hm : item.meta = true) (hs : item.state = 1)
    (hf : resp.finished = false) (hh : resp.isHeaderWritten = true)
    (h : proxyReads item resp reads = some out) :
    ∃ item1, out.item = some item1 ∧
      out.resp.body ++ item1.data = resp.body ++ item.data ++ reads.flatten ∧
      (resp.body = [] → item.data = [] → out.resp.body ++ item1.data = reads.flatten) := by
  have key : ∀ (reads : List QByteArray) (item : ProxyItem) (resp : QHttpResponse)
      (out : ReadOut), item.meta = true → item.state = 1 → resp.finished = false →
      resp.isHeaderWritten = true → proxyReads item resp reads = some out →
      ∃ item1, out.item = some item1 ∧
        out.resp.body ++ item1.data = resp.body ++ item.data ++ reads.flatten := by
    intro reads
    induction reads with
    | nil =>
      intro item resp out _ _ _ _ h
      simp only [proxyReads, Option.some.injEq] at h
      subst h
      exact ⟨item, rfl, by simp⟩
    | cons r rs ih =>
      intro item resp out hm hs hf hh h
      rw [proxyReads] at h
      cases hr : proxyReadyRead item resp r with
      | none => simp only [hr] at h; cases h
      | some o =>
        obtain ⟨item1, ho, hm1, hs1, hf1, hh1, hbody⟩ :=
          proxyReadyRead_meta item resp r o hm hs hf hh hr
        simp only [hr, ho] at h
        cases hrs : proxyReads item1 o.resp rs with
        | none => simp only [hrs] at h; cases h
        | some o1 =>
          simp only [hrs, Option.some.injEq] at h
          subst h
          obtain ⟨item2, ho2, hbody2⟩ := ih item1 o.resp o1 hm1 hs1 hf1 hh1 hrs
          refine ⟨item2, ho2, ?_⟩
          simp only [hbody2, List.flatten_cons, ← List.append_assoc, hbody]
  obtain ⟨item1, ho, hb⟩ := key reads item resp out hm hs hf hh h
  refine ⟨item1, ho, hb, ?_⟩
  intro h1 h2
  rw [hb, h1, h2]
  rfl

theorem proxyReads_pass_through_witness :
    (sampleProxyItem 32 true).meta = true ∧ (sampleProxyItem 32 true).state = 1 ∧
    (QHttpResponse.fresh.writeHead 200).finished = false ∧
    (QHttpResponse.fresh.writeHead 200).isHeaderWritten = true ∧
    proxyReads (sampleProxyItem 32 true) (QHttpResponse.fresh.writeHead 200) sampleSplitReads =
      some { item := some { sampleProxyItem 32 true with
                            metacounter := 2, data := [] }
             resp := { headers := [], status := some 200,
                       body := sampleSplitReads.flatten, finished := false }
             emitted := [([1], [83, 116, 114, 101, 97, 109, 84, 105, 116, 108, 101, 61, 39, 65,
               39, 59])] } ∧
    ∃ item1, (ReadOut.mk (some { sampleProxyItem 32 true with metacounter := 2, data := [] })
          { headers := [], status := some 200, body := sampleSplitReads.flatten, finished := false }
          [([1], [83, 116, 114, 101, 97, 109, 84, 105, 116, 108, 101, 61, 39, 65, 39, 59])]).item =
        some item1 ∧
      (ReadOut.mk (some { sampleProxyItem 32 true with metacounter := 2, data := [] })
          { headers := [], status := some 200, body := sampleSplitReads.flatten, finished := false }
          [([1], [83, 116, 114, 101, 97, 109, 84, 105, 116, 108, 101, 61, 39, 65, 39, 59])]).resp.body
          ++ item1.data =
        (QHttpResponse.fresh.writeHead 200).body ++ (sampleProxyItem 32 true).data ++
          sampleSplitReads.flatten ∧
      ((QHttpResponse.fresh.writeHead 200).body = [] → (sampleProxyItem 32 true).data = [] →
        (ReadOut.mk (some { sampleProxyItem 32 true with metacounter := 2, data := [] })
          { headers := [], status := some 200, body := sampleSplitReads.flatten, finished := false }
          [([1], [83, 116, 114, 101, 97, 109, 84, 105, 116, 108, 101, 61, 39, 65, 39, 59])]).resp.body
          ++ item1.data = sampleSplitReads.flatten) :=
  ⟨by decide, by decide, by decide, by decide, by decide,
    proxyReads_pass_through (sampleProxyItem 32 true) (QHttpResponse.fresh.writeHead 200)
      sampleSplitReads _ (by decide) (by decide) (by decide) (by decide) (by decide)⟩

/-! ## Proxy events -/

theorem sendEmptyResponse_status (resp : QHttpResponse) (code : Int)
    (hf : resp.finished = false) (hs : resp.status = none) :
    (sendEmptyResponse resp code).status = some code ∧
    (sendEmptyResponse resp code).finished = true ∧
    (sendEmptyResponse resp code).body = resp.body := by
  obtain ⟨hd, st, bd, fn⟩ := resp
  simp only at hf hs
  subst hf hs
  simp [sendEmptyResponse, QHttpResponse.setHeader, QHttpResponse.writeHead, QHttpResponse.end_]

theorem setHeader_status (resp : QHttpResponse) (f v : String) :
    (resp.setHeader f v).status = resp.status ∧ (resp.setHeader f v).finished = resp.finished := by
  unfold QHttpResponse.setHeader
  split_ifs <;> exact ⟨rfl, rfl⟩

theorem copyIcyHeaders_status (pairs : List (QString × QString)) :
    ∀ resp : QHttpResponse, (copyIcyHeaders resp pairs).status = resp.status ∧
      (copyIcyHeaders resp pairs).finished = resp.finished := by
  induction pairs with
  | nil => intro resp; exact ⟨rfl, rfl⟩
  | cons h t ih =>
    intro resp
    unfold copyIcyHeaders
    rw [List.foldl_cons]
    split_ifs
    · have h1 := ih (resp.setHeader (String.mk h.1) (String.mk h.2))
      have h2 := setHeader_status resp (String.mk h.1) (String.mk h.2)
      unfold copyIcyHeaders at h1
      exact ⟨h1.1.trans h2.1, h1.2.trans h2.2⟩
    · exact ih resp

theorem proxyHead_status (fl : DlnaOrgFlags) (flags : Bool) (item : ProxyItem)
    (resp : QHttpResponse) (reply : ProxyReply) :
    (proxyHead fl flags item resp reply).status = resp.status ∧
    (proxyHead fl flags item resp reply).finished = resp.finished := by
  unfold proxyHead
  simp only []
  have hs := setHeader_status
  have hc := copyIcyHeaders_status reply.rawHeaderPairs
  cases reply.contentLength <;>
    cases rawHeader reply.rawHeaderPairs "Accept-Ranges".toList <;>
    cases rawHeader reply.rawHeaderPairs "Content-Range".toList <;>
    simp only [hc, hs] <;> exact ⟨trivial, trivial⟩

/-- C21, as stated, fails for the finished event: with the item still in
state 0 and the origin's status 302, `proxyFinished` ends the client request
with an empty response of status 302, which is below 400. -/
theorem proxyFinished_status_below_400 :
    sampleNewProxyItem.state = 0 ∧
    (proxyFinished sampleNewProxyItem QHttpResponse.fresh (sampleProxyReply 302 [])).resp =
      sendEmptyResponse QHttpResponse.fresh 302 ∧
    (proxyFinished sampleNewProxyItem QHttpResponse.fresh (sampleProxyReply 302 [])).resp.status =
      some 302 := by
  decide

/-- C21, amended: on the metadata event with an error or a status above 299
the client request is ended with an empty response whose status is the
origin's status when that is 400 or more and 404 otherwise, so never below
400; with no error, a status of at most 299 and an empty content type the
status is 404. On the finished event with the item still in state 0 the
status is the origin's status when that is 200 or more and 404 otherwise, so
it is never below 200, but it is below 400 for an origin status from 200 to
399. The status is the one sent when nothing was written to the response
before. -/
theorem proxy_error_status (fl : DlnaOrgFlags) (flags : Bool) (item : ProxyItem)
    (resp : QHttpResponse) (reply : ProxyReply)
    (hf : resp.finished = false) (hs : resp.status = none) :
    ((reply.error ≠ NetworkError.NoError ∨ reply.code > 299) →
      (proxyMetaDataChanged fl flags item resp reply).resp =
        sendEmptyResponse resp (if reply.code ≥ 400 then reply.code else 404) ∧
      (proxyMetaDataChanged fl flags item resp reply).resp.status =
        some (if reply.code ≥ 400 then reply.code else 404) ∧
      (∀ c, (proxyMetaDataChanged fl flags item resp reply).resp.status = some c → 400 ≤ c)) ∧
    (reply.error = NetworkError.NoError → reply.code ≤ 299 → reply.contentType = [] →
      (proxyMetaDataChanged fl flags item resp reply).resp = sendEmptyResponse resp 404 ∧
      (proxyMetaDataChanged fl flags item resp reply).resp.status = some 404) ∧
    (item.state = 0 →
      (proxyFinished item resp reply).resp =
        sendEmptyResponse resp (if reply.code ≥ 200 then reply.code else 404) ∧
      (proxyFinished item resp reply).resp.status =
        some (if reply.code ≥ 200 then reply.code else 404) ∧
      (∀ c, (proxyFinished item resp reply).resp.status = some c → 200 ≤ c) ∧
      (200 ≤ reply.code → reply.code < 400 →
        (proxyFinished item resp reply).resp.status = some reply.code)) := by
  refine ⟨?_, ?_, ?_⟩
  · intro h
    have e : (proxyMetaDataChanged fl flags item resp reply).resp =
        sendEmptyResponse resp (if reply.code ≥ 400 then reply.code else 404) := by
      unfold proxyMetaDataChanged
      rw [if_pos h]
      by_cases hc : reply.code < 400
      · simp only [proxyTeardown, if_pos hc, if_neg (show ¬ reply.code ≥ 400 by omega)]
      · simp only [proxyTeardown, if_neg hc, if_pos (show reply.code ≥ 400 by omega)]
    refine ⟨e, ?_, ?_⟩
    · rw [e]
      exact (sendEmptyResponse_status resp _ hf hs).1
    · intro c hc
      rw [e, (sendEmptyResponse_status resp _ hf hs).1] at hc
      simp only [Option.some.injEq] at hc
      subst hc
      split_ifs <;> omega
  · intro he hc hm
    have e : (proxyMetaDataChanged fl flags item resp reply).resp = sendEmptyResponse resp 404 := by
      unfold proxyMetaDataChanged
      rw [if_neg (by rw [he]; simp; omega), if_pos (by rw [hm]; rfl)]
      rfl
    exact ⟨e, by rw [e]; exact (sendEmptyResponse_status resp _ hf hs).1⟩
  · intro h0
    have e : (proxyFinished item resp reply).resp =
        sendEmptyResponse resp (if reply.code ≥ 200 then reply.code else 404) := by
      unfold proxyFinished
      simp only [if_pos h0]
      by_cases hc : reply.code < 200
      · simp only [if_pos hc, if_neg (show ¬ reply.code ≥ 200 by omega)]
      · simp only [if_neg hc, if_pos (show reply.code ≥ 200 by omega)]
    refine ⟨e, ?_, ?_, ?_⟩
    · rw [e]
      exact (sendEmptyResponse_status resp _ hf hs).1
    · intro c hc
      rw [e, (sendEmptyResponse_status resp _ hf hs).1] at hc
      simp only [Option.some.injEq] at hc
      subst hc
      split_ifs <;> omega
    · intro h1 _
      rw [e, (sendEmptyResponse_status resp _ hf hs).1, if_pos (show reply.code ≥ 200 by omega)]

theorem proxy_error_status_witness :
    QHttpResponse.fresh.finished = false ∧ QHttpResponse.fresh.status = none ∧
    (((sampleProxyReply 503 []).error ≠ NetworkError.NoError ∨ (sampleProxyReply 503 []).code > 299) →
      (proxyMetaDataChanged sampleDlnaOrgFlags true sampleNewProxyItem QHttpResponse.fresh
          (sampleProxyReply 503 [])).resp =
        sendEmptyResponse QHttpResponse.fresh
          (if (sampleProxyReply 503 []).code ≥ 400 then (sampleProxyReply 503 []).code else 404) ∧
      (proxyMetaDataChanged sampleDlnaOrgFlags true sampleNewProxyItem QHttpResponse.fresh
          (sampleProxyReply 503 [])).resp.status =
        some (if (sampleProxyReply 503 []).code ≥ 400 then (sampleProxyReply 503 []).code else 404) ∧
      (∀ c, (proxyMetaDataChanged sampleDlnaOrgFlags true sampleNewProxyItem QHttpResponse.fresh
          (sampleProxyReply 503 [])).resp.status = some c → 400 ≤ c)) ∧
    ((sampleProxyReply 503 []).error = NetworkError.NoError → (sampleProxyReply 503 []).code ≤ 299 →
      (sampleProxyReply 503 []).contentType = [] →
      (proxyMetaDataChanged sampleDlnaOrgFlags true sampleNewProxyItem QHttpResponse.fresh
          (sampleProxyReply 503 [])).resp = sendEmptyResponse QHttpResponse.fresh 404 ∧
      (proxyMetaDataChanged sampleDlnaOrgFlags true sampleNewProxyItem QHttpResponse.fresh
          (sampleProxyReply 503 [])).resp.status = some 404) ∧
    (sampleNewProxyItem.state = 0 →
      (proxyFinished sampleNewProxyItem QHttpResponse.fresh (sampleProxyReply 503 [])).resp =
        sendEmptyResponse QHttpResponse.fresh
          (if (sampleProxyReply 503 []).code ≥ 200 then (sampleProxyReply 503 []).code else 404) ∧
      (proxyFinished sampleNewProxyItem QHttpResponse.fresh (sampleProxyReply 503 [])).resp.status =
        some (if (sampleProxyReply 503 []).code ≥ 200 then (sampleProxyReply 503 []).code else 404) ∧
      (∀ c, (proxyFinished sampleNewProxyItem QHttpResponse.fresh
          (sampleProxyReply 503 [])).resp.status = some c → 200 ≤ c) ∧
      (200 ≤ (sampleProxyReply 503 []).code → (sampleProxyReply 503 []).code < 400 →
        (proxyFinished sampleNewProxyItem QHttpResponse.fresh
          (sampleProxyReply 503 [])).resp.status = some (sampleProxyReply 503 []).code)) :=
  ⟨by decide, by decide,
    proxy_error_status sampleDlnaOrgFlags true sampleNewProxyItem QHttpResponse.fresh
      (sampleProxyReply 503 []) (by decide) (by decide)⟩

/-- C25, as stated, fails: an item that is already in state 1 and gets another
metadata event with no error, status 200 and the content type `audio/mpeg` is
torn down, and nothing is written to the client response. -/
theorem proxyMetaDataChanged_state_1_torn_down :
    (sampleProxyReply 200 "audio/mpeg".toList).error = NetworkError.NoError ∧
    ¬ ((sampleProxyReply 200 "audio/mpeg".toList).code > 299) ∧
    (sampleProxyReply 200 "audio/mpeg".toList).contentType ≠ [] ∧
    (sampleProxyItem 0 false).state = 1 ∧
    proxyMetaDataChanged sampleDlnaOrgFlags true (sampleProxyItem 0 false)
        (QHttpResponse.fresh.writeHead 200) (sampleProxyReply 200 "audio/mpeg".toList) =
      { item := sampleProxyItem 0 false, resp := QHttpResponse.fresh.writeHead 200,
        removedFromProxyItems := true, removedFromResponseToReplyMap := true,
        itemRemoved := [[1]], aborted := true, deleted := false } := by
  decide

/-- C25, amended: on a metadata event for a registered proxy item the item is
torn down (removed from `proxyItems` and `responseToReplyMap`, `itemRemoved`
emitted, the outbound request aborted) if and only if the origin reports an
error, a status above 299 or an empty content type, or the item is not in
state 0. In every other case the item stays registered with nothing removed,
emitted or aborted, ends in state 1, and the head of the response is written
with the origin's status after the headers of `proxyHead` (the status is the
origin's when the response was not finished and had no head before). -/
theorem proxyMetaDataChanged_teardown (fl : DlnaOrgFlags) (flags : Bool) (item : ProxyItem)
    (resp : QHttpResponse) (reply : ProxyReply) :
    (((proxyMetaDataChanged fl flags item resp reply).tornDown item.id = true) ↔
      (reply.error ≠ NetworkError.NoError ∨ reply.code > 299 ∨ reply.contentType = [] ∨
        item.state ≠ 0)) ∧
    (¬ (reply.error ≠ NetworkError.NoError ∨ reply.code > 299 ∨ reply.contentType = [] ∨
        item.state ≠ 0) →
      (proxyMetaDataChanged fl flags item resp reply).kept = true ∧
      (proxyMetaDataChanged fl flags item resp reply).item.state = 1 ∧
      (proxyMetaDataChanged fl flags item resp reply).resp =
        (proxyHead fl flags item resp reply).writeHead reply.code ∧
      (resp.finished = false → resp.status = none →
        (proxyMetaDataChanged fl flags item resp reply).resp.status = some reply.code)) := by
  have hne : reply.contentType.isEmpty = true ↔ reply.contentType = [] := List.isEmpty_iff
  by_cases h1 : reply.error ≠ NetworkError.NoError ∨ reply.code > 299
  · have e : proxyMetaDataChanged fl flags item resp reply =
        proxyTeardown item (sendEmptyResponse resp (if reply.code < 400 then 404 else reply.code)) := by
      unfold proxyMetaDataChanged
      rw [if_pos h1]
    have hc : reply.error ≠ NetworkError.NoError ∨ reply.code > 299 ∨ reply.contentType = [] ∨
        item.state ≠ 0 := by
      rcases h1 with h | h
      · exact Or.inl h
      · exact Or.inr (Or.inl h)
    refine ⟨⟨fun _ => hc, fun _ => ?_⟩, fun h => absurd hc h⟩
    rw [e]
    simp [ProxyEvent.tornDown, proxyTeardown]
  · by_cases h2 : reply.contentType = []
    · have e : proxyMetaDataChanged fl flags item resp reply =
          proxyTeardown item (sendEmptyResponse resp 404) := by
        unfold proxyMetaDataChanged
        rw [if_neg h1, if_pos (hne.mpr h2)]
      have hc : reply.error ≠ NetworkError.NoError ∨ reply.code > 299 ∨ reply.contentType = [] ∨
          item.state ≠ 0 := Or.inr (Or.inr (Or.inl h2))
      refine ⟨⟨fun _ => hc, fun _ => ?_⟩, fun h => absurd hc h⟩
      rw [e]
      simp [ProxyEvent.tornDown, proxyTeardown]
    · by_cases h3 : item.state = 0
      · have e : proxyMetaDataChanged fl flags item resp reply =
            { item := { item with
                metaint := (match rawHeader reply.rawHeaderPairs "icy-metaint".toList with
                  | some v => (toIntOk v).getD 0
                  | none => item.metaint)
                state := 1 }
              resp := (proxyHead fl flags item resp reply).writeHead reply.code
              removedFromProxyItems := false
              removedFromResponseToReplyMap := false
              itemRemoved := []
              aborted := false
              deleted := false } := by
          unfold proxyMetaDataChanged
          rw [if_neg h1, if_neg (fun h => h2 (hne.mp h)), if_pos h3]
        have hc : ¬ (reply.error ≠ NetworkError.NoError ∨ reply.code > 299 ∨
            reply.contentType = [] ∨ item.state ≠ 0) := by
          rintro (h | h | h | h)
          · exact h1 (Or.inl h)
          · exact h1 (Or.inr h)
          · exact h2 h
          · exact h h3
        refine ⟨⟨fun h => ?_, fun h => absurd h hc⟩, fun _ => ?_⟩
        · rw [e] at h
          simp [ProxyEvent.tornDown] at h
        · rw [e]
          refine ⟨by simp [ProxyEvent.kept], rfl, rfl, ?_⟩
          intro hf hs
          obtain ⟨p1, p2⟩ := proxyHead_status fl flags item resp reply
          simp only [QHttpResponse.writeHead, p2, hf, p1, hs, Bool.false_eq_true, if_false,
            Option.isSome_none]
      · have e : proxyMetaDataChanged fl flags item resp reply = proxyTeardown item resp := by
          unfold proxyMetaDataChanged
          rw [if_neg h1, if_neg (fun h => h2 (hne.mp h)), if_neg h3]
        have hc : reply.error ≠ NetworkError.NoError ∨ reply.code > 299 ∨ reply.contentType = [] ∨
            item.state ≠ 0 := Or.inr (Or.inr (Or.inr h3))
        refine ⟨⟨fun _ => hc, fun _ => ?_⟩, fun h => absurd hc h⟩
        rw [e]
        simp [ProxyEvent.tornDown, proxyTeardown]

/-! ## Stream titles -/

theorem handleEvent_other (st : TitleState) (e : StreamEvent) (id : QUrl) (h : e.id ≠ id) :
    (handleEvent st e).streams id = st.streams id := by
  have h1 : ¬ (id = e.id) := fun hh => h hh.symm
  cases e with
  | itemAdded k =>
    simp only [StreamEvent.id] at h1
    simp [handleEvent, itemAddedHandler, Streams.set, h1]
  | itemRemoved k =>
    simp only [StreamEvent.id] at h1
    unfold handleEvent itemRemovedHandler
    simp only []
    split_ifs <;> simp [Streams.set, Streams.remove, h1]
  | shoutcastMetadata k d =>
    simp only [StreamEvent.id] at h1
    simp [handleEvent, shoutcastMetadataHandler, Streams.set, h1]
  | pulseStreamName k n =>
    simp only [StreamEvent.id] at h1
    simp [handleEvent, pulseStreamNameHandler, Streams.set, h1]

theorem handleEvents_other (id : QUrl) (evs : List StreamEvent) :
    ∀ st : TitleState, (∀ e ∈ evs, e.id ≠ id) →
      (handleEvents st evs).streams id = st.streams id := by
  induction evs with
  | nil => intro st _; rfl
  | cons e r ih =>
    intro st h
    have h1 := ih (handleEvent st e) (fun x hx => h x (List.mem_cons_of_mem _ hx))
    have h2 := handleEvent_other st e id (h e (List.mem_cons_self _ _))
    unfold handleEvents at h1 ⊢
    rw [List.foldl_cons, h1, h2]

theorem streamCount_other (st : TitleState) (e : StreamEvent) (id : QUrl) (h : e.id ≠ id) :
    streamCount (handleEvent st e) id = streamCount st id := by
  unfold streamCount
  rw [handleEvent_other st e id h]

theorem streamCount_added (st : TitleState) (id : QUrl) :
    streamCount (itemAddedHandler st id) id = streamCount st id + 1 := by
  unfold streamCount itemAddedHandler Streams.entry Streams.set
  cases h : st.streams id <;> simp [h, StreamData.empty]

theorem itemRemovedHandler_last (st : TitleState) (id : QUrl) (h : streamCount st id ≤ 1) :
    itemRemovedHandler st id =
      { streams := Streams.remove st.streams id, emitted := st.emitted ++ [(id, [])] } := by
  unfold itemRemovedHandler
  have hc : (Streams.entry st.streams id).count - 1 < 1 := by
    unfold streamCount at h
    unfold Streams.entry
    cases hs : st.streams id with
    | none => simp [StreamData.empty]
    | some d =>
      rw [hs] at h
      simp only at h
      simp only [Option.getD_some]
      omega
  simp only [hc, if_true]

theorem streamCount_removed (st : TitleState) (id : QUrl) (h : 1 ≤ streamCount st id) :
    streamCount (itemRemovedHandler st id) id = streamCount st id - 1 := by
  by_cases h1 : streamCount st id ≤ 1
  · rw [itemRemovedHandler_last st id h1]
    have : streamCount st id = 1 := by omega
    rw [this]
    simp [streamCount, Streams.remove]
  · unfold streamCount at h h1 ⊢
    unfold itemRemovedHandler Streams.entry
    cases hs : st.streams id with
    | none => rw [hs] at h; simp at h
    | some d =>
      rw [hs] at h h1
      simp only at h h1
      simp only [Option.getD_some]
      have hc : ¬ (d.count - 1 < 1) := by omega
      simp only [hc, if_false, Streams.set, if_true]

theorem streamCount_title (st : TitleState) (id : QUrl) (data name : QString) :
    streamCount (shoutcastMetadataHandler st id data) id = streamCount st id ∧
    streamCount (pulseStreamNameHandler st id name) id = streamCount st id := by
  unfold streamCount shoutcastMetadataHandler pulseStreamNameHandler Streams.entry Streams.set
  cases h : st.streams id <;> simp [h, StreamData.empty]

theorem streamCount_run (id : QUrl) (evs : List StreamEvent) :
    ∀ st : TitleState, balanced id evs (streamCount st id) = true →
      streamCount (handleEvents st evs) id =
        streamCount st id + additions id evs - removals id evs := by
  induction evs with
  | nil => intro st _; simp [handleEvents, additions, removals]
  | cons e r ih =>
    intro st hb
    unfold handleEvents
    rw [List.foldl_cons]
    by_cases hid : e.id = id
    · cases e with
      | itemAdded k =>
        simp only [StreamEvent.id] at hid
        subst hid
        simp only [balanced, if_true] at hb
        have hc := streamCount_added st k
        have := ih (handleEvent st (StreamEvent.itemAdded k))
          (by simp only [handleEvent]; rw [hc]; exact hb)
        unfold handleEvents at this
        rw [this]
        simp only [handleEvent, hc, additions, removals, if_true]
        omega
      | itemRemoved k =>
        simp only [StreamEvent.id] at hid
        subst hid
        simp only [balanced, if_true, Bool.and_eq_true, decide_eq_true_eq] at hb
        have hc := streamCount_removed st k hb.1
        have := ih (handleEvent st (StreamEvent.itemRemoved k))
          (by simp only [handleEvent]; rw [hc]; exact hb.2)
        unfold handleEvents at this
        rw [this]
        simp only [handleEvent, hc, additions, removals, if_true]
        omega
      | shoutcastMetadata k d =>
        simp only [StreamEvent.id] at hid
        subst hid
        simp only [balanced] at hb
        have hc := (streamCount_title st k d []).1
        have := ih (handleEvent st (StreamEvent.shoutcastMetadata k d))
          (by simp only [handleEvent]; rw [hc]; exact hb)
        unfold handleEvents at this
        rw [this]
        simp only [handleEvent, hc, additions, removals]
      | pulseStreamName k n =>
        simp only [StreamEvent.id] at hid
        subst hid
        simp only [balanced] at hb
        have hc := (streamCount_title st k [] n).2
        have := ih (handleEvent st (StreamEvent.pulseStreamName k n))
          (by simp only [handleEvent]; rw [hc]; exact hb)
        unfold handleEvents at this
        rw [this]
        simp only [handleEvent, hc, additions, removals]
    · have hc := streamCount_other st e id hid
      have hb1 : balanced id r (streamCount st id) = true := by
        cases e with
        | itemAdded k =>
          simp only [StreamEvent.id] at hid
          simpa only [balanced, if_neg hid] using hb
        | itemRemoved k =>
          simp only [StreamEvent.id] at hid
          simpa only [balanced, if_neg hid] using hb
        | shoutcastMetadata k d => simpa only [balanced] using hb
        | pulseStreamName k n => simpa only [balanced] using hb
      have := ih (handleEvent st e) (by rw [hc]; exact hb1)
      unfold handleEvents at this
      rw [this, hc]
      cases e with
      | itemAdded k =>
        simp only [StreamEvent.id] at hid
        simp only [additions, removals, if_neg hid]
        omega
      | itemRemoved k =>
        simp only [StreamEvent.id] at hid
        simp only [additions, removals, if_neg hid]
        omega
      | shoutcastMetadata k d => simp only [additions, removals]
      | pulseStreamName k n => simp only [additions, removals]

theorem balanced_append (id : QUrl) (a b : List StreamEvent) :
    ∀ c : Int, balanced id (a ++ b) c = true → balanced id a c = true := by
  induction a with
  | nil => intro c _; rfl
  | cons e r ih =>
    intro c h
    cases e with
    | itemAdded k =>
      simp only [List.cons_append, balanced] at h ⊢
      split_ifs at h ⊢ <;> exact ih _ h
    | itemRemoved k =>
      simp only [List.cons_append, balanced] at h ⊢
      split_ifs at h ⊢
      · simp only [Bool.and_eq_true, decide_eq_true_eq] at h ⊢
        exact ⟨h.1, ih _ h.2⟩
      · exact ih _ h
    | shoutcastMetadata k d =>
      simp only [List.cons_append, balanced] at h ⊢
      exact ih _ h
    | pulseStreamName k n =>
      simp only [List.cons_append, balanced] at h ⊢
      exact ih _ h

theorem handleEvents_append (st : TitleState) (a b : List StreamEvent) :
    handleEvents st (a ++ b) = handleEvents (handleEvents st a) b := by
  unfold handleEvents
  rw [List.foldl_append]

theorem balanced_iff_prefixes (id : QUrl) (evs : List StreamEvent) :
    ∀ c : Int, 0 ≤ c →
      (balanced id evs c = true ↔
        ∀ n : Nat, removals id (evs.take n) ≤ c + additions id (evs.take n)) := by
  induction evs with
  | nil =>
    intro c hc
    simp only [balanced, List.take_nil, removals, additions, true_iff]
    intro _
    omega
  | cons e r ih =>
    intro c hc
    have hstep : ∀ (c1 : Int) (da dr : Int), 0 ≤ c1 → 0 ≤ c →
        (∀ l : List StreamEvent, additions id (e :: l) = da + additions id l) →
        (∀ l : List StreamEvent, removals id (e :: l) = dr + removals id l) →
        c1 = c + da - dr →
        ((balanced id r c1 = true) ↔
          ∀ n : Nat, removals id ((e :: r).take (n + 1)) ≤ c + additions id ((e :: r).take (n + 1))) := by
      intro c1 da dr hc1 _ ha hr heq
      rw [ih c1 hc1]
      constructor
      · intro h n
        have := h n
        rw [List.take_succ_cons, ha, hr]
        omega
      · intro h n
        have := h n
        rw [List.take_succ_cons, ha, hr] at this
        omega
    have hzero : removals id ((e :: r).take 0) ≤ c + additions id ((e :: r).take 0) := by
      simp only [List.take_zero, removals, additions]
      omega
    have hsplit : ∀ p : Nat → Prop, p 0 → ((∀ n, p n) ↔ ∀ n, p (n + 1)) := by
      intro p h0
      constructor
      · intro h n
        exact h (n + 1)
      · intro h n
        cases n with
        | zero => exact h0
        | succ m => exact h m
    rw [hsplit (fun n => removals id ((e :: r).take n) ≤ c + additions id ((e :: r).take n)) hzero]
    cases e with
    | itemAdded k =>
      by_cases hk : k = id
      · simp only [balanced, if_pos hk]
        exact hstep (c + 1) 1 0 (by omega) hc
          (fun l => by simp only [additions, if_pos hk])
          (fun l => by simp only [removals, zero_add]) (by omega)
      · simp only [balanced, if_neg hk]
        exact hstep c 0 0 hc hc
          (fun l => by simp only [additions, if_neg hk])
          (fun l => by simp only [removals, zero_add]) (by omega)
    | itemRemoved k =>
      by_cases hk : k = id
      · simp only [balanced, if_pos hk, Bool.and_eq_true, decide_eq_true_eq]
        constructor
        · rintro ⟨h1, h2⟩
          exact (hstep (c - 1) 0 1 (by omega) hc
            (fun l => by simp only [additions, zero_add])
            (fun l => by simp only [removals, if_pos hk]) (by omega)).mp h2
        · intro h
          have h1 : 1 ≤ c := by
            have := h 0
            simp only [zero_add, List.take_succ_cons, List.take_zero, removals, additions,
              if_pos hk] at this
            omega
          exact ⟨h1, (hstep (c - 1) 0 1 (by omega) hc
            (fun l => by simp only [additions, zero_add])
            (fun l => by simp only [removals, if_pos hk]) (by omega)).mpr h⟩
      · simp only [balanced, if_neg hk]
        exact hstep c 0 0 hc hc
          (fun l => by simp only [additions, zero_add])
          (fun l => by simp only [removals, if_neg hk]) (by omega)
    | shoutcastMetadata k d =>
      simp only [balanced]
      exact hstep c 0 0 hc hc
        (fun l => by simp only [additions, zero_add])
        (fun l => by simp only [removals, zero_add]) (by omega)
    | pulseStreamName k nm =>
      simp only [balanced]
      exact hstep c 0 0 hc hc
        (fun l => by simp only [additions, zero_add])
        (fun l => by simp only [removals, zero_add]) (by omega)

/-- C22, as stated, fails: after an addition, its removal and a loopback name
for the same identifier the removals equal the additions, yet `streams` holds
an entry for the identifier (with count 0) and `streamTitle` gives `Song`. -/
theorem streams_title_after_removal :
    balanced sampleStreamId sampleTitleEvents 0 = true ∧
    additions sampleStreamId sampleTitleEvents = removals sampleStreamId sampleTitleEvents ∧
    (handleEvents TitleState.init sampleTitleEvents).streams sampleStreamId =
      some { id := sampleStreamId, title := "Song".toList, count := 0 } ∧
    streamTitle (handleEvents TitleState.init sampleTitleEvents) sampleStreamId =
      "Song".toList := by
  decide

/-- C22, amended: for every sequence of events from the start in which the
removals for an identifier never outnumber its additions, the count of the
entry under the identifier (0 when there is none) is additions minus
removals. A removal that brings the count to zero removes the entry and emits
`streamTitleChanged(id, "")`, and as long as no further event for the
identifier arrives, `streams` holds no entry for it and `streamTitle(id)` is
empty; the same holds when no event for the identifier has arrived at all. A
title event that arrives while the count is zero creates an entry that stays
until the next removal. -/
theorem streams_reference_count (id : QUrl) (pre post : List StreamEvent)
    (hb : balanced id (pre ++ [StreamEvent.itemRemoved id]) 0 = true)
    (hz : additions id pre = removals id pre + 1)
    (hpost : ∀ e ∈ post, e.id ≠ id) :
    (∀ evs, balanced id evs 0 = true →
      streamCount (handleEvents TitleState.init evs) id = additions id evs - removals id evs) ∧
    (∀ evs, (∀ e ∈ evs, e.id ≠ id) →
      (handleEvents TitleState.init evs).streams id = none ∧
      streamTitle (handleEvents TitleState.init evs) id = []) ∧
    streamCount (handleEvents TitleState.init pre) id = 1 ∧
    (handleEvents TitleState.init (pre ++ [StreamEvent.itemRemoved id])).emitted =
      (handleEvents TitleState.init pre).emitted ++ [(id, [])] ∧
    (handleEvents TitleState.init (pre ++ StreamEvent.itemRemoved id :: post)).streams id = none ∧
    streamTitle (handleEvents TitleState.init (pre ++ StreamEvent.itemRemoved id :: post)) id =
      [] := by
  have hrun : ∀ evs, balanced id evs 0 = true →
      streamCount (handleEvents TitleState.init evs) id = additions id evs - removals id evs := by
    intro evs h
    have := streamCount_run id evs TitleState.init h
    rw [this]
    simp [streamCount, TitleState.init]
  have hnone : ∀ evs, (∀ e ∈ evs, e.id ≠ id) →
      (handleEvents TitleState.init evs).streams id = none := by
    intro evs h
    rw [handleEvents_other id evs TitleState.init h]
    rfl
  have hpre : streamCount (handleEvents TitleState.init pre) id = 1 := by
    rw [hrun pre (balanced_append id pre _ 0 hb), hz]
    omega
  have hrem : handleEvents TitleState.init (pre ++ [StreamEvent.itemRemoved id]) =
      { streams := Streams.remove (handleEvents TitleState.init pre).streams id
        emitted := (handleEvents TitleState.init pre).emitted ++ [(id, [])] } := by
    rw [handleEvents_append]
    show itemRemovedHandler (handleEvents TitleState.init pre) id = _
    exact itemRemovedHandler_last _ id (by omega)
  have hfinal : (handleEvents TitleState.init
      (pre ++ StreamEvent.itemRemoved id :: post)).streams id = none := by
    have e : pre ++ StreamEvent.itemRemoved id :: post =
        (pre ++ [StreamEvent.itemRemoved id]) ++ post := by simp
    rw [e, handleEvents_append, handleEvents_other id post _ hpost, hrem]
    simp [Streams.remove]
  refine ⟨hrun, ?_, hpre, by rw [hrem], hfinal, ?_⟩
  · intro evs h
    have := hnone evs h
    exact ⟨this, by unfold streamTitle; rw [this]⟩
  · unfold streamTitle
    rw [hfinal]

theorem streams_reference_count_witness :
    balanced sampleStreamId
      ([StreamEvent.itemAdded sampleStreamId,
        StreamEvent.shoutcastMetadata sampleStreamId "StreamTitle='A';".toList] ++
        [StreamEvent.itemRemoved sampleStreamId]) 0 = true ∧
    additions sampleStreamId
        [StreamEvent.itemAdded sampleStreamId,
          StreamEvent.shoutcastMetadata sampleStreamId "StreamTitle='A';".toList] =
      removals sampleStreamId
        [StreamEvent.itemAdded sampleStreamId,
          StreamEvent.shoutcastMetadata sampleStreamId "StreamTitle='A';".toList] + 1 ∧
    (∀ e ∈ [StreamEvent.itemAdded "http://x/other".toList], e.id ≠ sampleStreamId) ∧
    ((∀ evs, balanced sampleStreamId evs 0 = true →
      streamCount (handleEvents TitleState.init evs) sampleStreamId =
        additions sampleStreamId evs - removals sampleStreamId evs) ∧
    (∀ evs, (∀ e ∈ evs, e.id ≠ sampleStreamId) →
      (handleEvents TitleState.init evs).streams sampleStreamId = none ∧
      streamTitle (handleEvents TitleState.init evs) sampleStreamId = []) ∧
    streamCount (handleEvents TitleState.init
      [StreamEvent.itemAdded sampleStreamId,
        StreamEvent.shoutcastMetadata sampleStreamId "StreamTitle='A';".toList])
      sampleStreamId = 1 ∧
    (handleEvents TitleState.init
        ([StreamEvent.itemAdded sampleStreamId,
          StreamEvent.shoutcastMetadata sampleStreamId "StreamTitle='A';".toList] ++
          [StreamEvent.itemRemoved sampleStreamId])).emitted =
      (handleEvents TitleState.init
        [StreamEvent.itemAdded sampleStreamId,
          StreamEvent.shoutcastMetadata sampleStreamId "StreamTitle='A';".toList]).emitted ++
        [(sampleStreamId, [])] ∧
    (handleEvents TitleState.init
        ([StreamEvent.itemAdded sampleStreamId,
          StreamEvent.shoutcastMetadata sampleStreamId "StreamTitle='A';".toList] ++
          StreamEvent.itemRemoved sampleStreamId ::
            [StreamEvent.itemAdded "http://x/other".toList])).streams sampleStreamId = none ∧
    streamTitle (handleEvents TitleState.init
        ([StreamEvent.itemAdded sampleStreamId,
          StreamEvent.shoutcastMetadata sampleStreamId "StreamTitle='A';".toList] ++
          StreamEvent.itemRemoved sampleStreamId ::
            [StreamEvent.itemAdded "http://x/other".toList])) sampleStreamId = []) :=
  ⟨by decide, by decide, by decide,
    streams_reference_count sampleStreamId
      [StreamEvent.itemAdded sampleStreamId,
        StreamEvent.shoutcastMetadata sampleStreamId "StreamTitle='A';".toList]
      [StreamEvent.itemAdded "http://x/other".toList] (by decide) (by decide) (by decide)⟩

/-! ## Titles from SHOUTcast metadata -/

theorem stripKeyword_some (kw : QString) :
    ∀ (s r : QString), stripKeyword kw s = some r →
      ∃ p, s = p ++ r ∧ p.map Char.toLower = kw.map Char.toLower := by
  induction kw with
  | nil =>
    intro s r h
    simp only [stripKeyword, Option.some.injEq] at h
    exact ⟨[], by rw [h]; rfl, rfl⟩
  | cons k ks ih =>
    intro s r h
    cases s with
    | nil => simp [stripKeyword] at h
    | cons c s1 =>
      simp only [stripKeyword] at h
      split at h
      · rename_i hk
        obtain ⟨p, hp, hl⟩ := ih s1 r h
        refine ⟨c :: p, by rw [hp]; rfl, ?_⟩
        simp only [List.map_cons, hl, hk]
      · cases h

theorem stripKeyword_of_lower (kw : QString) :
    ∀ (p r : QString), p.map Char.toLower = kw.map Char.toLower →
      stripKeyword kw (p ++ r) = some r := by
  induction kw with
  | nil =>
    intro p r h
    have : p = [] := by simpa using h
    subst this
    simp [stripKeyword]
  | cons k ks ih =>
    intro p r h
    cases p with
    | nil => simp at h
    | cons c p1 =>
      simp only [List.map_cons, List.cons.injEq] at h
      simp only [List.cons_append, stripKeyword, h.1, if_true]
      exact ih p1 r h.2

theorem streamTitle_keyword_lower :
    ("StreamTitle=".toList).map Char.toLower = "streamtitle=".toList := by
  decide

theorem streamTitleMatchHere_some (s : QString) (x : QString × Nat)
    (h : streamTitleMatchHere s = some x) :
    "streamtitle=".toList <+: s.map Char.toLower := by
  unfold streamTitleMatchHere at h
  cases hs : stripKeyword "StreamTitle=".toList s with
  | none => rw [hs] at h; cases h
  | some r =>
    obtain ⟨p, hp, hl⟩ := stripKeyword_some _ s r hs
    rw [streamTitle_keyword_lower] at hl
    rw [hp, List.map_append, hl]
    exact List.prefix_append _ _

theorem streamTitleLoop_no_keyword (data : QString) :
    ∀ (skip : Nat) (title : QString), ¬ ("streamtitle=".toList <:+: data.map Char.toLower) →
      streamTitleLoop data skip title = title := by
  induction data with
  | nil => intro skip title _; cases skip <;> rfl
  | cons c r ih =>
    intro skip title h
    have hr : ¬ ("streamtitle=".toList <:+: r.map Char.toLower) := by
      intro hh
      apply h
      rw [List.map_cons]
      exact List.infix_cons hh
    cases skip with
    | succ n =>
      rw [streamTitleLoop]
      exact ih n title hr
    | zero =>
      rw [streamTitleLoop]
      cases hm : streamTitleMatchHere (c :: r) with
      | none => exact ih 0 title hr
      | some x => exact absurd (streamTitleMatchHere_some _ x hm).isInfix h

theorem streamTitleLoop_skip_head (P M : QString) :
    ∀ title : QString, (∀ i, i < P.length → streamTitleMatchHere ((P ++ M).drop i) = none) →
      streamTitleLoop (P ++ M) 0 title = streamTitleLoop M 0 title := by
  induction P with
  | nil => intro title _; rfl
  | cons c P1 ih =>
    intro title h
    have h0 := h 0 (by simp)
    simp only [List.drop_zero, List.cons_append] at h0
    rw [List.cons_append, streamTitleLoop, h0]
    apply ih
    intro i hi
    have := h (i + 1) (by simp only [List.length_cons]; omega)
    simpa using this

theorem streamTitle_keyword_letters :
    ∀ k, k ≤ 10 → ("streamtitle=".toList)[k]? ≠ some '=' := by
  decide

theorem streamTitle_no_match_before (P kw Y : QString)
    (hkw : kw.map Char.toLower = "streamtitle=".toList)
    (hP : ¬ ("streamtitle=".toList <:+: P.map Char.toLower)) :
    ∀ i, i < P.length → streamTitleMatchHere ((P ++ (kw ++ Y)).drop i) = none := by
  intro i hi
  cases hm : streamTitleMatchHere ((P ++ (kw ++ Y)).drop i) with
  | none => rfl
  | some x =>
    exfalso
    have hpre := streamTitleMatchHere_some _ x hm
    rw [List.drop_append_of_le_length (le_of_lt hi), List.map_append, List.map_append, hkw]
      at hpre
    have hlen : ((P.drop i).map Char.toLower).length = P.length - i := by
      rw [List.length_map, List.length_drop]
    by_cases hj : 12 ≤ P.length - i
    · have h1 : "streamtitle=".toList <+: (P.drop i).map Char.toLower :=
        List.prefix_of_prefix_length_le hpre (List.prefix_append _ _) (by rw [hlen]; exact hj)
      apply hP
      have h2 : (P.drop i).map Char.toLower <:+ P.map Char.toLower := by
        rw [List.map_drop]
        exact List.drop_suffix _ _
      exact h1.isInfix.trans h2.isInfix
    · obtain ⟨t, ht⟩ := hpre
      have hget : ("streamtitle=".toList ++ t)[11]? = some '=' := by
        rw [List.getElem?_append_left (by decide)]
        rfl
      rw [ht, List.getElem?_append_right (by rw [hlen]; omega), hlen,
        List.getElem?_append_left (by
          have : ("streamtitle=".toList).length = 12 := by decide
          rw [this]; omega)] at hget
      exact streamTitle_keyword_letters (11 - (P.length - i)) (by omega) hget

theorem takeWhile_title (T rest : QString) (hT : ∀ c ∈ T, c ≠ '\'' ∧ c ≠ ';')
    (hrest : rest = [] ∨ ∃ c r, rest = c :: r ∧ (c = '\'' ∨ c = ';')) :
    (T ++ rest).takeWhile (fun c => decide (c ≠ '\'') && decide (c ≠ ';')) = T := by
  have h1 : ∀ c ∈ T, (fun c => decide (c ≠ '\'') && decide (c ≠ ';')) c = true := by
    intro c hc
    obtain ⟨a, b⟩ := hT c hc
    simp [a, b]
  rw [List.takeWhile_append_of_pos h1]
  rcases hrest with h | ⟨c, r, h, hc⟩
  · subst h
    simp
  · subst h
    rcases hc with hc | hc <;> subst hc <;> simp

theorem streamTitleMatchHere_title (kw q1 T rest : QString)
    (hkw : kw.map Char.toLower = "streamtitle=".toList)
    (hq : q1 = [] ∨ q1 = ['\''])
    (hT : ∀ c ∈ T, c ≠ '\'' ∧ c ≠ ';') (hne : T ≠ [])
    (hrest : rest = [] ∨ ∃ c r, rest = c :: r ∧ (c = '\'' ∨ c = ';')) :
    ∃ len, streamTitleMatchHere (kw ++ (q1 ++ (T ++ rest))) = some (T, len) := by
  have hs : stripKeyword "StreamTitle=".toList (kw ++ (q1 ++ (T ++ rest))) =
      some (q1 ++ (T ++ rest)) :=
    stripKeyword_of_lower _ kw _ (by rw [hkw, streamTitle_keyword_lower])
  have htw := takeWhile_title T rest hT hrest
  unfold streamTitleMatchHere
  rw [hs]
  rcases hq with h | h
  · subst h
    cases T with
    | nil => exact absurd rfl hne
    | cons c0 T1 =>
      have hc0 : c0 ≠ '\'' := (hT c0 (List.mem_cons_self _ _)).1
      have hq1 : leadingQuote (c0 :: T1 ++ rest) = 0 := by
        rw [List.cons_append]
        unfold leadingQuote
        split
        · rename_i heq
          simp only [List.cons.injEq] at heq
          exact absurd heq.1 hc0
        · rfl
      simp only [List.nil_append, hq1, List.drop_zero]
      rw [htw]
      exact ⟨_, rfl⟩
  · subst h
    have hq1 : leadingQuote ('\'' :: (T ++ rest)) = 1 := rfl
    simp only [List.singleton_append, hq1, List.drop_succ_cons, List.drop_zero]
    rw [htw]
    exact ⟨_, rfl⟩

theorem streamTitleLoop_match (s title cap : QString) (len : Nat)
    (hm : streamTitleMatchHere s = some (cap, len)) (hne : trimSpace cap ≠ []) :
    streamTitleLoop s 0 title = trimSpace cap := by
  cases s with
  | nil => simp [streamTitleMatchHere, stripKeyword] at hm
  | cons c r =>
    rw [streamTitleLoop, hm]
    have : (trimSpace cap).isEmpty = false := by
      cases h : trimSpace cap with
      | nil => exact absurd h hne
      | cons a t => rfl
    simp only [this, Bool.not_false, if_true]

/-- C26, as stated, fails: the payload `StreamTitle='A';StreamTitle='B';`
contains `StreamTitle='B';`, yet the title stored and emitted is `A`, the
first match with a non-empty title. -/
theorem shoutcastMetadataHandler_first_title :
    "StreamTitle='B';".toList <:+: "StreamTitle='A';StreamTitle='B';".toList ∧
    streamTitle (shoutcastMetadataHandler TitleState.init sampleStreamId
      "StreamTitle='A';StreamTitle='B';".toList) sampleStreamId = "A".toList ∧
    (shoutcastMetadataHandler TitleState.init sampleStreamId
      "StreamTitle='A';StreamTitle='B';".toList).emitted = [(sampleStreamId, "A".toList)] := by
  decide

/-- C26, amended: `shoutcastMetadataHandler` stores as the title of the
identifier, in the place of any older title, the text of the first match of
`StreamTitle='?([^';]*)'?` (letters of any case, the quotes optional) whose
text without the white space at its ends is not empty, in that trimmed form,
and the empty title when there is no such match; it emits
`streamTitleChanged` with the stored title. For a payload
`P StreamTitle='T' rest` in which `P` does not contain `StreamTitle=` (in any
case), `T` contains no `'` and no `;`, has a character that is no white space,
and is followed by `'`, by `;` or by the end of the payload, the title is `T`
trimmed; for a payload that does not contain `StreamTitle=` it is empty. -/
theorem shoutcastMetadataHandler_title (st : TitleState) (id : QUrl)
    (P kw q1 T rest : QString)
    (hkw : kw.map Char.toLower = "streamtitle=".toList)
    (hq : q1 = [] ∨ q1 = ['\''])
    (hT : ∀ c ∈ T, c ≠ '\'' ∧ c ≠ ';')
    (hne : trimSpace T ≠ [])
    (hrest : rest = [] ∨ ∃ c r, rest = c :: r ∧ (c = '\'' ∨ c = ';'))
    (hP : containsCI P "StreamTitle=".toList = false) :
    streamTitleLoop (P ++ (kw ++ (q1 ++ (T ++ rest)))) 0 [] = trimSpace T ∧
    streamTitle (shoutcastMetadataHandler st id (P ++ (kw ++ (q1 ++ (T ++ rest))))) id =
      trimSpace T ∧
    (shoutcastMetadataHandler st id (P ++ (kw ++ (q1 ++ (T ++ rest))))).emitted =
      st.emitted ++ [(id, trimSpace T)] ∧
    (∀ data : QString,
      streamTitle (shoutcastMetadataHandler st id data) id = streamTitleLoop data 0 [] ∧
      (shoutcastMetadataHandler st id data).emitted =
        st.emitted ++ [(id, streamTitleLoop data 0 [])] ∧
      streamCount (shoutcastMetadataHandler st id data) id = streamCount st id) ∧
    (∀ data : QString, containsCI data "StreamTitle=".toList = false →
      streamTitleLoop data 0 [] = []) ∧
    streamTitleLoop "StreamTitle='';StreamUrl='http://x/';".toList 0 [] = [] := by
  have hPn : ¬ ("streamtitle=".toList <:+: P.map Char.toLower) := by
    intro h
    have : containsCI P "StreamTitle=".toList = true := by
      unfold containsCI
      rw [streamTitle_keyword_lower]
      exact decide_eq_true h
    rw [hP] at this
    cases this
  have hTne : T ≠ [] := by
    intro h
    apply hne
    rw [h]
    rfl
  have hloop : streamTitleLoop (P ++ (kw ++ (q1 ++ (T ++ rest)))) 0 [] = trimSpace T := by
    rw [streamTitleLoop_skip_head P _ []
      (streamTitle_no_match_before P kw _ hkw hPn)]
    obtain ⟨len, hm⟩ := streamTitleMatchHere_title kw q1 T rest hkw hq hT hTne hrest
    exact streamTitleLoop_match _ [] T len hm hne
  have hgen : ∀ data : QString,
      streamTitle (shoutcastMetadataHandler st id data) id = streamTitleLoop data 0 [] ∧
      (shoutcastMetadataHandler st id data).emitted =
        st.emitted ++ [(id, streamTitleLoop data 0 [])] ∧
      streamCount (shoutcastMetadataHandler st id data) id = streamCount st id := by
    intro data
    refine ⟨?_, rfl, (streamCount_title st id data []).1⟩
    simp [streamTitle, shoutcastMetadataHandler, Streams.set]
  refine ⟨hloop, ?_, ?_, hgen, ?_, by decide⟩
  · rw [(hgen _).1, hloop]
  · rw [(hgen _).2.1, hloop]
  · intro data hd
    apply streamTitleLoop_no_keyword
    intro h
    have : containsCI data "StreamTitle=".toList = true := by
      unfold containsCI
      rw [streamTitle_keyword_lower]
      exact decide_eq_true h
    rw [hd] at this
    cases this

theorem shoutcastMetadataHandler_title_witness :
    ("STREAMTITLE=".toList).map Char.toLower = "streamtitle=".toList ∧
    (['\''] = ([] : QString) ∨ ['\''] = ['\'']) ∧
    (∀ c ∈ " Artist - Song ".toList, c ≠ '\'' ∧ c ≠ ';') ∧
    trimSpace " Artist - Song ".toList ≠ [] ∧
    ("';StreamUrl='';".toList = [] ∨
      ∃ c r, "';StreamUrl='';".toList = c :: r ∧ (c = '\'' ∨ c = ';')) ∧
    containsCI "StreamUrl='http://x/';".toList "StreamTitle=".toList = false ∧
    (streamTitleLoop ("StreamUrl='http://x/';".toList ++ ("STREAMTITLE=".toList ++
        (['\''] ++ (" Artist - Song ".toList ++ "';StreamUrl='';".toList)))) 0 [] =
      trimSpace " Artist - Song ".toList ∧
    streamTitle (shoutcastMetadataHandler TitleState.init sampleStreamId
        ("StreamUrl='http://x/';".toList ++ ("STREAMTITLE=".toList ++
          (['\''] ++ (" Artist - Song ".toList ++ "';StreamUrl='';".toList))))) sampleStreamId =
      trimSpace " Artist - Song ".toList ∧
    (shoutcastMetadataHandler TitleState.init sampleStreamId
        ("StreamUrl='http://x/';".toList ++ ("STREAMTITLE=".toList ++
          (['\''] ++ (" Artist - Song ".toList ++ "';StreamUrl='';".toList))))).emitted =
      TitleState.init.emitted ++ [(sampleStreamId, trimSpace " Artist - Song ".toList)] ∧
    (∀ data : QString,
      streamTitle (shoutcastMetadataHandler TitleState.init sampleStreamId data) sampleStreamId =
        streamTitleLoop data 0 [] ∧
      (shoutcastMetadataHandler TitleState.init sampleStreamId data).emitted =
        TitleState.init.emitted ++ [(sampleStreamId, streamTitleLoop data 0 [])] ∧
      streamCount (shoutcastMetadataHandler TitleState.init sampleStreamId data) sampleStreamId =
        streamCount TitleState.init sampleStreamId) ∧
    (∀ data : QString, containsCI data "StreamTitle=".toList = false →
      streamTitleLoop data 0 [] = []) ∧
    streamTitleLoop "StreamTitle='';StreamUrl='http://x/';".toList 0 [] = []) :=
  ⟨by decide, Or.inr rfl, by decide, by decide, Or.inr ⟨_, _, rfl, Or.inl rfl⟩, by decide,
    shoutcastMetadataHandler_title TitleState.init sampleStreamId "StreamUrl='http://x/';".toList
      "STREAMTITLE=".toList ['\''] " Artist - Song ".toList "';StreamUrl='';".toList
      (by decide) (Or.inr rfl) (by decide) (by decide) (Or.inr ⟨_, _, rfl, Or.inl rfl⟩)
      (by decide)⟩

end Jupii
